import Mathlib

/-!
# CompressionDataPointsFilter (pointmatcher/DataPointsFilters/Compression.cpp)

A shallow embedding of `CompressionDataPointsFilter<T>::inPlaceFilter`.

* Scalars of type `T` are exact rationals; rounding is not modelled.
* An out-of-range index, a block that does not fit, or an assignment between
  matrices of different shapes makes the embedded function return `none`.
* `unsigned` counters are natural numbers reduced modulo `2 ^ 32`.
* `utils/Distribution.h`, the k-d tree matcher and the `DataPoints` container
  are not part of the sources: the first two are parameters of the embedding,
  the container is modelled from its description in the specification.
-/

namespace Compression

/-! ## Linear algebra (Eigen) -/

/-- Column vector with `n` rows. -/
abbrev Vec (n : Nat) := { l : List ℚ // l.length = n }

/-- Square matrix with `n` rows, held as its list of columns: `M.1[j]` is `M.col(j)`. -/
abbrev Mat (n : Nat) := { cols : List (Vec n) // cols.length = n }

/-- Dynamic matrix `PM::Matrix` held as a row count and a list of columns. -/
structure Matrix where
  rows : Nat
  cols : List (List ℚ)
deriving DecidableEq

/-- Model of `a + b` on vectors. -/
def Vec.add {n : Nat} (a b : Vec n) : Vec n :=
  ⟨List.zipWith (fun x y => x + y) a.1 b.1, by simp [a.2, b.2]⟩

/-- Model of `a - b` on vectors. -/
def Vec.sub {n : Nat} (a b : Vec n) : Vec n :=
  ⟨List.zipWith (fun x y => x - y) a.1 b.1, by simp [a.2, b.2]⟩

/-- Model of `a.transpose() * b`, a scalar. -/
def Vec.dot {n : Nat} (a b : Vec n) : ℚ :=
  (List.zipWith (fun x y => x * y) a.1 b.1).sum

/-- Entry `M(r, c)`; zero outside the matrix. -/
def Mat.entry {n : Nat} (M : Mat n) (r c : Nat) : ℚ :=
  ((M.1[c]?).bind (fun col => col.1[r]?)).getD 0

/-- Entry `v(r)`; zero outside the vector. -/
def Vec.entry {n : Nat} (v : Vec n) (r : Nat) : ℚ := (v.1[r]?).getD 0

/-- The vector with entries `f 0, ..., f (n - 1)`. -/
def Vec.ofFn (n : Nat) (f : Nat → ℚ) : Vec n := ⟨(List.range n).map f, by simp⟩

/-- The matrix with entries `f r c`. -/
def Mat.ofFn (n : Nat) (f : Nat → Nat → ℚ) : Mat n :=
  ⟨(List.range n).map (fun c => Vec.ofFn n (fun r => f r c)), by simp⟩

/-- Model of `v.transpose() * M`: the row vector of the products of `v` with the columns of `M`. -/
def Mat.vecMul {n : Nat} (v : Vec n) (M : Mat n) : Vec n :=
  ⟨M.1.map (fun col => Vec.dot v col), by simp [M.2]⟩

/-- Model of `s * PM::Matrix::Identity(n, n)`. -/
def Mat.scaledIdentity (s : ℚ) (n : Nat) : Mat n :=
  Mat.ofFn n (fun r c => s * (if r = c then 1 else 0))

/-- Model of `PM::Matrix::Zero(rows, cols)`. -/
def Matrix.Zero (rows cols : Nat) : Matrix :=
  ⟨rows, List.replicate cols (List.replicate rows 0)⟩

/-- Model of `PM::Matrix::Ones(rows, cols)`. -/
def Matrix.Ones (rows cols : Nat) : Matrix :=
  ⟨rows, List.replicate cols (List.replicate rows 1)⟩

/-- The test `std::sqrt(x) <= d` on exact scalars: the root of a negative number is
not a number and compares false with everything. -/
def sqrtLe (x d : ℚ) : Bool :=
  decide (0 ≤ x) && decide (0 ≤ d) && decide (x ≤ d * d)

/-- Model of `v.block(start, 0, len, 1)`: `len` rows of a column starting at row `start`. -/
def block (col : List ℚ) (start len : Nat) : Option (Vec len) :=
  if h : start + len ≤ col.length then
    some ⟨(col.drop start).take len, by simp; omega⟩
  else none

/-- Model of `v.block(start, 0, len, 1) = vals`: overwrite `len` rows of a column. -/
def setBlock {len : Nat} (col : List ℚ) (start : Nat) (vals : Vec len) : Option (List ℚ) :=
  if start + len ≤ col.length then
    some (col.take start ++ vals.1 ++ col.drop (start + len))
  else none

/-- Model of `col.topRows(D)` of a homogeneous column with `D + 1` rows. -/
def topRows {D : Nat} (col : Vec (D + 1)) : Vec D :=
  ⟨col.1.take D, by simp [col.2]⟩

/-- Model of `col.topRows(D) = v`: overwrite the first `D` rows, keep the last one. -/
def setTopRows {D : Nat} (col : Vec (D + 1)) (v : Vec D) : Vec (D + 1) :=
  ⟨v.1 ++ col.1.drop D, by simp [col.2, v.2]⟩

/-- Element of a list at a signed index (`int` ids index Eigen matrices and vectors). -/
def atId {α : Type} (l : List α) (id : Int) : Option α :=
  if 0 ≤ id then l[id.toNat]? else none

/-- Model of `--c` on an `unsigned` counter. -/
def decr (c : Nat) : Nat := (c + 4294967295) % 4294967296

/-! ## Collaborators -/

/-- Interface of `utils/Distribution.h`, which is not part of the sources: the two
constructors, `combine` and the three getters used by the filter. -/
structure DistributionOps (D : Nat) (Dist : Type) where
  /-- Constructor `Distribution(mean, covariance)`. -/
  ofPoint : Vec D → Mat D → Dist
  /-- Constructor `Distribution(mean, covariance, weightSum)`. -/
  ofParts : Vec D → Mat D → Mat D → Dist
  combine : Dist → Dist → Dist
  getMean : Dist → Vec D
  getCovariance : Dist → Mat D
  getWeightSum : Dist → Mat D

/-- One point of the cloud: its homogeneous coordinate column and its descriptor column. -/
structure Point (D : Nat) where
  feature : Vec (D + 1)
  descriptor : List ℚ
deriving DecidableEq

/-- Modelled from the spec: the `DataPoints` container (the Point Set of section 6). The
features and the descriptors are stored point by point, so that all columns of a point
stay in lock-step; `descriptorLabels` gives the name and the row span of every
descriptor, in row order. -/
structure DataPoints (D : Nat) where
  descriptorLabels : List (String × Nat)
  points : List (Point D)
deriving DecidableEq

/-- Model of `PM::Matches`, reduced to its `ids` matrix: `ids[i]` is the column of point `i`,
listing neighbor ids by rank. -/
structure Matches where
  ids : List (List Int)
deriving DecidableEq

/-- The k-d tree matcher (`MatchersImpl<T>::KDTreeMatcher`), which is not part of the
sources: `matcher knn maxDist epsilon cloud` stands for `init(cloud)` followed by
`findClosests(cloud)`. -/
abbrev Matcher (D : Nat) := Nat → Option ℚ → ℚ → DataPoints D → Matches

/-- The parameters read by the constructor; `maxDist = none` is the unbounded radius. -/
structure Parameters where
  knn : Nat
  maxDist : Option ℚ
  epsilon : ℚ
  initialVariance : ℚ
  maxDeviation : ℚ
deriving DecidableEq

/-- Modelled from the spec: `pointCount()`. -/
def DataPoints.getNbPoints {D : Nat} (cloud : DataPoints D) : Nat := cloud.points.length

/-- Row range `(start, span)` of the first label called `name`. -/
def findLabel : List (String × Nat) → String → Nat → Option (Nat × Nat)
  | [], _, _ => none
  | (n, span) :: rest, name, start =>
    if n = name then some (start, span) else findLabel rest name (start + span)

/-- Modelled from the spec: `hasAttribute(name)`. -/
def DataPoints.descriptorExists {D : Nat} (cloud : DataPoints D) (name : String) : Bool :=
  (findLabel cloud.descriptorLabels name 0).isSome

/-- Modelled from the spec: `getAttribute(name)`, read as a copy of the rows of the
descriptor called `name`. -/
def DataPoints.getDescriptorViewByName {D : Nat} (cloud : DataPoints D) (name : String) :
    Option Matrix := do
  let (start, span) ← findLabel cloud.descriptorLabels name 0
  let cols ← cloud.points.mapM (fun p => (block p.descriptor start span).map (fun v => v.1))
  pure ⟨span, cols⟩

/-- Modelled from the spec: assignment of a matrix through the view `getAttribute(name)`;
the shapes have to agree. -/
def DataPoints.setDescriptorView {D : Nat} (cloud : DataPoints D) (name : String)
    (m : Matrix) : Option (DataPoints D) := do
  let (start, span) ← findLabel cloud.descriptorLabels name 0
  if m.rows ≠ span ∨ m.cols.length ≠ cloud.points.length then none
  else
    let pts ← (List.zip cloud.points m.cols).mapM (fun pc =>
      if h : pc.2.length = span then
        (setBlock pc.1.descriptor start (⟨pc.2, h⟩ : Vec span)).map
          (fun d => ({ pc.1 with descriptor := d } : Point D))
      else none)
    pure { cloud with points := pts }

/-- Modelled from the spec: `addAttribute(name, initialValue)`; the new rows are appended
to every descriptor column. -/
def DataPoints.addDescriptor {D : Nat} (cloud : DataPoints D) (name : String)
    (m : Matrix) : Option (DataPoints D) :=
  if m.cols.length ≠ cloud.points.length ∨ ∃ c ∈ m.cols, c.length ≠ m.rows then none
  else
    some { descriptorLabels := cloud.descriptorLabels ++ [(name, m.rows)],
           points := List.zipWith
             (fun p c => ({ p with descriptor := p.descriptor ++ c } : Point D))
             cloud.points m.cols }

/-- Modelled from the spec: `copyColumn(srcIndex, destIndex)`, called
`setColFrom(thisCol, that, thatCol)` with `that` the cloud itself. -/
def DataPoints.setColFrom {D : Nat} (cloud : DataPoints D) (thisCol thatCol : Nat) :
    Option (DataPoints D) := do
  let p ← cloud.points[thatCol]?
  if thisCol < cloud.points.length then
    pure { cloud with points := cloud.points.set thisCol p }
  else none

/-- Modelled from the spec: `shrinkTo(newCount)`. -/
def DataPoints.conservativeResize {D : Nat} (cloud : DataPoints D) (pointCount : Nat) :
    Option (DataPoints D) :=
  if pointCount ≤ cloud.points.length then
    some { cloud with points := cloud.points.take pointCount }
  else none

/-- Modelled from the spec: a block of a descriptor view, `view.block(off, i, len, 1)`,
read from the descriptor column of point `i`. -/
def DataPoints.viewBlock {D : Nat} (cloud : DataPoints D) (name : String) (off i len : Nat) :
    Option (Vec len) := do
  let (start, span) ← findLabel cloud.descriptorLabels name 0
  let pt ← cloud.points[i]?
  if off + len ≤ span then block pt.descriptor (start + off) len else none

/-- Modelled from the spec: `view.block(off, i, len, 1) = vals` on a descriptor view. -/
def DataPoints.setViewBlock {D len : Nat} (cloud : DataPoints D) (name : String)
    (off i : Nat) (vals : Vec len) : Option (DataPoints D) := do
  let (start, span) ← findLabel cloud.descriptorLabels name 0
  let pt ← cloud.points[i]?
  if off + len ≤ span then
    let d ← setBlock pt.descriptor (start + off) vals
    pure { cloud with points := cloud.points.set i { pt with descriptor := d } }
  else none

/-! ## The filter -/

/-- Lines 47-53: the `D x D` matrix whose column `j` is the block of `D` rows starting
at row `j * D` of column `i` of the descriptor `name`. -/
def unflatten {D : Nat} (cloud : DataPoints D) (name : String) (i : Nat) : Option (Mat D) := do
  let cols ← (List.range D).mapM (fun j => cloud.viewBlock name (j * D) i D)
  if h : cols.length = D then some ⟨cols, h⟩ else none

/-- Lines 31-57: the per-point distributions and the working `nbPoints` matrix. -/
def initSummaries {D : Nat} {Dist : Type} (ops : DistributionOps D Dist) (p : Parameters)
    (cloud : DataPoints D) : Option (List Dist × Matrix) :=
  if !cloud.descriptorExists "covariance" || !cloud.descriptorExists "weightSum"
      || !cloud.descriptorExists "nbPoints" then
    some (cloud.points.map (fun pt =>
            ops.ofPoint (topRows pt.feature) (Mat.scaledIdentity p.initialVariance D)),
          Matrix.Ones 1 cloud.getNbPoints)
  else do
    let _ ← cloud.getDescriptorViewByName "covariance"
    let _ ← cloud.getDescriptorViewByName "weightSum"
    let distributions ← (List.range cloud.getNbPoints).mapM (fun i => do
      let pt ← cloud.points[i]?
      let covariance ← unflatten cloud "covariance" i
      let weightSum ← unflatten cloud "weightSum" i
      pure (ops.ofParts (topRows pt.feature) covariance weightSum))
    let nbPoints ← cloud.getDescriptorViewByName "nbPoints"
    pure (distributions, nbPoints)

/-- The variables mutated by the merge loop (lines 68-107). -/
structure MergeState (D : Nat) (Dist : Type) where
  cloud : DataPoints D
  distributions : List Dist
  nbPoints : Matrix
  masks : List Bool
  currentNbPoints : Nat

/-- Lines 83-87: one iteration of the accumulator loop, for rank `j` of the column `col`
of neighbor ids. -/
def accumulateStep {D : Nat} {Dist : Type} (ops : DistributionOps D Dist) (col : List Int)
    (masks : List Bool) (distributions : List Dist) (neighborhoodDistribution : Dist)
    (j : Nat) : Option Dist := do
  let id ← col[j]?
  let m ← atId masks id
  if !m then pure neighborhoodDistribution
  else
    let d ← atId distributions id
    pure (ops.combine neighborhoodDistribution d)

/-- Lines 80-88: the neighborhood distribution of the point whose neighbor column is `col`. -/
def neighborhood {D : Nat} {Dist : Type} (ops : DistributionOps D Dist) (knn : Nat)
    (col : List Int) (masks : List Bool) (distributions : List Dist) : Option Dist := do
  let id0 ← col[0]?
  let d0 ← atId distributions id0
  (List.range' 1 (knn - 1)).foldlM (accumulateStep ops col masks distributions) d0

/-- Lines 98-103: one iteration of the absorption loop of point `i`, for rank `j`. -/
def absorbStep {D : Nat} {Dist : Type} (col : List Int) (i : Nat) (st : MergeState D Dist)
    (j : Nat) : Option (MergeState D Dist) := do
  let id ← col[j]?
  let m ← atId st.masks id
  if m then
    let ci ← st.nbPoints.cols[i]?
    let x ← ci[0]?
    let cn ← atId st.nbPoints.cols id
    let y ← cn[0]?
    pure { st with
      nbPoints := { st.nbPoints with cols := st.nbPoints.cols.set i (ci.set 0 (x + y)) },
      masks := st.masks.set id.toNat false,
      currentNbPoints := decr st.currentNbPoints }
  else pure st

/-- Lines 89-90 and the test of line 92: whether the merge of point `i` into the
neighborhood distribution is accepted. -/
def accepted {D : Nat} {Dist : Type} (ops : DistributionOps D Dist) (maxDeviation : ℚ)
    (neighborhoodDistribution : Dist) (feature : Vec (D + 1)) (own : Dist) : Bool :=
  let delta := Vec.sub (ops.getMean neighborhoodDistribution) (topRows feature)
  sqrtLe (Vec.dot (Mat.vecMul delta (ops.getCovariance own)) delta) maxDeviation

/-- Lines 75-105: the body of the loop over the points, for point `i`. -/
def stepPoint {D : Nat} {Dist : Type} (ops : DistributionOps D Dist) (p : Parameters)
    (ms : Matches) (st : MergeState D Dist) (i : Nat) : Option (MergeState D Dist) := do
  let m ← st.masks[i]?
  if !m then pure st
  else
    let col ← ms.ids[i]?
    let neighborhoodDistribution ← neighborhood ops p.knn col st.masks st.distributions
    let pt ← st.cloud.points[i]?
    let own ← st.distributions[i]?
    if accepted ops p.maxDeviation neighborhoodDistribution pt.feature own then
      let moved : Point D :=
        { pt with feature := setTopRows pt.feature (ops.getMean neighborhoodDistribution) }
      let st1 : MergeState D Dist :=
        { st with
          cloud := { st.cloud with points := st.cloud.points.set i moved },
          distributions := st.distributions.set i neighborhoodDistribution }
      (List.range' 1 (p.knn - 1)).foldlM (absorbStep col i) st1
    else pure st

/-- Lines 73-106: one pass over all the points. -/
def pass {D : Nat} {Dist : Type} (ops : DistributionOps D Dist) (p : Parameters)
    (ms : Matches) (st : MergeState D Dist) : Option (MergeState D Dist) :=
  (List.range st.cloud.getNbPoints).foldlM (stepPoint ops p ms) st

/-- Lines 70-107: the `while` loop, with a bound `fuel` on the number of passes; the
result is the final state and the number of passes that were run. `none` also when the
bound is reached before the loop condition fails. -/
def mergeLoop {D : Nat} {Dist : Type} (ops : DistributionOps D Dist) (p : Parameters)
    (ms : Matches) : Nat → MergeState D Dist → Nat → Option (MergeState D Dist × Nat)
  | 0, st, lastNbPoints => if st.currentNbPoints = lastNbPoints then some (st, 0) else none
  | fuel + 1, st, lastNbPoints =>
    if st.currentNbPoints = lastNbPoints then some (st, 0)
    else do
      let st1 ← pass ops p ms st
      let r ← mergeLoop ops p ms fuel st1 st.currentNbPoints
      pure (r.1, r.2 + 1)

/-- Lines 68-69: the state in which the merge loop starts. -/
def initState {D : Nat} {Dist : Type} (cloud : DataPoints D) (distributions : List Dist)
    (nbPoints : Matrix) : MergeState D Dist :=
  { cloud := cloud, distributions := distributions, nbPoints := nbPoints,
    masks := List.replicate cloud.getNbPoints true,
    currentNbPoints := cloud.getNbPoints % 4294967296 }

/-- Lines 109-112 and 113-116: add the descriptor `name`, all zero with `D ^ 2` rows,
unless the cloud has it. -/
def ensureZero {D : Nat} (cloud : DataPoints D) (name : String) : Option (DataPoints D) :=
  if !cloud.descriptorExists name then
    cloud.addDescriptor name (Matrix.Zero (D ^ 2) cloud.getNbPoints)
  else some cloud

/-- Lines 109-124: make sure the three descriptors exist and store `nbPoints`. -/
def ensureDescriptors {D : Nat} (cloud : DataPoints D) (nbPoints : Matrix) :
    Option (DataPoints D) := do
  let c1 ← ensureZero cloud "covariance"
  let c2 ← ensureZero c1 "weightSum"
  if !c2.descriptorExists "nbPoints" then c2.addDescriptor "nbPoints" nbPoints
  else c2.setDescriptorView "nbPoints" nbPoints

/-- Lines 135-139: the columns of the covariance and of the weight sum of a live point
written into its descriptor column. -/
def flattenStep {D : Nat} (covariance weightSum : Mat D) (i : Nat) (cloud : DataPoints D)
    (j : Nat) : Option (DataPoints D) := do
  let cj ← covariance.1[j]?
  let c1 ← cloud.setViewBlock "covariance" (j * D) i cj
  let wj ← weightSum.1[j]?
  c1.setViewBlock "weightSum" (j * D) i wj

/-- Lines 131-142: the body of the compaction loop, for point `i`; the state is the
cloud and `totalNbPoints`. -/
def compactStep {D : Nat} {Dist : Type} (ops : DistributionOps D Dist)
    (masks : List Bool) (distributions : List Dist) (acc : DataPoints D × Nat) (i : Nat) :
    Option (DataPoints D × Nat) := do
  let m ← masks[i]?
  if m then
    let di ← distributions[i]?
    let c1 ← (List.range D).foldlM
      (flattenStep (ops.getCovariance di) (ops.getWeightSum di) i) acc.1
    let c2 ← c1.setColFrom acc.2 i
    pure (c2, acc.2 + 1)
  else pure acc

/-- Lines 126-144: write the summaries back, compact the cloud and shrink it. -/
def compact {D : Nat} {Dist : Type} (ops : DistributionOps D Dist)
    (masks : List Bool) (distributions : List Dist) (cloud : DataPoints D) :
    Option (DataPoints D) := do
  let _ ← cloud.getDescriptorViewByName "covariance"
  let _ ← cloud.getDescriptorViewByName "weightSum"
  let r ← (List.range cloud.getNbPoints).foldlM (compactStep ops masks distributions) (cloud, 0)
  r.1.conservativeResize r.2

/-- Lines 68-107 from a given start: the merge loop run with enough fuel for
`getNbPoints + 1` passes. -/
def runMerge {D : Nat} {Dist : Type} (ops : DistributionOps D Dist) (p : Parameters)
    (ms : Matches) (cloud : DataPoints D) (distributions : List Dist) (nbPoints : Matrix) :
    Option (MergeState D Dist × Nat) :=
  mergeLoop ops p ms (cloud.getNbPoints + 1) (initState cloud distributions nbPoints) 0

/-- Model of `CompressionDataPointsFilter<T>::inPlaceFilter` (lines 27-145); the result is the
cloud as the call leaves it. -/
def inPlaceFilter {D : Nat} {Dist : Type} (ops : DistributionOps D Dist)
    (matcher : Matcher D) (p : Parameters) (cloud : DataPoints D) : Option (DataPoints D) := do
  let (distributions, nbPoints) ← initSummaries ops p cloud
  let ms := matcher p.knn p.maxDist p.epsilon cloud
  let (st, _) ← runMerge ops p ms cloud distributions nbPoints
  let c ← ensureDescriptors st.cloud st.nbPoints
  compact ops st.masks st.distributions c

/-- Model of `CompressionDataPointsFilter<T>::filter` (lines 18-23): the filter applied to a copy. -/
def filter {D : Nat} {Dist : Type} (ops : DistributionOps D Dist)
    (matcher : Matcher D) (p : Parameters) (input : DataPoints D) : Option (DataPoints D) :=
  inPlaceFilter ops matcher p input

/-! ## Reference collaborators

Concrete collaborators on which the filter can be run: a Gaussian summary with the
combination rule of section 3 of the specification, and an exhaustive neighbor search
with the contract of section 4.2. -/

/-- Sum of `f 0, ..., f (n - 1)`. -/
def sumTo (n : Nat) (f : Nat → ℚ) : ℚ := ((List.range n).map f).sum

/-- Model of `A + B` on matrices. -/
def Mat.add {n : Nat} (A B : Mat n) : Mat n :=
  Mat.ofFn n (fun r c => A.entry r c + B.entry r c)

/-- Model of `A * B` on matrices. -/
def Mat.mul {n : Nat} (A B : Mat n) : Mat n :=
  Mat.ofFn n (fun r c => sumTo n (fun k => A.entry r k * B.entry k c))

/-- Model of `A.transpose()`. -/
def Mat.transpose {n : Nat} (A : Mat n) : Mat n := Mat.ofFn n (fun r c => A.entry c r)

/-- Model of `A * v`. -/
def Mat.mulVec {n : Nat} (A : Mat n) (v : Vec n) : Vec n :=
  Vec.ofFn n (fun r => sumTo n (fun k => A.entry r k * v.entry k))

/-- Model of `a * b.transpose()`. -/
def Mat.outer {n : Nat} (a b : Vec n) : Mat n := Mat.ofFn n (fun r c => a.entry r * b.entry c)

/-- Determinant of the `n x n` array `f`, expanded along its first row. -/
def detFn : Nat → (Nat → Nat → ℚ) → ℚ
  | 0, _ => 1
  | n + 1, f =>
    sumTo (n + 1) (fun c =>
      (-1) ^ c * f 0 c * detFn n (fun r k => f (r + 1) (if k < c then k else k + 1)))

/-- Model of `A.inverse()`, by cofactors. -/
def Mat.inverse {n : Nat} (A : Mat n) : Mat n :=
  Mat.ofFn n (fun r c =>
    (-1) ^ (r + c)
      * detFn (n - 1) (fun a b =>
          A.entry (if a < c then a else a + 1) (if b < r then b else b + 1))
      / detFn n (fun a b => A.entry a b))

/-- Modelled from the spec: the Gaussian summary of section 3 (`utils/Distribution.h` is
not part of the sources); the sample count is kept by the filter in `nbPoints`. -/
structure Gaussian (D : Nat) where
  mean : Vec D
  covariance : Mat D
  weightSum : Mat D
deriving DecidableEq

/-- Modelled from the spec: the combine operation of section 3. The weight sums add up,
the mean is the average of the two means weighted by the weight sums, and the covariance
is the weighted average of the two covariances plus the outer product of the difference
of the means scaled by the two relative weights. -/
def Gaussian.combine {D : Nat} (a b : Gaussian D) : Gaussian D :=
  let total := Mat.add a.weightSum b.weightSum
  let ka := Mat.mul (Mat.inverse total) a.weightSum
  let kb := Mat.mul (Mat.inverse total) b.weightSum
  let delta := Vec.sub a.mean b.mean
  { mean := Vec.add (Mat.mulVec ka a.mean) (Mat.mulVec kb b.mean),
    covariance :=
      Mat.add (Mat.add (Mat.mul ka a.covariance) (Mat.mul kb b.covariance))
        (Mat.mul (Mat.mul ka (Mat.outer delta delta)) (Mat.transpose kb)),
    weightSum := total }

/-- Modelled from the spec: the operations of `utils/Distribution.h` on Gaussian
summaries; a summary built without a weight sum gets the identity as its seed. -/
def gaussianOps (D : Nat) : DistributionOps D (Gaussian D) where
  ofPoint := fun mean covariance => ⟨mean, covariance, Mat.scaledIdentity 1 D⟩
  ofParts := fun mean covariance weightSum => ⟨mean, covariance, weightSum⟩
  combine := Gaussian.combine
  getMean := fun g => g.mean
  getCovariance := fun g => g.covariance
  getWeightSum := fun g => g.weightSum

/-- Squared distance between the coordinates of two points. -/
def sqDist {D : Nat} (a b : Point D) : ℚ :=
  Vec.dot (Vec.sub (topRows a.feature) (topRows b.feature))
    (Vec.sub (topRows a.feature) (topRows b.feature))

/-- Insertion of a candidate `(distance, id)` into a list sorted by distance; among
equal distances the candidates inserted first stay first. -/
def insertCandidate (x : ℚ × Int) : List (ℚ × Int) → List (ℚ × Int)
  | [] => [x]
  | y :: rest => if x.1 < y.1 then x :: y :: rest else y :: insertCandidate x rest

/-- Modelled from the spec: the Neighbor Index of section 4.2, as an exhaustive search.
Column `i` lists the ids of the `knn` points nearest to point `i` (point `i` included)
within `maxDist`, by non-decreasing distance and then by index, padded with the
invalid id `-1`. -/
def exhaustiveMatcher (D : Nat) : Matcher D := fun knn maxDist _ cloud =>
  ⟨cloud.points.map (fun a =>
    let candidates := (List.zip cloud.points (List.range cloud.points.length)).map
      (fun bj => (sqDist a bj.1, (bj.2 : Int)))
    let near := candidates.filter (fun (c : ℚ × Int) =>
      match maxDist with
      | none => true
      | some d => decide (c.1 ≤ d * d))
    let sorted := near.foldl (fun acc c => insertCandidate c acc) []
    ((sorted.map (fun (c : ℚ × Int) => c.2)) ++ List.replicate knn (-1)).take knn)⟩

/-! ## Measures used in the statements -/

/-- Number of `true` bits of a mask. -/
def liveCount (masks : List Bool) : Nat := masks.count true

/-- Row 0 of a column, `m(0, i)`; zero for an empty column. -/
def row0 (col : List ℚ) : ℚ := col.headD 0

/-- Sum of row 0 of the columns whose mask bit is `true`. -/
def liveSum (masks : List Bool) (cols : List (List ℚ)) : ℚ :=
  ∑ k in Finset.range masks.length,
    if masks.getD k false = true then row0 (cols.getD k []) else 0

/-- Shape invariant of the merge state for a cloud of `N` points: every working array
has `N` entries, every `nbPoints` column has a row 0, and the running count is the
number of `true` mask bits. -/
structure Inv {D : Nat} {Dist : Type} (N : Nat) (st : MergeState D Dist) : Prop where
  points : st.cloud.points.length = N
  dists : st.distributions.length = N
  cols : st.nbPoints.cols.length = N
  rowsPos : ∀ col ∈ st.nbPoints.cols, 0 < col.length
  masks : st.masks.length = N
  count : st.currentNbPoints = liveCount st.masks
  bound : N < 4294967296

/-- A neighbor table for `N` points and `knn` ranks whose entries are all ids of
points: one column per point, `knn >= 1` rows, every id in `[0, N)`. -/
def ValidTable (knn N : Nat) (ms : Matches) : Prop :=
  ms.ids.length = N ∧
    ∀ col ∈ ms.ids, 0 < col.length ∧ col.length = knn ∧ ∀ id ∈ col, 0 ≤ id ∧ id < (N : Int)

/-- No point has its own id at a rank `>= 1` of its column of the neighbor table. -/
def NoSelfMatch (ms : Matches) : Prop :=
  ∀ i < ms.ids.length, ∀ j < (ms.ids.getD i []).length,
    1 ≤ j → (ms.ids.getD i []).getD j 0 ≠ (i : Int)

/-- What steps of the merge loop leave unchanged or only shrink: the labels and the
descriptor columns of the cloud, the shape of `nbPoints`, and the set of live points. -/
structure Evolves {D : Nat} {Dist : Type} (s0 s : MergeState D Dist) : Prop where
  labels : s.cloud.descriptorLabels = s0.cloud.descriptorLabels
  descs : s.cloud.points.map (fun q => q.descriptor) = s0.cloud.points.map (fun q => q.descriptor)
  rows : s.nbPoints.rows = s0.nbPoints.rows
  lens : s.nbPoints.cols.map List.length = s0.nbPoints.cols.map List.length
  mono : ∀ k : Nat, s.masks[k]? = some true → s0.masks[k]? = some true
  le : liveCount s.masks ≤ liveCount s0.masks

/-- Conservation between two states: the sum of `nbPoints` over the live points is the
same, and a live point remains if there was one. -/
structure Conserves {D : Nat} {Dist : Type} (s0 s : MergeState D Dist) : Prop where
  sum : liveSum s.masks s.nbPoints.cols = liveSum s0.masks s0.nbPoints.cols
  alive : 0 < liveCount s0.masks → 0 < liveCount s.masks

/-- Number of rows of the descriptor matrix described by the labels. -/
def totalSpan (labels : List (String × Nat)) : Nat := (labels.map (fun l => l.2)).sum

/-- The container is consistent: every descriptor column has as many rows as the labels
span. -/
def DataPoints.Consistent {D : Nat} (cloud : DataPoints D) : Prop :=
  ∀ q ∈ cloud.points, q.descriptor.length = totalSpan cloud.descriptorLabels

/-- The descriptor `name` spans `n` rows if it exists. -/
def DataPoints.SpanIs {D : Nat} (cloud : DataPoints D) (name : String) (n : Nat) : Prop :=
  ∀ r ∈ findLabel cloud.descriptorLabels name 0, r.2 = n

/-- A consistent container whose summary descriptors, where present, have the widths the
filter gives them: `D ^ 2` rows for `covariance` and `weightSum`, one row for `nbPoints`. -/
def WellShaped {D : Nat} (cloud : DataPoints D) : Prop :=
  cloud.Consistent ∧ cloud.SpanIs "covariance" (D ^ 2) ∧ cloud.SpanIs "weightSum" (D ^ 2) ∧
    cloud.SpanIs "nbPoints" 1

/-- The indices of the `true` bits of a mask, in increasing order. -/
def liveIndices (masks : List Bool) : List Nat :=
  (List.range masks.length).filter (fun k => masks.getD k false)

/-- The rows of the descriptor `name` in the descriptor column of the point `q`. -/
def descriptorOf {D : Nat} (labels : List (String × Nat)) (name : String) (q : Point D) :
    Option (List ℚ) := do
  let (start, span) ← findLabel labels name 0
  (block q.descriptor start span).map (fun v => v.1)

/-- The sum of row 0 of the descriptor `name` over all points of the cloud. -/
def descriptorSum {D : Nat} (cloud : DataPoints D) (name : String) : Option ℚ :=
  (cloud.getDescriptorViewByName name).map (fun m => (m.cols.map row0).sum)

/-- The point `q2` is the point `q1` after lines 133-139 have written the matrices
`covariance` and `weightSum` into its descriptor column: same coordinates, the block of
`D` rows at row `j * D` of either view holds column `j` of the matrix, and every block
outside the first `D * D` rows of the two views is as before. -/
structure Flushed {D : Nat} (labels : List (String × Nat)) (covariance weightSum : Mat D)
    (q1 q2 : Point D) : Prop where
  feature : q2.feature = q1.feature
  length : q2.descriptor.length = q1.descriptor.length
  cov : ∀ sc spc, findLabel labels "covariance" 0 = some (sc, spc) →
    ∀ j, j < D → block q2.descriptor (sc + j * D) D = covariance.1[j]?
  ws : ∀ sw spw, findLabel labels "weightSum" 0 = some (sw, spw) →
    ∀ j, j < D → block q2.descriptor (sw + j * D) D = weightSum.1[j]?
  other : ∀ sc spc sw spw, findLabel labels "covariance" 0 = some (sc, spc) →
    findLabel labels "weightSum" 0 = some (sw, spw) →
    ∀ s len, (s + len ≤ sc ∨ sc + D * D ≤ s) → (s + len ≤ sw ∨ sw + D * D ≤ s) →
      block q2.descriptor s len = block q1.descriptor s len

/-- The point `q2` of the output is the point `k` of the final state `st` of the merge
loop: it has the coordinates of point `k`, its `nbPoints` descriptor is column `k` of the
working `nbPoints` matrix, and the blocks of its `covariance` and `weightSum` descriptors
are the columns of the covariance and the weight sum of `distributions[k]`. -/
structure OutputOf {D : Nat} {Dist : Type} (ops : DistributionOps D Dist)
    (st : MergeState D Dist) (labels : List (String × Nat)) (k : Nat) (q2 : Point D) :
    Prop where
  feature : (st.cloud.points[k]?).map (fun q => q.feature) = some q2.feature
  nbPoints : descriptorOf labels "nbPoints" q2 = st.nbPoints.cols[k]?
  covariance : ∃ d sc spc, st.distributions[k]? = some d ∧
    findLabel labels "covariance" 0 = some (sc, spc) ∧
    ∀ j, j < D → block q2.descriptor (sc + j * D) D = (ops.getCovariance d).1[j]?
  weightSum : ∃ d sw spw, st.distributions[k]? = some d ∧
    findLabel labels "weightSum" 0 = some (sw, spw) ∧
    ∀ j, j < D → block q2.descriptor (sw + j * D) D = (ops.getWeightSum d).1[j]?
  length : q2.descriptor.length = totalSpan labels

instance (knn N : Nat) (ms : Matches) : Decidable (ValidTable knn N ms) := by
  unfold ValidTable
  infer_instance

instance (ms : Matches) : Decidable (NoSelfMatch ms) := by
  unfold NoSelfMatch
  infer_instance

instance {D : Nat} (cloud : DataPoints D) : Decidable (WellShaped cloud) := by
  unfold WellShaped DataPoints.Consistent DataPoints.SpanIs
  infer_instance

/-! ## Scenarios -/

/-- A point of a 2-D cloud without descriptors. -/
def point2 (x y : ℚ) : Point 2 := ⟨⟨[x, y, 1], rfl⟩, []⟩

/-- A point of a 2-D cloud with a descriptor column. -/
def point2d (x y : ℚ) (descriptor : List ℚ) : Point 2 := ⟨⟨[x, y, 1], rfl⟩, descriptor⟩

/-- Scenario B of the specification: three fresh 2-D points. -/
def scenarioB : DataPoints 2 := ⟨[], [point2 0 0, point2 (1 / 100) 0, point2 10 10]⟩

/-- Parameters of scenario B: `knn = 2`, unbounded `maxDist`, `initialVariance = 0.01`,
`maxDeviation = 1`. -/
def scenarioBParameters : Parameters := ⟨2, none, 0, 1 / 100, 1⟩

/-- The cloud the filter makes of scenario B with the reference collaborators. -/
def compressedB : DataPoints 2 :=
  ⟨[("covariance", 4), ("weightSum", 4), ("nbPoints", 1)],
    [point2d (1 / 200) 0 [401 / 40000, 0, 0, 1 / 100, 2, 0, 0, 2, 2],
     point2d 10 10 [1 / 100, 0, 0, 1 / 100, 1, 0, 0, 1, 1]]⟩

/-- A 2-D cloud of one point that carries an `nbPoints` descriptor, with the value 7, but
neither `covariance` nor `weightSum`. -/
def nbPointsOnly : DataPoints 2 := ⟨[("nbPoints", 1)], [point2d 0 0 [7]]⟩

/-- Two fresh 2-D points further apart than the search radius 1. -/
def farApart : DataPoints 2 := ⟨[], [point2 0 0, point2 10 10]⟩

/-- Four fresh 2-D points: point 0 has point 1 as its nearest other point, point 1 has
point 2, and points 2 and 3 have point 1. -/
def fourPoints : DataPoints 2 :=
  ⟨[], [point2 (-6 / 5) (-8 / 5), point2 0 0, point2 (2 / 5) 0, point2 (-3 / 10) (3 / 5)]⟩

/-- Lines 75-92 for point `i` in the state `st`: `some b` when the step of point `i` is
evaluated (the point is live) and the test of line 92 yields `b`; `none` when the point is
skipped or an index is out of range. -/
def decision {D : Nat} {Dist : Type} (ops : DistributionOps D Dist) (p : Parameters)
    (ms : Matches) (st : MergeState D Dist) (i : Nat) : Option Bool := do
  let m ← st.masks[i]?
  if !m then none
  else
    let col ← ms.ids[i]?
    let neighborhoodDistribution ← neighborhood ops p.knn col st.masks st.distributions
    let pt ← st.cloud.points[i]?
    let own ← st.distributions[i]?
    pure (accepted ops p.maxDeviation neighborhoodDistribution pt.feature own)

/-- The states in which the steps of a fold start, each with the element it is about to
process; the list stops at a step that fails. -/
def foldlStates {σ α : Type} (f : σ → α → Option σ) : List α → σ → List (α × σ)
  | [], _ => []
  | a :: l, s =>
    (a, s) :: (match f s a with
      | some s1 => foldlStates f l s1
      | none => [])

/-- The states in which the steps of the points start during the merge loop (lines
70-107), in the order of execution, each with the index of its point. -/
def loopStates {D : Nat} {Dist : Type} (ops : DistributionOps D Dist) (p : Parameters)
    (ms : Matches) : Nat → MergeState D Dist → Nat → List (Nat × MergeState D Dist)
  | 0, _, _ => []
  | fuel + 1, st, lastNbPoints =>
    if st.currentNbPoints = lastNbPoints then []
    else
      foldlStates (stepPoint ops p ms) (List.range st.cloud.getNbPoints) st ++
        (match pass ops p ms st with
          | some st1 => loopStates ops p ms fuel st1 st.currentNbPoints
          | none => [])

/-- Three fresh 2-D points on a line, at abscissas 0, 1 and 3/2. -/
def threeOnLine : DataPoints 2 := ⟨[], [point2 0 0, point2 1 0, point2 (3 / 2) 0]⟩

/-- Line 37: the distribution of a point of a cloud without summary descriptors. -/
def freshDistribution {D : Nat} {Dist : Type} (ops : DistributionOps D Dist) (p : Parameters)
    (pt : Point D) : Dist :=
  ops.ofPoint (topRows pt.feature) (Mat.scaledIdentity p.initialVariance D)

/-- The state in which the merge loop ends on scenario B: point 0 has moved to the mean
of the neighborhood distribution `nd` and absorbed point 1. -/
def scenarioBFinal {Dist : Type} (ops : DistributionOps 2 Dist) (nd : Dist) :
    MergeState 2 Dist :=
  { cloud := ⟨[], [⟨setTopRows (point2 0 0).feature (ops.getMean nd), []⟩,
      point2 (1 / 100) 0, point2 10 10]⟩,
    distributions := [nd, freshDistribution ops scenarioBParameters (point2 (1 / 100) 0),
      freshDistribution ops scenarioBParameters (point2 10 10)],
    nbPoints := ⟨1, [[2], [1], [1]]⟩,
    masks := [true, false, true],
    currentNbPoints := 2 }

/-- Number of mask bits that are `true` in `before` and `false` in `after`. -/
def cleared (before after : List Bool) : Nat :=
  ((List.zip before after).filter (fun x => x.1 && !x.2)).length

/-- Scenario A of the specification: two coincident fresh 2-D points. -/
def scenarioA : DataPoints 2 := ⟨[], [point2 0 0, point2 0 0]⟩

/-- A neighbor index that answers every query with the table `ms`. -/
def tableMatcher (D : Nat) (ms : Matches) : Matcher D := fun _ _ _ _ => ms

/-- A 2-D cloud that carries the three summary descriptors: points 0 and 1 coincide,
point 0 with the covariance `100 * I` and point 1 with `0.01 * I`; the `nbPoints` values
are 2, 3 and 4. -/
def threeCarried : DataPoints 2 :=
  ⟨[("covariance", 4), ("weightSum", 4), ("nbPoints", 1)],
    [point2d 0 0 [100, 0, 0, 100, 1, 0, 0, 1, 2],
     point2d 0 0 [1 / 100, 0, 0, 1 / 100, 1, 0, 0, 1, 3],
     point2d 1 0 [1 / 100, 0, 0, 1 / 100, 1, 0, 0, 1, 4]]⟩

/-- The state that the step of point 0 makes of the initial state of `threeOnLine` with
`knn = 2`, `initialVariance = 1`, `maxDeviation = 10` and the table `[[1, 2], [2, 0], [1, 0]]`
of a neighbor search that excludes self matches: point 0 has moved to the abscissa 5/4
and absorbed point 2, the rank-0 neighbor of the live point 1. -/
def deadAnchorState : MergeState 2 (Gaussian 2) :=
  { cloud := ⟨[], [point2 (5 / 4) 0, point2 1 0, point2 (3 / 2) 0]⟩,
    distributions :=
      [⟨⟨[5 / 4, 0], rfl⟩, ⟨[⟨[17 / 16, 0], rfl⟩, ⟨[0, 1], rfl⟩], rfl⟩,
          ⟨[⟨[2, 0], rfl⟩, ⟨[0, 2], rfl⟩], rfl⟩⟩,
       freshDistribution (gaussianOps 2) ⟨2, none, 0, 1, 10⟩ (point2 1 0),
       freshDistribution (gaussianOps 2) ⟨2, none, 0, 1, 10⟩ (point2 (3 / 2) 0)],
    nbPoints := ⟨1, [[2], [1], [1]]⟩,
    masks := [true, true, false],
    currentNbPoints := 2 }

/-- Modelled from the spec: one entry of a descriptor view, `view(row, i)`, read from the
descriptor column of point `i`. -/
def DataPoints.viewEntry {D : Nat} (cloud : DataPoints D) (name : String) (row i : Nat) :
    Option ℚ := do
  let (start, span) ← findLabel cloud.descriptorLabels name 0
  let pt ← cloud.points[i]?
  if row < span then pt.descriptor[start + row]? else none

/-- A 2-D cloud of one point whose `covariance` rows hold 1, 2, 3, 4 and whose `weightSum`
rows hold 5, 6, 7, 8. -/
def oneCarried : DataPoints 2 :=
  ⟨[("covariance", 4), ("weightSum", 4), ("nbPoints", 1)],
    [point2d 0 0 [1, 2, 3, 4, 5, 6, 7, 8, 1]]⟩

/-- The matrix with the rows `(a, b)` and `(c, d)`. -/
def mat2 (a b c d : ℚ) : Mat 2 := ⟨[⟨[a, c], rfl⟩, ⟨[b, d], rfl⟩], rfl⟩

/-- The cloud whose point `n` is the point `σ[n]` of `cloud`: the points of `cloud`
visited in the order `σ`. -/
def permute {D : Nat} (σ : List Nat) (cloud : DataPoints D) : DataPoints D :=
  { cloud with points := σ.filterMap (fun k => cloud.points[k]?) }

/-- The neighbor table `ms` relabelled for the order `σ`: column `n` is column `σ[n]` of
`ms`, every id replaced by its position in `σ`. -/
def relabel (σ : List Nat) (ms : Matches) : Matches :=
  ⟨σ.map (fun k => (ms.ids.getD k []).map (fun id => ((σ.indexOf id.toNat : Nat) : Int)))⟩

/-- The coordinates track the means: the first `D` coordinate rows of every point are the
mean of its distribution. -/
def MeanTracked {D : Nat} {Dist : Type} (ops : DistributionOps D Dist)
    (st : MergeState D Dist) : Prop :=
  ∀ (i : Nat) (q : Point D) (d : Dist), st.cloud.points[i]? = some q →
    st.distributions[i]? = some d → topRows q.feature = ops.getMean d

/-- Every point has its own id at rank 0 of its column of the neighbor table. -/
def SelfFirst (ms : Matches) : Prop :=
  ∀ i < ms.ids.length, (ms.ids.getD i [])[0]? = some (i : Int)

instance (ms : Matches) : Decidable (SelfFirst ms) := by
  unfold SelfFirst
  infer_instance

/-- The step of point `i` has nothing to do in the state `s`: the point is dead, or its
merge is rejected, or it is live, it is its own rank-0 neighbor, its neighbors at the ranks
`1..knn-1` are all dead and its coordinates are the mean of its distribution. -/
def Quiet {D : Nat} {Dist : Type} (ops : DistributionOps D Dist) (p : Parameters)
    (ms : Matches) (s : MergeState D Dist) (i : Nat) : Prop :=
  s.masks[i]? = some false ∨ decision ops p ms s i = some false ∨
    ∃ col pt d, s.masks[i]? = some true ∧ ms.ids[i]? = some col ∧ col[0]? = some (i : Int) ∧
      (∀ j, 1 ≤ j → j < p.knn → ∃ id, col[j]? = some id ∧ atId s.masks id = some false) ∧
      s.cloud.points[i]? = some pt ∧ s.distributions[i]? = some d ∧
      ops.getMean d = topRows pt.feature

/-! ## Lemmas -/

/-- The test `sqrtLe` agrees with the comparison `sqrt x <= d` of real numbers, for a
radicand that is not negative. -/
theorem sqrtLe_iff (x d : ℚ) :
    sqrtLe x d = true ↔ 0 ≤ x ∧ Real.sqrt (x : ℝ) ≤ (d : ℝ) := by
  unfold sqrtLe
  simp only [Bool.and_eq_true, decide_eq_true_eq]
  rw [Real.sqrt_le_iff]
  constructor
  · rintro ⟨⟨h1, h2⟩, h3⟩
    refine ⟨h1, by exact_mod_cast h2, ?_⟩
    have : (x : ℝ) ≤ (d : ℝ) * (d : ℝ) := by exact_mod_cast h3
    rw [pow_two]
    exact this
  · rintro ⟨h1, h2, h3⟩
    refine ⟨⟨h1, by exact_mod_cast h2⟩, ?_⟩
    rw [pow_two] at h3
    exact_mod_cast h3

theorem foldlM_inv {σ α : Type} (P : σ → Prop) (f : σ → α → Option σ) :
    ∀ (l : List α) (s : σ), P s →
      (∀ s a, a ∈ l → P s → ∃ s', f s a = some s' ∧ P s') →
      ∃ s', l.foldlM f s = some s' ∧ P s' := by
  intro l
  induction l with
  | nil => intro s h _; exact ⟨s, rfl, h⟩
  | cons a l ih =>
    intro s h hstep
    obtain ⟨s1, h1, hP1⟩ := hstep s a (List.mem_cons_self a l) h
    obtain ⟨s2, h2, hP2⟩ := ih s1 hP1 (fun s b hb hs => hstep s b (List.mem_cons_of_mem a hb) hs)
    exact ⟨s2, by simp [List.foldlM_cons, h1, h2], hP2⟩

theorem foldlM_range_inv {σ : Type} (P : Nat → σ → Prop) (f : σ → Nat → Option σ) (s : σ) :
    ∀ (n : Nat), P 0 s →
      (∀ i s, i < n → P i s → ∃ s', f s i = some s' ∧ P (i + 1) s') →
      ∃ s', (List.range n).foldlM f s = some s' ∧ P n s' := by
  intro n
  induction n with
  | zero => intro h _; exact ⟨s, rfl, h⟩
  | succ n ih =>
    intro h hstep
    obtain ⟨s1, h1, hP1⟩ := ih h (fun i s hi hs => hstep i s (Nat.lt_succ_of_lt hi) hs)
    obtain ⟨s2, h2, hP2⟩ := hstep n s1 (Nat.lt_succ_self n) hP1
    refine ⟨s2, ?_, hP2⟩
    rw [List.range_succ, List.foldlM_append, h1]
    simp [h2]

theorem liveCount_set_false (l : List Bool) (k : Nat) (h : l[k]? = some true) :
    liveCount (l.set k false) + 1 = liveCount l := by
  induction l generalizing k with
  | nil => simp at h
  | cons b l ih =>
    cases k with
    | zero =>
      simp at h
      subst h
      simp [liveCount]
    | succ k =>
      simp at h
      have := ih k h
      simp only [liveCount] at this ⊢
      simp only [List.set_cons_succ, List.count_cons]
      omega

theorem liveCount_le_length (l : List Bool) : liveCount l ≤ l.length := List.count_le_length _ _

theorem liveCount_replicate (n : Nat) : liveCount (List.replicate n true) = n := by
  simp [liveCount]

theorem atId_eq {α : Type} (l : List α) (id : Int) (h0 : 0 ≤ id) (h1 : id < (l.length : Int)) :
    id.toNat < l.length ∧ atId l id = l[id.toNat]? := by
  constructor
  · omega
  · simp [atId, h0]

theorem atId_some {α : Type} (l : List α) (id : Int) (x : α) (h : atId l id = some x) :
    0 ≤ id ∧ id.toNat < l.length ∧ l[id.toNat]? = some x := by
  unfold atId at h
  split at h
  · rename_i h0
    refine ⟨h0, ?_, h⟩
    exact (List.getElem?_eq_some_iff.mp h).1
  · simp at h

theorem decr_pos (c : Nat) (h0 : 0 < c) (h1 : c ≤ 4294967296) : decr c = c - 1 := by
  unfold decr; omega

theorem row0_set_zero (c : List ℚ) (v : ℚ) (h : 0 < c.length) : row0 (c.set 0 v) = v := by
  cases c with
  | nil => simp at h
  | cons a t => simp [row0]

theorem row0_of_get (col : List ℚ) (x : ℚ) (h : col[0]? = some x) : row0 col = x := by
  cases col with
  | nil => simp at h
  | cons a t => simp at h; simp [row0, h]

theorem liveSum_absorb (masks : List Bool) (cols : List (List ℚ)) (i a : Nat) (ci cn : List ℚ)
    (x y : ℚ) (hlen : cols.length = masks.length) (hia : i ≠ a)
    (hmi : masks[i]? = some true) (hma : masks[a]? = some true)
    (hci : cols[i]? = some ci) (hx : ci[0]? = some x)
    (hcn : cols[a]? = some cn) (hy : cn[0]? = some y) :
    liveSum (masks.set a false) (cols.set i (ci.set 0 (x + y))) = liveSum masks cols := by
  have hi : i < masks.length := (List.getElem?_eq_some_iff.mp hmi).1
  have ha : a < masks.length := (List.getElem?_eq_some_iff.mp hma).1
  have hcpos : 0 < ci.length := (List.getElem?_eq_some_iff.mp hx).1
  unfold liveSum
  rw [List.length_set]
  have key : ∀ k ∈ Finset.range masks.length,
      (if (masks.set a false).getD k false = true
        then row0 ((cols.set i (ci.set 0 (x + y))).getD k []) else 0)
      = (if masks.getD k false = true then row0 (cols.getD k []) else 0)
        + (if k = i then y else 0) - (if k = a then y else 0) := by
    intro k hk
    simp only [List.getD_eq_getElem?_getD, List.getElem?_set]
    by_cases hka : k = a
    · subst hka
      have : ¬ k = i := fun h => hia h.symm
      simp [ha, hma, hcn, this, Ne.symm this, row0_of_get cn y hy]
    · by_cases hki : k = i
      · subst hki
        simp [hka, Ne.symm hka, hmi, hci, hlen, hi, row0_set_zero _ _ hcpos,
          row0_of_get ci x hx]
      · simp [hka, hki, Ne.symm hka, Ne.symm hki]
  rw [Finset.sum_congr rfl key, Finset.sum_sub_distrib, Finset.sum_add_distrib]
  simp [Finset.sum_ite_eq', hi, ha]

theorem evolves_refl {D : Nat} {Dist : Type} (s : MergeState D Dist) : Evolves s s :=
  ⟨rfl, rfl, rfl, rfl, fun _ h => h, le_refl _⟩

theorem evolves_trans {D : Nat} {Dist : Type} {a b c : MergeState D Dist}
    (h1 : Evolves a b) (h2 : Evolves b c) : Evolves a c :=
  ⟨h2.labels.trans h1.labels, h2.descs.trans h1.descs, h2.rows.trans h1.rows,
    h2.lens.trans h1.lens, fun k h => h1.mono k (h2.mono k h), le_trans h2.le h1.le⟩

theorem conserves_refl {D : Nat} {Dist : Type} (s : MergeState D Dist) : Conserves s s :=
  ⟨rfl, fun h => h⟩

theorem conserves_trans {D : Nat} {Dist : Type} {a b c : MergeState D Dist}
    (h1 : Conserves a b) (h2 : Conserves b c) : Conserves a c :=
  ⟨h2.sum.trans h1.sum, fun h => h2.alive (h1.alive h)⟩

theorem validTable_col {knn N : Nat} {ms : Matches} (hv : ValidTable knn N ms) {i : Nat}
    (hi : i < N) : ∃ col, ms.ids[i]? = some col ∧ 0 < col.length ∧ col.length = knn ∧
      ∀ j, j < knn → ∃ id, col[j]? = some id ∧ 0 ≤ id ∧ id < (N : Int) := by
  obtain ⟨hlen, hcols⟩ := hv
  have hi' : i < ms.ids.length := by omega
  refine ⟨ms.ids[i], List.getElem?_eq_getElem hi', ?_⟩
  obtain ⟨h0, hk, hid⟩ := hcols ms.ids[i] (List.getElem_mem _)
  refine ⟨h0, hk, fun j hj => ?_⟩
  have hj' : j < (ms.ids[i]).length := by omega
  exact ⟨(ms.ids[i])[j], List.getElem?_eq_getElem hj', hid _ (List.getElem_mem _)⟩

theorem noSelfMatch_ne {ms : Matches} (h : NoSelfMatch ms) {i j : Nat} {col : List Int}
    {id : Int} (hcol : ms.ids[i]? = some col) (hid : col[j]? = some id) (hj : 1 ≤ j) :
    id ≠ (i : Int) := by
  have hi : i < ms.ids.length := (List.getElem?_eq_some_iff.mp hcol).1
  have hjl : j < col.length := (List.getElem?_eq_some_iff.mp hid).1
  have hc : ms.ids.getD i [] = col := by simp [List.getD_eq_getElem?_getD, hcol]
  have := h i hi j (by rw [hc]; exact hjl) hj
  rw [hc] at this
  simpa [List.getD_eq_getElem?_getD, hid] using this

theorem mem_range'_one {j n : Nat} (h : j ∈ List.range' 1 (n - 1)) : 1 ≤ j ∧ j < n := by
  simp [List.mem_range'] at h
  omega

theorem liveCount_pos_of_get (l : List Bool) (k : Nat) (h : l[k]? = some true) :
    0 < liveCount l := by
  have := liveCount_set_false l k h
  omega

theorem absorbStep_spec {D : Nat} {Dist : Type} {N : Nat} (col : List Int) (i j : Nat)
    (st : MergeState D Dist) (id : Int) (hinv : Inv N st) (hi : i < N)
    (hid : col[j]? = some id) (h0 : 0 ≤ id) (h1 : id < (N : Int)) :
    ∃ s, absorbStep col i st j = some s ∧ Inv N s ∧ Evolves st s ∧ s.cloud = st.cloud ∧
      s.distributions = st.distributions ∧
      (id ≠ (i : Int) → st.masks[i]? = some true →
        liveSum s.masks s.nbPoints.cols = liveSum st.masks st.nbPoints.cols ∧
        s.masks[i]? = some true) := by
  have ha : id.toNat < N := by omega
  have hm : atId st.masks id = st.masks[id.toNat]? := by simp [atId, h0]
  have hma : id.toNat < st.masks.length := by rw [hinv.masks]; exact ha
  have hci : i < st.nbPoints.cols.length := by rw [hinv.cols]; exact hi
  have hcn : id.toNat < st.nbPoints.cols.length := by rw [hinv.cols]; exact ha
  have hcipos := hinv.rowsPos _ (List.getElem_mem hci)
  have hcnpos := hinv.rowsPos _ (List.getElem_mem hcn)
  cases hb : st.masks[id.toNat] with
  | false =>
    refine ⟨st, ?_, hinv, evolves_refl st, rfl, rfl, fun _ h => ⟨rfl, h⟩⟩
    simp [absorbStep, hid, hm, List.getElem?_eq_getElem hma, hb]
  | true =>
    have hmt : st.masks[id.toNat]? = some true := by
      rw [List.getElem?_eq_getElem hma, hb]
    have hcnt := liveCount_set_false st.masks id.toNat hmt
    have hle := liveCount_le_length st.masks
    refine ⟨{ st with
        nbPoints := { st.nbPoints with
          cols := st.nbPoints.cols.set i
            ((st.nbPoints.cols[i]).set 0 ((st.nbPoints.cols[i])[0] + (st.nbPoints.cols[id.toNat])[0])) },
        masks := st.masks.set id.toNat false,
        currentNbPoints := decr st.currentNbPoints }, ?_, ?_, ?_, rfl, rfl, ?_⟩
    · simp [absorbStep, hid, hm, List.getElem?_eq_getElem hma, hb, atId, h0,
        List.getElem?_eq_getElem hci, List.getElem?_eq_getElem hcn,
        List.getElem?_eq_getElem hcipos, List.getElem?_eq_getElem hcnpos]
    · refine ⟨hinv.points, hinv.dists, by simp [hinv.cols], ?_, by simp [hinv.masks], ?_,
        hinv.bound⟩
      · intro c hc
        rcases List.mem_or_eq_of_mem_set hc with h | h
        · exact hinv.rowsPos c h
        · subst h; simpa using hcipos
      · have hb := hinv.bound
        have hm := hinv.masks
        show decr st.currentNbPoints = liveCount (st.masks.set id.toNat false)
        rw [hinv.count, decr_pos _ (by omega) (by omega)]
        omega
    · refine ⟨rfl, rfl, rfl, ?_, ?_, ?_⟩
      · show (List.map List.length (st.nbPoints.cols.set i _)) = _
        rw [List.map_set]
        simp only [List.length_set]
        apply List.ext_getElem?
        intro k
        rw [List.getElem?_set]
        split
        · rename_i hk
          subst hk
          simp [hci]
        · rfl
      · intro k hk
        show st.masks[k]? = some true
        have : (st.masks.set id.toNat false)[k]? = some true := hk
        by_cases hka : id.toNat = k
        · subst hka
          simp [List.getElem?_set, hma] at this
        · simpa [List.getElem?_set, hka] using this
      · show liveCount (st.masks.set id.toNat false) ≤ liveCount st.masks
        omega
    · intro hne hmi
      have hne' : i ≠ id.toNat := by omega
      refine ⟨?_, ?_⟩
      · exact liveSum_absorb st.masks st.nbPoints.cols i id.toNat _ _ _ _
          (by rw [hinv.cols, hinv.masks]) hne' hmi hmt
          (List.getElem?_eq_getElem hci) (List.getElem?_eq_getElem hcipos)
          (List.getElem?_eq_getElem hcn) (List.getElem?_eq_getElem hcnpos)
      · show (st.masks.set id.toNat false)[i]? = some true
        rw [List.getElem?_set]
        simp [Ne.symm hne', hmi]

theorem neighborhood_some {D : Nat} {Dist : Type} (ops : DistributionOps D Dist) {N : Nat}
    (knn : Nat) (col : List Int) (masks : List Bool) (distributions : List Dist)
    (hm : masks.length = N) (hd : distributions.length = N) (hpos : 0 < col.length)
    (hk : col.length = knn)
    (hcol : ∀ j, j < knn → ∃ id, col[j]? = some id ∧ 0 ≤ id ∧ id < (N : Int)) :
    ∃ nd, neighborhood ops knn col masks distributions = some nd := by
  obtain ⟨id0, hid0, h00, h01⟩ := hcol 0 (by omega)
  have hd0 : id0.toNat < distributions.length := by omega
  obtain ⟨nd, hnd, -⟩ := foldlM_inv (fun _ => True)
    (accumulateStep ops col masks distributions) (List.range' 1 (knn - 1))
    (distributions[id0.toNat]) trivial (by
      intro s j hj _
      obtain ⟨hj1, hj2⟩ := mem_range'_one hj
      obtain ⟨id, hid, h0, h1⟩ := hcol j hj2
      have hma : id.toNat < masks.length := by omega
      have hda : id.toNat < distributions.length := by omega
      cases hb : masks[id.toNat] with
      | false =>
        exact ⟨s, by simp [accumulateStep, hid, atId, h0, List.getElem?_eq_getElem hma, hb],
          trivial⟩
      | true =>
        exact ⟨ops.combine s distributions[id.toNat],
          by simp [accumulateStep, hid, atId, h0, List.getElem?_eq_getElem hma, hb,
            List.getElem?_eq_getElem hda], trivial⟩)
  exact ⟨nd, by simp [neighborhood, hid0, atId, h00, List.getElem?_eq_getElem hd0, hnd]⟩

theorem absorb_spec {D : Nat} {Dist : Type} {N : Nat} (knn : Nat) (col : List Int) (i : Nat)
    (st : MergeState D Dist) (hinv : Inv N st) (hi : i < N)
    (hcol : ∀ j, j < knn → ∃ id, col[j]? = some id ∧ 0 ≤ id ∧ id < (N : Int)) :
    ∃ s, (List.range' 1 (knn - 1)).foldlM (absorbStep col i) st = some s ∧ Inv N s ∧
      Evolves st s ∧ s.cloud = st.cloud ∧ s.distributions = st.distributions ∧
      ((∀ j id, 1 ≤ j → col[j]? = some id → id ≠ (i : Int)) → st.masks[i]? = some true →
        liveSum s.masks s.nbPoints.cols = liveSum st.masks st.nbPoints.cols ∧
        s.masks[i]? = some true) := by
  refine foldlM_inv (fun s => Inv N s ∧ Evolves st s ∧ s.cloud = st.cloud ∧
      s.distributions = st.distributions ∧
      ((∀ j id, 1 ≤ j → col[j]? = some id → id ≠ (i : Int)) → st.masks[i]? = some true →
        liveSum s.masks s.nbPoints.cols = liveSum st.masks st.nbPoints.cols ∧
        s.masks[i]? = some true)) (absorbStep col i) _ st
    ⟨hinv, evolves_refl st, rfl, rfl, fun _ h => ⟨rfl, h⟩⟩ ?_
  intro s j hj ⟨hs, hev, hc, hd, hcons⟩
  obtain ⟨hj1, hj2⟩ := mem_range'_one hj
  obtain ⟨id, hid, h0, h1⟩ := hcol j hj2
  obtain ⟨s', hs', hinv', hev', hc', hd', hcons'⟩ := absorbStep_spec col i j s id hs hi hid h0 h1
  refine ⟨s', hs', hinv', evolves_trans hev hev', hc'.trans hc, hd'.trans hd, ?_⟩
  intro hself hmi
  obtain ⟨e1, e2⟩ := hcons hself hmi
  obtain ⟨e3, e4⟩ := hcons' (hself j id hj1 hid) e2
  exact ⟨e3.trans e1, e4⟩

theorem stepPoint_spec {D : Nat} {Dist : Type} (ops : DistributionOps D Dist) (p : Parameters)
    (ms : Matches) {N : Nat} (st : MergeState D Dist) (i : Nat)
    (hv : ValidTable p.knn N ms) (hinv : Inv N st) (hi : i < N) :
    ∃ s, stepPoint ops p ms st i = some s ∧ Inv N s ∧ Evolves st s ∧
      (NoSelfMatch ms → Conserves st s) := by
  have hmi : i < st.masks.length := by rw [hinv.masks]; exact hi
  have hpi : i < st.cloud.points.length := by rw [hinv.points]; exact hi
  have hdi : i < st.distributions.length := by rw [hinv.dists]; exact hi
  cases hb : st.masks[i] with
  | false =>
    exact ⟨st, by simp [stepPoint, List.getElem?_eq_getElem hmi, hb], hinv, evolves_refl st,
      fun _ => conserves_refl st⟩
  | true =>
    obtain ⟨col, hcol, hpos, hk, hids⟩ := validTable_col hv hi
    obtain ⟨nd, hnd⟩ := neighborhood_some ops p.knn col st.masks st.distributions
      hinv.masks hinv.dists hpos hk hids
    cases hacc : accepted ops p.maxDeviation nd (st.cloud.points[i]).feature
        (st.distributions[i]) with
    | false =>
      exact ⟨st, by simp [stepPoint, List.getElem?_eq_getElem hmi, hb, hcol, hnd,
        List.getElem?_eq_getElem hpi, List.getElem?_eq_getElem hdi, hacc], hinv,
        evolves_refl st, fun _ => conserves_refl st⟩
    | true =>
      let st1 : MergeState D Dist :=
        { st with
          cloud := { st.cloud with points := (st.cloud.points.set i
            (Point.mk (setTopRows (st.cloud.points[i]).feature (ops.getMean nd))
              (st.cloud.points[i]).descriptor)) },
          distributions := st.distributions.set i nd }
      have hinv1 : Inv N st1 :=
        ⟨by simp [st1, hinv.points], by simp [st1, hinv.dists], hinv.cols, hinv.rowsPos,
          hinv.masks, hinv.count, hinv.bound⟩
      have hev1 : Evolves st st1 := by
        refine ⟨rfl, ?_, rfl, rfl, fun _ h => h, le_refl _⟩
        show List.map _ (st.cloud.points.set i _) = _
        rw [List.map_set]
        apply List.ext_getElem?
        intro k
        by_cases hki : i = k
        · subst hki
          simp [List.getElem?_set, hpi]
        · simp [List.getElem?_set, hki]
      obtain ⟨s, hs, hinvs, hevs, -, -, hcons⟩ := absorb_spec p.knn col i st1 hinv1 hi hids
      refine ⟨s, ?_, hinvs, evolves_trans hev1 hevs, ?_⟩
      · simp [stepPoint, List.getElem?_eq_getElem hmi, hb, hcol, hnd,
          List.getElem?_eq_getElem hpi, List.getElem?_eq_getElem hdi, hacc]
        exact hs
      · intro hself
        have hmt : st1.masks[i]? = some true := by
          show st.masks[i]? = some true
          rw [List.getElem?_eq_getElem hmi, hb]
        obtain ⟨e1, e2⟩ := hcons (fun j id hj hid => noSelfMatch_ne hself hcol hid hj) hmt
        exact ⟨e1, fun _ => liveCount_pos_of_get _ _ e2⟩

theorem pass_spec {D : Nat} {Dist : Type} (ops : DistributionOps D Dist) (p : Parameters)
    (ms : Matches) {N : Nat} (st : MergeState D Dist)
    (hv : ValidTable p.knn N ms) (hinv : Inv N st) :
    ∃ s, pass ops p ms st = some s ∧ Inv N s ∧ Evolves st s ∧
      (NoSelfMatch ms → Conserves st s) := by
  unfold pass
  refine foldlM_inv (fun s => Inv N s ∧ Evolves st s ∧ (NoSelfMatch ms → Conserves st s))
    (stepPoint ops p ms) _ st ⟨hinv, evolves_refl st, fun _ => conserves_refl st⟩ ?_
  intro s i hi ⟨hs, hev, hc⟩
  have hi' : i < N := by
    have := List.mem_range.mp hi
    simpa [DataPoints.getNbPoints, hinv.points] using this
  obtain ⟨s', hs', hinv', hev', hc'⟩ := stepPoint_spec ops p ms s i hv hs hi'
  exact ⟨s', hs', hinv', evolves_trans hev hev', fun h => conserves_trans (hc h) (hc' h)⟩

theorem mergeLoop_spec {D : Nat} {Dist : Type} (ops : DistributionOps D Dist) (p : Parameters)
    (ms : Matches) {N : Nat} (hv : ValidTable p.knn N ms) :
    ∀ (fuel : Nat) (st : MergeState D Dist) (lastNbPoints : Nat), Inv N st →
      (st.currentNbPoints = lastNbPoints ∨ liveCount st.masks + 1 ≤ fuel) →
      ∃ s n, mergeLoop ops p ms fuel st lastNbPoints = some (s, n) ∧ Inv N s ∧ Evolves st s ∧
        (NoSelfMatch ms → Conserves st s) ∧ n ≤ liveCount st.masks + 1 ∧
        (NoSelfMatch ms → 0 < liveCount st.masks → n ≤ liveCount st.masks) ∧
        (st.currentNbPoints = lastNbPoints → n = 0 ∧ s = st) ∧
        (0 < n → ∃ s0, Inv N s0 ∧ Evolves st s0 ∧ pass ops p ms s0 = some s ∧
          s0.currentNbPoints = s.currentNbPoints) := by
  intro fuel
  induction fuel with
  | zero =>
    intro st last hinv hf
    have h : st.currentNbPoints = last := by
      rcases hf with h | h
      · exact h
      · omega
    exact ⟨st, 0, by simp [mergeLoop, h], hinv, evolves_refl st, fun _ => conserves_refl st,
      by omega, fun _ _ => by omega, fun _ => ⟨rfl, rfl⟩, fun h => by omega⟩
  | succ fuel ih =>
    intro st last hinv hf
    by_cases h : st.currentNbPoints = last
    · exact ⟨st, 0, by simp [mergeLoop, h], hinv, evolves_refl st, fun _ => conserves_refl st,
        by omega, fun _ _ => by omega, fun _ => ⟨rfl, rfl⟩, fun h => by omega⟩
    · have hfuel : liveCount st.masks + 1 ≤ fuel + 1 := by
        rcases hf with h' | h'
        · exact absurd h' h
        · exact h'
      obtain ⟨s1, hs1, hinv1, hev1, hc1⟩ := pass_spec ops p ms st hv hinv
      have hle := hev1.le
      have hcond : s1.currentNbPoints = st.currentNbPoints ∨ liveCount s1.masks + 1 ≤ fuel := by
        rw [hinv1.count, hinv.count]
        omega
      obtain ⟨s, n, hs, hinvs, hevs, hcs, hn, hn', hz, hfix⟩ :=
        ih s1 st.currentNbPoints hinv1 hcond
      refine ⟨s, n + 1, ?_, hinvs, evolves_trans hev1 hevs, fun hh => conserves_trans (hc1 hh) (hcs hh), ?_, ?_,
        fun hh => absurd hh h, fun _ => ?_⟩
      · simp [mergeLoop, h, hs1, hs]
      · by_cases he : s1.currentNbPoints = st.currentNbPoints
        · have := (hz he).1
          omega
        · rw [hinv1.count, hinv.count] at he
          omega
      · intro hself hpos
        by_cases he : s1.currentNbPoints = st.currentNbPoints
        · have := (hz he).1
          omega
        · have h1 := (hc1 hself).alive hpos
          have h2 := hn' hself h1
          rw [hinv1.count, hinv.count] at he
          omega
      · by_cases hn0 : 0 < n
        · obtain ⟨s0, hi0, he0, hp0, hc0⟩ := hfix hn0
          exact ⟨s0, hi0, evolves_trans hev1 he0, hp0, hc0⟩
        · have hn00 : n = 0 := by omega
          by_cases he : s1.currentNbPoints = st.currentNbPoints
          · obtain ⟨-, hss⟩ := hz he
            subst hss
            exact ⟨st, hinv, evolves_refl st, hs1, he.symm⟩
          · exfalso
            subst hn00
            cases fuel with
            | zero => simp [mergeLoop, he] at hs
            | succ f =>
              simp only [mergeLoop, he, if_false] at hs
              cases hp : pass ops p ms s1 with
              | none => simp [hp] at hs
              | some s2 =>
                cases hm : mergeLoop ops p ms f s2 s1.currentNbPoints with
                | none => simp [hp, hm] at hs
                | some r => simp [hp, hm] at hs

theorem mergeLoop_fuel_mono {D : Nat} {Dist : Type} (ops : DistributionOps D Dist)
    (p : Parameters) (ms : Matches) :
    ∀ (fuel : Nat) (st : MergeState D Dist) (lastNbPoints : Nat) (r : MergeState D Dist × Nat),
      mergeLoop ops p ms fuel st lastNbPoints = some r →
      ∀ k, mergeLoop ops p ms (fuel + k) st lastNbPoints = some r := by
  intro fuel
  induction fuel with
  | zero =>
    intro st last r h k
    by_cases hc : st.currentNbPoints = last
    · simp [mergeLoop, hc] at h
      cases k with
      | zero => simp [mergeLoop, hc, h]
      | succ k => simp [mergeLoop, hc, h]
    · simp [mergeLoop, hc] at h
  | succ fuel ih =>
    intro st last r h k
    have hk : fuel + 1 + k = (fuel + k) + 1 := by omega
    rw [hk]
    by_cases hc : st.currentNbPoints = last
    · simp [mergeLoop, hc] at h
      simp [mergeLoop, hc, h]
    · simp only [mergeLoop, hc, if_false] at h ⊢
      cases hp : pass ops p ms st with
      | none => simp [hp] at h
      | some s1 =>
        cases hm : mergeLoop ops p ms fuel s1 st.currentNbPoints with
        | none => simp [hp, hm] at h
        | some r1 =>
          simp [hp, hm] at h
          simp [hp, ih s1 st.currentNbPoints r1 hm k, h]

theorem block_eq_some {col : List ℚ} {start len : Nat} (h : start + len ≤ col.length) :
    ∃ v : Vec len, block col start len = some v ∧ v.1 = (col.drop start).take len := by
  unfold block
  rw [dif_pos h]
  exact ⟨_, rfl, rfl⟩

theorem block_some_le {col : List ℚ} {start len : Nat} {v : Vec len}
    (h : block col start len = some v) :
    start + len ≤ col.length ∧ v.1 = (col.drop start).take len := by
  unfold block at h
  split at h
  · rename_i hle
    simp at h
    exact ⟨hle, by rw [← h]⟩
  · simp at h

theorem setBlock_eq_some {len : Nat} {col : List ℚ} {start : Nat} (vals : Vec len)
    (h : start + len ≤ col.length) :
    setBlock col start vals = some (col.take start ++ vals.1 ++ col.drop (start + len)) := by
  unfold setBlock
  rw [if_pos h]

theorem setBlock_length {len : Nat} {col col2 : List ℚ} {start : Nat} {vals : Vec len}
    (h : setBlock col start vals = some col2) : col2.length = col.length := by
  unfold setBlock at h
  split at h
  · simp at h
    subst h
    simp [vals.2]
    omega
  · simp at h

theorem block_none {col : List ℚ} {start len : Nat} (h : ¬ start + len ≤ col.length) :
    block col start len = none := by
  unfold block
  rw [dif_neg h]

theorem block_setBlock_same {len : Nat} {col col2 : List ℚ} {start : Nat} {vals : Vec len}
    (h : setBlock col start vals = some col2) : block col2 start len = some vals := by
  have hl := setBlock_length h
  unfold setBlock at h
  split at h
  · rename_i hle
    simp at h
    have hle2 : start + len ≤ col2.length := by omega
    obtain ⟨v, hv, hv2⟩ := block_eq_some hle2
    rw [hv]
    congr 1
    apply Subtype.ext
    rw [hv2, ← h]
    have h1 : (List.take start col).length = start := by simp; omega
    rw [List.drop_left' h1, List.take_left' vals.2]
  · simp at h

theorem block_setBlock_disjoint {len len2 : Nat} {col col2 : List ℚ} {start start2 : Nat}
    {vals : Vec len} (h : setBlock col start vals = some col2)
    (hd : start2 + len2 ≤ start ∨ start + len ≤ start2) :
    block col2 start2 len2 = block col start2 len2 := by
  have hl := setBlock_length h
  unfold setBlock at h
  split at h
  · rename_i hle
    simp at h
    by_cases hb : start2 + len2 ≤ col.length
    · obtain ⟨v1, hv1, hv1'⟩ := block_eq_some hb
      obtain ⟨v2, hv2, hv2'⟩ := block_eq_some (show start2 + len2 ≤ col2.length by omega)
      rw [hv1, hv2]
      congr 1
      apply Subtype.ext
      rw [hv1', hv2']
      apply List.ext_getElem?
      intro k
      simp only [List.getElem?_take, List.getElem?_drop]
      split
      · rename_i hk
        rw [← h]
        rcases hd with hd | hd
        · rw [List.getElem?_append_left (by simp; omega)]
          rw [List.getElem?_take]
          simp
          intro; omega
        · rw [← List.append_assoc, List.getElem?_append_right (by simp [vals.2]; omega)]
          simp [vals.2, List.length_take]
          have : min start col.length = start := by omega
          rw [this]
          congr 1
          omega
      · rfl
    · rw [block_none hb, block_none (by omega)]
  · simp at h

theorem findLabel_bounds (labels : List (String × Nat)) (name : String) :
    ∀ (s0 start span : Nat), findLabel labels name s0 = some (start, span) →
      s0 ≤ start ∧ start + span ≤ s0 + totalSpan labels := by
  induction labels with
  | nil => intro s0 start span h; simp [findLabel] at h
  | cons l rest ih =>
    intro s0 start span h
    obtain ⟨n, sp⟩ := l
    simp only [findLabel] at h
    by_cases hn : n = name
    · rw [if_pos hn] at h
      simp at h
      obtain ⟨h1, h2⟩ := h
      subst h1 h2
      simp [totalSpan]
    · rw [if_neg hn] at h
      have := ih (s0 + sp) start span h
      simp only [totalSpan, List.map_cons, List.sum_cons] at this ⊢
      omega

theorem findLabel_disjoint (labels : List (String × Nat)) (a b : String) (hab : a ≠ b) :
    ∀ (s0 sa spa sb spb : Nat), findLabel labels a s0 = some (sa, spa) →
      findLabel labels b s0 = some (sb, spb) → sa + spa ≤ sb ∨ sb + spb ≤ sa := by
  induction labels with
  | nil => intro s0 sa spa sb spb h; simp [findLabel] at h
  | cons l rest ih =>
    intro s0 sa spa sb spb ha hb
    obtain ⟨n, sp⟩ := l
    simp only [findLabel] at ha hb
    by_cases hna : n = a
    · have hnb : ¬ n = b := fun h => hab (hna.symm.trans h)
      rw [if_pos hna] at ha
      rw [if_neg hnb] at hb
      simp at ha
      have := findLabel_bounds rest b (s0 + sp) sb spb hb
      omega
    · rw [if_neg hna] at ha
      by_cases hnb : n = b
      · rw [if_pos hnb] at hb
        simp at hb
        have := findLabel_bounds rest a (s0 + sp) sa spa ha
        omega
      · rw [if_neg hnb] at hb
        exact ih (s0 + sp) sa spa sb spb ha hb

theorem findLabel_append (labels : List (String × Nat)) (name : String) (l : String × Nat) :
    ∀ (s0 : Nat), findLabel (labels ++ [l]) name s0 =
      match findLabel labels name s0 with
      | some r => some r
      | none => if l.1 = name then some (s0 + totalSpan labels, l.2) else none := by
  induction labels with
  | nil =>
    intro s0
    obtain ⟨n, sp⟩ := l
    simp [findLabel, totalSpan]
  | cons x rest ih =>
    intro s0
    obtain ⟨n, sp⟩ := x
    simp only [List.cons_append, findLabel]
    by_cases hn : n = name
    · simp [hn]
    · simp only [if_neg hn]
      change findLabel (rest ++ [l]) name (s0 + sp) = _
      rw [ih (s0 + sp)]
      simp only [totalSpan, List.map_cons, List.sum_cons]
      rw [Nat.add_assoc]

theorem totalSpan_append (labels : List (String × Nat)) (l : String × Nat) :
    totalSpan (labels ++ [l]) = totalSpan labels + l.2 := by
  simp [totalSpan]

theorem mapM_some_of_forall {α β : Type} (f : α → Option β) (g : α → β) :
    ∀ (l : List α), (∀ x ∈ l, f x = some (g x)) → l.mapM f = some (l.map g) := by
  intro l
  induction l with
  | nil => intro _; rfl
  | cons a l ih =>
    intro h
    rw [List.mapM_cons, h a (List.mem_cons_self a l),
      ih (fun x hx => h x (List.mem_cons_of_mem a hx))]
    rfl

theorem getDescriptorViewByName_eq {D : Nat} (cloud : DataPoints D) (name : String)
    (start span : Nat) (hc : cloud.Consistent)
    (hl : findLabel cloud.descriptorLabels name 0 = some (start, span)) :
    cloud.getDescriptorViewByName name
      = some ⟨span, cloud.points.map (fun q => (q.descriptor.drop start).take span)⟩ := by
  have hb := findLabel_bounds _ _ _ _ _ hl
  have : cloud.points.mapM (fun q => (block q.descriptor start span).map (fun v => v.1))
      = some (cloud.points.map (fun q => (q.descriptor.drop start).take span)) := by
    apply mapM_some_of_forall
    intro q hq
    have hq' := hc q hq
    obtain ⟨v, hv, hv'⟩ := block_eq_some (show start + span ≤ q.descriptor.length by omega)
    rw [hv]
    simp [hv']
  unfold DataPoints.getDescriptorViewByName
  rw [hl]
  simp only [Option.bind_eq_bind, Option.some_bind, this, Option.pure_def]

theorem addDescriptor_spec {D : Nat} (cloud : DataPoints D) (name : String) (m : Matrix)
    (hc : cloud.Consistent) (hcols : m.cols.length = cloud.points.length)
    (hrows : ∀ col ∈ m.cols, col.length = m.rows) :
    ∃ c, cloud.addDescriptor name m = some c ∧
      c.descriptorLabels = cloud.descriptorLabels ++ [(name, m.rows)] ∧ c.Consistent ∧
      c.points.length = cloud.points.length ∧
      ∀ (i : Nat) (q : Point D), c.points[i]? = some q → ∃ q0 col, cloud.points[i]? = some q0 ∧
        m.cols[i]? = some col ∧ q.descriptor = q0.descriptor ++ col ∧ q.feature = q0.feature := by
  have hno : ¬ (m.cols.length ≠ cloud.points.length ∨ ∃ col ∈ m.cols, col.length ≠ m.rows) := by
    rintro (h | ⟨col, hcol, h⟩)
    · exact h hcols
    · exact h (hrows col hcol)
  have hget : ∀ (i : Nat) (q : Point D), (List.zipWith
      (fun (p : Point D) (col : List ℚ) => ({ p with descriptor := p.descriptor ++ col } : Point D))
      cloud.points m.cols)[i]? = some q → ∃ q0 col, cloud.points[i]? = some q0 ∧
        m.cols[i]? = some col ∧ q.descriptor = q0.descriptor ++ col ∧ q.feature = q0.feature := by
    intro i q hq
    rw [List.getElem?_zipWith] at hq
    cases h1 : cloud.points[i]? with
    | none => simp [h1] at hq
    | some q0 =>
      cases h2 : m.cols[i]? with
      | none => simp [h1, h2] at hq
      | some col =>
        simp [h1, h2] at hq
        subst hq
        exact ⟨q0, col, rfl, rfl, rfl, rfl⟩
  refine ⟨_, by unfold DataPoints.addDescriptor; rw [if_neg hno], rfl, ?_, ?_, hget⟩
  · intro q hq
    obtain ⟨i, hi, hiq⟩ := List.getElem_of_mem hq
    obtain ⟨q0, col, h1, h2, h3, -⟩ := hget i q (by rw [List.getElem?_eq_getElem hi, hiq])
    have hq0 := hc q0 (List.getElem?_mem h1)
    have hcl := hrows col (List.getElem?_mem h2)
    show q.descriptor.length = totalSpan (cloud.descriptorLabels ++ [(name, m.rows)])
    rw [totalSpan_append, h3, List.length_append, hq0, hcl]
  · show (List.zipWith _ cloud.points m.cols).length = _
    simp [hcols]

theorem setDescriptorView_spec {D : Nat} (cloud : DataPoints D) (name : String) (m : Matrix)
    (start span : Nat) (hc : cloud.Consistent)
    (hl : findLabel cloud.descriptorLabels name 0 = some (start, span))
    (hspan : m.rows = span) (hcols : m.cols.length = cloud.points.length)
    (hrows : ∀ col ∈ m.cols, col.length = m.rows) :
    ∃ c, cloud.setDescriptorView name m = some c ∧
      c.descriptorLabels = cloud.descriptorLabels ∧ c.Consistent ∧
      c.points.length = cloud.points.length ∧
      ∀ (i : Nat) (q : Point D), c.points[i]? = some q → ∃ q0 col, cloud.points[i]? = some q0 ∧
        m.cols[i]? = some col ∧ q.feature = q0.feature ∧
        q.descriptor = q0.descriptor.take start ++ col ++ q0.descriptor.drop (start + span) := by
  have hb := findLabel_bounds _ _ _ _ _ hl
  have hno : ¬ (m.rows ≠ span ∨ m.cols.length ≠ cloud.points.length) := by
    rintro (h | h)
    · exact h hspan
    · exact h hcols
  let g : Point D × List ℚ → Point D := fun pc =>
    ⟨pc.1.feature, pc.1.descriptor.take start ++ pc.2 ++ pc.1.descriptor.drop (start + span)⟩
  have hmap : (List.zip cloud.points m.cols).mapM (fun pc =>
      if h : pc.2.length = span then
        (setBlock pc.1.descriptor start (⟨pc.2, h⟩ : Vec span)).map
          (fun d => ({ pc.1 with descriptor := d } : Point D))
      else none) = some ((List.zip cloud.points m.cols).map g) := by
    apply mapM_some_of_forall
    intro pc hpc
    have h1 := hc pc.1 (List.of_mem_zip hpc).1
    have h2 : pc.2.length = span := by rw [← hspan]; exact hrows pc.2 (List.of_mem_zip hpc).2
    rw [dif_pos h2, setBlock_eq_some _ (by omega)]
    rfl
  have hget : ∀ (i : Nat) (q : Point D), ((List.zip cloud.points m.cols).map g)[i]? = some q →
      ∃ q0 col, cloud.points[i]? = some q0 ∧ m.cols[i]? = some col ∧ q.feature = q0.feature ∧
        q.descriptor = q0.descriptor.take start ++ col ++ q0.descriptor.drop (start + span) := by
    intro i q hq
    rw [List.getElem?_map, List.zip, List.getElem?_zipWith] at hq
    cases h1 : cloud.points[i]? with
    | none => simp [h1] at hq
    | some q0 =>
      cases h2 : m.cols[i]? with
      | none => simp [h1, h2] at hq
      | some col =>
        simp [h1, h2] at hq
        subst hq
        exact ⟨q0, col, rfl, rfl, rfl, rfl⟩
  refine ⟨{ cloud with points := (List.zip cloud.points m.cols).map g }, ?_, rfl, ?_, ?_, hget⟩
  · unfold DataPoints.setDescriptorView
    rw [hl]
    simp only [Option.bind_eq_bind, Option.some_bind, if_neg hno, hmap, Option.pure_def]
  · intro q hq
    obtain ⟨i, hi, hiq⟩ := List.getElem_of_mem hq
    obtain ⟨q0, col, h1, h2, -, h3⟩ := hget i q (by rw [List.getElem?_eq_getElem hi, hiq])
    have hq0 := hc q0 (List.getElem?_mem h1)
    have hcl := hrows col (List.getElem?_mem h2)
    show q.descriptor.length = totalSpan cloud.descriptorLabels
    rw [h3]
    simp
    omega
  · show ((List.zip cloud.points m.cols).map g).length = _
    simp [hcols]

theorem spanIs_append (labels : List (String × Nat)) (l : String × Nat) (name : String)
    (k : Nat) (h : ∀ r ∈ findLabel labels name 0, r.2 = k) (hl : l.1 = name → l.2 = k) :
    ∀ r ∈ findLabel (labels ++ [l]) name 0, r.2 = k := by
  intro r hr
  rw [findLabel_append] at hr
  cases hf : findLabel labels name 0 with
  | some r0 =>
    rw [hf] at hr
    simp at hr
    subst hr
    exact h r0 hf
  | none =>
    rw [hf] at hr
    by_cases hn : l.1 = name
    · simp [hn] at hr
      subst hr
      exact hl hn
    · simp [hn] at hr

theorem wellShaped_add {D : Nat} (cloud c : DataPoints D) (name : String) (rows : Nat)
    (hw : WellShaped cloud) (hlab : c.descriptorLabels = cloud.descriptorLabels ++ [(name, rows)])
    (hc : c.Consistent) (h1 : name = "covariance" → rows = D ^ 2)
    (h2 : name = "weightSum" → rows = D ^ 2) (h3 : name = "nbPoints" → rows = 1) :
    WellShaped c := by
  obtain ⟨-, w1, w2, w3⟩ := hw
  refine ⟨hc, ?_, ?_, ?_⟩
  · unfold DataPoints.SpanIs; rw [hlab]; exact spanIs_append _ _ _ _ w1 h1
  · unfold DataPoints.SpanIs; rw [hlab]; exact spanIs_append _ _ _ _ w2 h2
  · unfold DataPoints.SpanIs; rw [hlab]; exact spanIs_append _ _ _ _ w3 h3

theorem findLabel_append_isSome (labels : List (String × Nat)) (l : String × Nat)
    (name : String) (h : (findLabel labels name 0).isSome ∨ l.1 = name) :
    (findLabel (labels ++ [l]) name 0).isSome := by
  rw [findLabel_append]
  cases hf : findLabel labels name 0 with
  | some r0 => simp
  | none =>
    rcases h with h | h
    · simp [hf] at h
    · simp [h]

theorem ensureZero_spec {D : Nat} (cloud : DataPoints D) (name : String)
    (hw : WellShaped cloud) (hname : name = "covariance" ∨ name = "weightSum") :
    ∃ c, ensureZero cloud name = some c ∧
      WellShaped c ∧ c.points.length = cloud.points.length ∧
      (∀ (i : Nat) (q : Point D), c.points[i]? = some q →
        ∃ q0, cloud.points[i]? = some q0 ∧ q.feature = q0.feature) ∧
      (findLabel c.descriptorLabels name 0).isSome ∧
      (∀ n', (findLabel cloud.descriptorLabels n' 0).isSome →
        (findLabel c.descriptorLabels n' 0).isSome) := by
  unfold ensureZero
  cases he : cloud.descriptorExists name with
  | true =>
    refine ⟨cloud, by simp, hw, rfl, fun i q h => ⟨q, h, rfl⟩, ?_, fun _ h => h⟩
    simpa [DataPoints.descriptorExists] using he
  | false =>
    obtain ⟨c, hc, hlab, hcons, hlen, hpts⟩ := addDescriptor_spec cloud name
      (Matrix.Zero (D ^ 2) cloud.getNbPoints) hw.1
      (by simp [Matrix.Zero, DataPoints.getNbPoints])
      (by intro col hcol; simp [Matrix.Zero] at hcol ⊢; rw [hcol.2]; simp)
    refine ⟨c, by simpa using hc, ?_, hlen, ?_, ?_, ?_⟩
    · apply wellShaped_add cloud c name (D ^ 2) hw hlab hcons
      · intro _; rfl
      · intro _; rfl
      · intro h
        rcases hname with h' | h' <;> rw [h'] at h <;> exact absurd h (by decide)
    · intro i q hq
      obtain ⟨q0, col, h1, -, -, h4⟩ := hpts i q hq
      exact ⟨q0, h1, h4⟩
    · rw [hlab]
      exact findLabel_append_isSome _ _ _ (Or.inr rfl)
    · intro n' h
      rw [hlab]
      exact findLabel_append_isSome _ _ _ (Or.inl h)

theorem ensureDescriptors_spec {D : Nat} (cloud : DataPoints D) (nb : Matrix)
    (hw : WellShaped cloud) (hrows : nb.rows = 1) (hcols : nb.cols.length = cloud.points.length)
    (hlen : ∀ col ∈ nb.cols, col.length = 1) :
    ∃ c, ensureDescriptors cloud nb = some c ∧ WellShaped c ∧
      c.points.length = cloud.points.length ∧
      (∀ (i : Nat) (q : Point D), c.points[i]? = some q →
        ∃ q0, cloud.points[i]? = some q0 ∧ q.feature = q0.feature) ∧
      (findLabel c.descriptorLabels "covariance" 0).isSome ∧
      (findLabel c.descriptorLabels "weightSum" 0).isSome ∧
      (findLabel c.descriptorLabels "nbPoints" 0).isSome ∧
      (∀ (i : Nat) (q : Point D), c.points[i]? = some q →
        descriptorOf c.descriptorLabels "nbPoints" q = nb.cols[i]?) := by
  obtain ⟨c1, hc1, hw1, hl1, hf1, he1, hk1⟩ := ensureZero_spec cloud "covariance" hw (Or.inl rfl)
  obtain ⟨c2, hc2, hw2, hl2, hf2, he2, hk2⟩ := ensureZero_spec c1 "weightSum" hw1 (Or.inr rfl)
  have hfeat : ∀ (i : Nat) (q : Point D), c2.points[i]? = some q →
      ∃ q0, cloud.points[i]? = some q0 ∧ q.feature = q0.feature := by
    intro i q hq
    obtain ⟨q1, h1, e1⟩ := hf2 i q hq
    obtain ⟨q0, h0, e0⟩ := hf1 i q1 h1
    exact ⟨q0, h0, e1.trans e0⟩
  have hrows' : ∀ col ∈ nb.cols, col.length = nb.rows := by
    intro col hcol; rw [hrows]; exact hlen col hcol
  have hcols2 : nb.cols.length = c2.points.length := by rw [hl2, hl1, hcols]
  unfold ensureDescriptors
  rw [hc1]
  simp only [Option.bind_eq_bind, Option.some_bind]
  rw [hc2]
  simp only [Option.some_bind]
  cases he : c2.descriptorExists "nbPoints" with
  | false =>
    have hnone : findLabel c2.descriptorLabels "nbPoints" 0 = none := by
      simpa [DataPoints.descriptorExists] using he
    obtain ⟨c, hc, hlab, hcons, hl3, hpts⟩ := addDescriptor_spec c2 "nbPoints" nb hw2.1 hcols2 hrows'
    refine ⟨c, by simpa using hc, ?_, by rw [hl3, hl2, hl1], ?_, ?_, ?_, ?_, ?_⟩
    · apply wellShaped_add c2 c "nbPoints" nb.rows hw2 hlab hcons
      · intro h; exact absurd h (by decide)
      · intro h; exact absurd h (by decide)
      · intro _; exact hrows
    · intro i q hq
      obtain ⟨q2, col, h1, -, -, h4⟩ := hpts i q hq
      obtain ⟨q0, h0, e0⟩ := hfeat i q2 h1
      exact ⟨q0, h0, h4.trans e0⟩
    · rw [hlab]; exact findLabel_append_isSome _ _ _ (Or.inl (hk2 _ he1))
    · rw [hlab]; exact findLabel_append_isSome _ _ _ (Or.inl he2)
    · rw [hlab]; exact findLabel_append_isSome _ _ _ (Or.inr rfl)
    · intro i q hq
      obtain ⟨q2, col, h1, h2, h3, -⟩ := hpts i q hq
      have hq2 := hw2.1 q2 (List.getElem?_mem h1)
      have hcl := hrows' col (List.getElem?_mem h2)
      unfold descriptorOf
      rw [hlab, findLabel_append, hnone]
      simp only [if_true, Option.bind_eq_bind, Option.some_bind, Nat.zero_add]
      obtain ⟨v, hv, hv'⟩ := block_eq_some
        (show totalSpan c2.descriptorLabels + nb.rows ≤ q.descriptor.length by
          rw [h3, List.length_append]; omega)
      rw [hv, h2]
      simp only [Option.map_some']
      rw [hv', h3, List.drop_left' hq2, ← hcl, List.take_length]
  | true =>
    obtain ⟨⟨s, sp⟩, hr⟩ : ∃ r, findLabel c2.descriptorLabels "nbPoints" 0 = some r := by
      have : (findLabel c2.descriptorLabels "nbPoints" 0).isSome := by
        simpa [DataPoints.descriptorExists] using he
      exact Option.isSome_iff_exists.mp this
    have hsp : sp = 1 := hw2.2.2.2 (s, sp) hr
    obtain ⟨c, hc, hlab, hcons, hl3, hpts⟩ := setDescriptorView_spec c2 "nbPoints" nb s sp
      hw2.1 hr (by rw [hrows, hsp]) hcols2 hrows'
    refine ⟨c, by simpa using hc, ?_, by rw [hl3, hl2, hl1], ?_, ?_, ?_, ?_, ?_⟩
    · obtain ⟨-, w1, w2, w3⟩ := hw2
      exact ⟨hcons, by unfold DataPoints.SpanIs; rw [hlab]; exact w1,
        by unfold DataPoints.SpanIs; rw [hlab]; exact w2,
        by unfold DataPoints.SpanIs; rw [hlab]; exact w3⟩
    · intro i q hq
      obtain ⟨q2, col, h1, -, h4, -⟩ := hpts i q hq
      obtain ⟨q0, h0, e0⟩ := hfeat i q2 h1
      exact ⟨q0, h0, h4.trans e0⟩
    · rw [hlab]; exact hk2 _ he1
    · rw [hlab]; exact he2
    · rw [hlab, hr]; rfl
    · intro i q hq
      obtain ⟨q2, col, h1, h2, -, h3⟩ := hpts i q hq
      have hq2 := hw2.1 q2 (List.getElem?_mem h1)
      have hcl := hrows' col (List.getElem?_mem h2)
      have hb := findLabel_bounds _ _ _ _ _ hr
      unfold descriptorOf
      rw [hlab, hr]
      simp only [Option.bind_eq_bind, Option.some_bind]
      have hsb : setBlock q2.descriptor s (⟨col, by rw [hcl, hrows, hsp]⟩ : Vec sp)
          = some q.descriptor := by
        rw [setBlock_eq_some _ (by omega), h3]
      rw [block_setBlock_same hsb, h2]
      rfl

theorem set_self_of_get {α : Type} (l : List α) (i : Nat) (a : α) (h : l[i]? = some a) :
    l.set i a = l := by
  apply List.ext_getElem?
  intro k
  by_cases hk : i = k
  · subst hk
    have hi : i < l.length := (List.getElem?_eq_some_iff.mp h).1
    simp [List.getElem?_set, hi, h]
  · simp [List.getElem?_set, hk]

theorem setViewBlock_spec {D len : Nat} (cloud : DataPoints D) (name : String) (off i : Nat)
    (vals : Vec len) (start span : Nat) (q : Point D)
    (hl : findLabel cloud.descriptorLabels name 0 = some (start, span))
    (hq : cloud.points[i]? = some q) (hoff : off + len ≤ span)
    (hlen : start + span ≤ q.descriptor.length) :
    ∃ d, setBlock q.descriptor (start + off) vals = some d ∧
      cloud.setViewBlock name off i vals
        = some { cloud with points := cloud.points.set i ⟨q.feature, d⟩ } := by
  have hle : start + off + len ≤ q.descriptor.length := by omega
  refine ⟨_, setBlock_eq_some vals hle, ?_⟩
  unfold DataPoints.setViewBlock
  rw [hl]
  simp only [Option.bind_eq_bind, Option.some_bind, hq, if_pos hoff, setBlock_eq_some vals hle,
    Option.pure_def]

theorem flatten_spec {D : Nat} (cloud : DataPoints D) (covariance weightSum : Mat D) (i : Nat)
    (q : Point D) (sc spc sw spw : Nat) (hq : cloud.points[i]? = some q)
    (hc : findLabel cloud.descriptorLabels "covariance" 0 = some (sc, spc))
    (hw : findLabel cloud.descriptorLabels "weightSum" 0 = some (sw, spw))
    (hspc : D * D ≤ spc) (hspw : D * D ≤ spw)
    (hlen : q.descriptor.length = totalSpan cloud.descriptorLabels) :
    ∃ c q2, (List.range D).foldlM (flattenStep covariance weightSum i) cloud = some c ∧
      c.descriptorLabels = cloud.descriptorLabels ∧ c.points = cloud.points.set i q2 ∧
      Flushed cloud.descriptorLabels covariance weightSum q q2 := by
  have hbc := findLabel_bounds _ _ _ _ _ hc
  have hbw := findLabel_bounds _ _ _ _ _ hw
  have hdis := findLabel_disjoint cloud.descriptorLabels "covariance" "weightSum" (by decide)
    0 sc spc sw spw hc hw
  have hi : i < cloud.points.length := (List.getElem?_eq_some_iff.mp hq).1
  obtain ⟨c, hfold, hlab, q2, hpts, hfeat, hlen2, hblocks, hother⟩ :=
    foldlM_range_inv (fun (j : Nat) (c : DataPoints D) =>
      c.descriptorLabels = cloud.descriptorLabels ∧
      ∃ q2 : Point D, c.points = cloud.points.set i q2 ∧ q2.feature = q.feature ∧
        q2.descriptor.length = q.descriptor.length ∧
        (∀ j0, j0 < j → block q2.descriptor (sc + j0 * D) D = covariance.1[j0]? ∧
          block q2.descriptor (sw + j0 * D) D = weightSum.1[j0]?) ∧
        (∀ s len, (s + len ≤ sc ∨ sc + D * D ≤ s) → (s + len ≤ sw ∨ sw + D * D ≤ s) →
          block q2.descriptor s len = block q.descriptor s len))
      (flattenStep covariance weightSum i) cloud D
      ⟨rfl, q, (set_self_of_get _ _ _ hq).symm, rfl, rfl, fun j0 h => by omega,
        fun _ _ _ _ => rfl⟩
      (by
        intro j c hj ⟨hlab, q2, hpts, hfeat, hlen2, hblocks, hother⟩
        have hjD : j * D + D ≤ D * D := by
          have := Nat.mul_le_mul_right D (show j + 1 ≤ D by omega)
          rw [Nat.add_mul, Nat.one_mul] at this
          exact this
        have hcj : j < covariance.1.length := by rw [covariance.2]; exact hj
        have hwj : j < weightSum.1.length := by rw [weightSum.2]; exact hj
        have hq2 : c.points[i]? = some q2 := by
          rw [hpts]; simp [List.getElem?_set, hi]
        obtain ⟨d1, hd1, hs1⟩ := setViewBlock_spec c "covariance" (j * D) i (covariance.1[j])
          sc spc q2 (by rw [hlab]; exact hc) hq2 (by omega) (by omega)
        have hl1 := setBlock_length hd1
        obtain ⟨d2, hd2, hs2⟩ := setViewBlock_spec
          ({ c with points := c.points.set i ⟨q2.feature, d1⟩ } : DataPoints D)
          "weightSum" (j * D) i (weightSum.1[j]) sw spw ⟨q2.feature, d1⟩
          (by show findLabel c.descriptorLabels "weightSum" 0 = _; rw [hlab]; exact hw)
          (by
            show (c.points.set i _)[i]? = _
            rw [hpts]; simp [List.getElem?_set, hi])
          (by omega) (by show sw + spw ≤ d1.length; omega)
        have hl2 := setBlock_length hd2
        refine ⟨(⟨c.descriptorLabels,
          (c.points.set i ⟨q2.feature, d1⟩).set i ⟨q2.feature, d2⟩⟩ : DataPoints D),
          ?_, hlab, ⟨q2.feature, d2⟩, ?_, hfeat, ?_, ?_, ?_⟩
        · unfold flattenStep
          rw [List.getElem?_eq_getElem hcj]
          simp only [Option.bind_eq_bind, Option.some_bind]
          rw [hs1]
          simp only [Option.some_bind]
          rw [List.getElem?_eq_getElem hwj]
          simp only [Option.some_bind]
          exact hs2
        · show (c.points.set i _).set i _ = _
          rw [hpts]
          simp [List.set_set]
        · show d2.length = _
          rw [hl2]
          show d1.length = _
          rw [hl1, hlen2]
        · intro j0 hj0
          have hj0D : j0 < j → j0 * D + D ≤ j * D := by
            intro h
            have := Nat.mul_le_mul_right D (show j0 + 1 ≤ j by omega)
            rw [Nat.add_mul, Nat.one_mul] at this
            exact this
          show block d2 (sc + j0 * D) D = _ ∧ block d2 (sw + j0 * D) D = _
          by_cases hjj : j0 = j
          · subst hjj
            refine ⟨?_, ?_⟩
            · rw [block_setBlock_disjoint hd2 (by omega), block_setBlock_same hd1,
                List.getElem?_eq_getElem hcj]
            · rw [block_setBlock_same hd2, List.getElem?_eq_getElem hwj]
          · have hlt : j0 < j := by omega
            have := hj0D hlt
            obtain ⟨b1, b2⟩ := hblocks j0 hlt
            refine ⟨?_, ?_⟩
            · rw [block_setBlock_disjoint hd2 (by omega), block_setBlock_disjoint hd1 (by omega)]
              exact b1
            · rw [block_setBlock_disjoint hd2 (by omega), block_setBlock_disjoint hd1 (by omega)]
              exact b2
        · intro s len h1 h2
          show block d2 s len = _
          rw [block_setBlock_disjoint hd2 (by omega), block_setBlock_disjoint hd1 (by omega)]
          exact hother s len h1 h2)
  refine ⟨c, q2, hfold, hlab, hpts, hfeat, hlen2, ?_, ?_, ?_⟩
  · intro sc' spc' hc' j hj
    rw [hc] at hc'
    simp at hc'
    rw [← hc'.1]
    exact (hblocks j hj).1
  · intro sw' spw' hw' j hj
    rw [hw] at hw'
    simp at hw'
    rw [← hw'.1]
    exact (hblocks j hj).2
  · intro sc' spc' sw' spw' hc' hw' s len h1 h2
    rw [hc] at hc'
    rw [hw] at hw'
    simp at hc' hw'
    rw [← hc'.1] at h1
    rw [← hw'.1] at h2
    exact hother s len h1 h2

theorem compact_spec {D : Nat} {Dist : Type} (ops : DistributionOps D Dist) (masks : List Bool)
    (distributions : List Dist) (cloud : DataPoints D) (N : Nat)
    (hN : cloud.points.length = N) (hm : masks.length = N) (hd : distributions.length = N)
    (hw : WellShaped cloud) (hcov : (findLabel cloud.descriptorLabels "covariance" 0).isSome)
    (hws : (findLabel cloud.descriptorLabels "weightSum" 0).isSome) :
    ∃ out, compact ops masks distributions cloud = some out ∧
      out.descriptorLabels = cloud.descriptorLabels ∧
      List.Forall₂ (fun (k : Nat) (q2 : Point D) => ∃ q d, cloud.points[k]? = some q ∧
          distributions[k]? = some d ∧
          Flushed cloud.descriptorLabels (ops.getCovariance d) (ops.getWeightSum d) q q2)
        (liveIndices masks) out.points := by
  obtain ⟨⟨sc, spc⟩, hc⟩ := Option.isSome_iff_exists.mp hcov
  obtain ⟨⟨sw, spw⟩, hwl⟩ := Option.isSome_iff_exists.mp hws
  have hspc : spc = D ^ 2 := hw.2.1 (sc, spc) hc
  have hspw : spw = D ^ 2 := hw.2.2.1 (sw, spw) hwl
  have hsq : D ^ 2 = D * D := Nat.pow_two D
  let R : Nat → Point D → Prop := fun k q2 => ∃ q d, cloud.points[k]? = some q ∧
    distributions[k]? = some d ∧
    Flushed cloud.descriptorLabels (ops.getCovariance d) (ops.getWeightSum d) q q2
  obtain ⟨⟨c, total⟩, hfold, hlab, hlen, htot, hdrop, hrel⟩ :=
    foldlM_range_inv (fun (i : Nat) (s : DataPoints D × Nat) =>
      s.1.descriptorLabels = cloud.descriptorLabels ∧ s.1.points.length = N ∧ s.2 ≤ i ∧
      s.1.points.drop i = cloud.points.drop i ∧
      List.Forall₂ R ((List.range i).filter (fun k => masks.getD k false)) (s.1.points.take s.2))
      (compactStep ops masks distributions) (cloud, 0) N
      ⟨rfl, hN, le_refl _, rfl, by simp⟩
      (by
        intro i ⟨c, total⟩ hi ⟨hlab, hlen, htot, hdrop, hrel⟩
        simp only at hlab hlen htot hdrop hrel
        have hmi : i < masks.length := by omega
        have hci : i < c.points.length := by omega
        have hcli : i < cloud.points.length := by omega
        have hdropS : c.points.drop (i + 1) = cloud.points.drop (i + 1) := by
          have := congrArg (List.drop 1) hdrop
          simpa [List.drop_drop, Nat.add_comm] using this
        cases hb : masks[i] with
        | false =>
          refine ⟨(c, total), ?_, hlab, hlen, by simp only; omega, hdropS, ?_⟩
          · simp [compactStep, List.getElem?_eq_getElem hmi, hb]
          · rw [List.range_succ, List.filter_append]
            have hfil : List.filter (fun k => masks.getD k false) [i] = [] := by
              simp [List.getD_eq_getElem?_getD, List.getElem?_eq_getElem hmi, hb]
            rw [hfil, List.append_nil]
            exact hrel
        | true =>
          have hdi : i < distributions.length := by omega
          have hqi : c.points[i]? = some cloud.points[i] := by
            have := congrArg (fun l => l[0]?) hdrop
            simpa [List.getElem?_drop, List.getElem?_eq_getElem hcli] using this
          obtain ⟨c1, q2, hf, hlab1, hpts1, hflush⟩ := flatten_spec c
            (ops.getCovariance distributions[i]) (ops.getWeightSum distributions[i]) i
            cloud.points[i] sc spc sw spw hqi (by rw [hlab]; exact hc) (by rw [hlab]; exact hwl)
            (by omega) (by omega)
            (by rw [hlab]; exact hw.1 _ (List.getElem_mem hcli))
          have hq2 : c1.points[i]? = some q2 := by
            rw [hpts1]; simp [List.getElem?_set, hci]
          have hlen1 : c1.points.length = N := by rw [hpts1]; simpa using hlen
          refine ⟨(⟨c1.descriptorLabels, c1.points.set total q2⟩, total + 1), ?_,
            hlab1.trans hlab, by simpa using hlen1, by simp only; omega, ?_, ?_⟩
          · simp only [compactStep, List.getElem?_eq_getElem hmi, hb,
              List.getElem?_eq_getElem hdi, Option.bind_eq_bind, Option.some_bind, if_true, hf,
              DataPoints.setColFrom, hq2, Option.pure_def]
            rw [if_pos (by omega)]
            rfl
          · show (c1.points.set total q2).drop (i + 1) = _
            rw [hpts1, ← hdropS]
            apply List.ext_getElem?
            intro k
            simp only [List.getElem?_drop, List.getElem?_set]
            rw [if_neg (by omega), if_neg (by omega)]
          · show List.Forall₂ R _ ((c1.points.set total q2).take (total + 1))
            rw [List.range_succ, List.filter_append]
            have htake : (c1.points.set total q2).take (total + 1)
                = c.points.take total ++ [q2] := by
              apply List.ext_getElem?
              intro k
              rw [hpts1]
              by_cases hk : k < total
              · rw [List.getElem?_append_left (by simp; omega)]
                simp only [List.getElem?_take, List.getElem?_set]
                rw [if_pos (by omega), if_neg (by omega), if_neg (by omega), if_pos hk]
              · by_cases hk2 : k = total
                · subst hk2
                  rw [List.getElem?_append_right (by simp)]
                  have hlt : (List.take k c.points).length = k := by simp; omega
                  rw [hlt, Nat.sub_self]
                  simp only [List.getElem?_take, List.getElem?_set, List.length_set]
                  have hkl : k < c.points.length := by omega
                  simp [hkl]
                · rw [List.getElem?_append_right (by simp; omega)]
                  simp only [List.getElem?_take]
                  rw [if_neg (by omega)]
                  have hlt : (List.take total c.points).length = total := by simp; omega
                  rw [hlt]
                  exact (List.getElem?_eq_none (by simp; omega)).symm
            rw [htake]
            have hfil : List.filter (fun k => masks.getD k false) [i] = [i] := by
              simp [List.getD_eq_getElem?_getD, List.getElem?_eq_getElem hmi, hb]
            rw [hfil]
            refine List.rel_append hrel ?_
            refine List.Forall₂.cons ?_ List.Forall₂.nil
            exact ⟨cloud.points[i], distributions[i], List.getElem?_eq_getElem hcli,
              List.getElem?_eq_getElem hdi, by rw [← hlab]; exact hflush⟩)
  simp only at hlab hlen htot hdrop hrel
  have hview1 := getDescriptorViewByName_eq cloud "covariance" sc spc hw.1 hc
  have hview2 := getDescriptorViewByName_eq cloud "weightSum" sw spw hw.1 hwl
  refine ⟨⟨c.descriptorLabels, c.points.take total⟩, ?_, hlab, ?_⟩
  · unfold compact
    rw [hview1, hview2]
    simp only [Option.bind_eq_bind, Option.some_bind, DataPoints.getNbPoints, hN, hfold,
      DataPoints.conservativeResize]
    rw [if_pos (by omega)]
  · show List.Forall₂ R (liveIndices masks) (c.points.take total)
    unfold liveIndices
    rw [hm]
    exact hrel

theorem mapM_some_of_exists {α β : Type} (f : α → Option β) :
    ∀ (l : List α), (∀ x ∈ l, ∃ y, f x = some y) →
      ∃ ys, l.mapM f = some ys ∧ ys.length = l.length := by
  intro l
  induction l with
  | nil => intro _; exact ⟨[], rfl, rfl⟩
  | cons a l ih =>
    intro h
    obtain ⟨y, hy⟩ := h a (List.mem_cons_self a l)
    obtain ⟨ys, hys, hlen⟩ := ih (fun x hx => h x (List.mem_cons_of_mem a hx))
    refine ⟨y :: ys, ?_, by simp [hlen]⟩
    rw [List.mapM_cons, hy, hys]
    rfl

theorem unflatten_some {D : Nat} (cloud : DataPoints D) (name : String) (i : Nat) (q : Point D)
    (start span : Nat) (hc : cloud.Consistent)
    (hl : findLabel cloud.descriptorLabels name 0 = some (start, span))
    (hspan : D * D ≤ span) (hq : cloud.points[i]? = some q) :
    ∃ M, unflatten cloud name i = some M := by
  have hb := findLabel_bounds _ _ _ _ _ hl
  have hql := hc q (List.getElem?_mem hq)
  obtain ⟨cols, hcols, hlen⟩ := mapM_some_of_exists
    (fun j => cloud.viewBlock name (j * D) i D) (List.range D) (by
      intro j hj
      have hj' : j < D := List.mem_range.mp hj
      have hjD : j * D + D ≤ D * D := by
        have := Nat.mul_le_mul_right D (show j + 1 ≤ D by omega)
        rw [Nat.add_mul, Nat.one_mul] at this
        exact this
      obtain ⟨v, hv, -⟩ := block_eq_some
        (show start + j * D + D ≤ q.descriptor.length by omega)
      refine ⟨v, ?_⟩
      unfold DataPoints.viewBlock
      rw [hl]
      simp only [Option.bind_eq_bind, Option.some_bind, hq]
      rw [if_pos (by omega)]
      exact hv)
  have hlen' : cols.length = D := by simpa using hlen
  refine ⟨⟨cols, hlen'⟩, ?_⟩
  unfold unflatten
  rw [hcols]
  simp only [Option.bind_eq_bind, Option.some_bind]
  rw [dif_pos hlen']

theorem initSummaries_fresh {D : Nat} {Dist : Type} (ops : DistributionOps D Dist)
    (p : Parameters) (cloud : DataPoints D)
    (h : (!cloud.descriptorExists "covariance" || !cloud.descriptorExists "weightSum"
      || !cloud.descriptorExists "nbPoints") = true) :
    initSummaries ops p cloud = some (cloud.points.map (fun pt =>
        ops.ofPoint (topRows pt.feature) (Mat.scaledIdentity p.initialVariance D)),
      Matrix.Ones 1 cloud.getNbPoints) := by
  unfold initSummaries
  rw [if_pos h]

theorem initSummaries_spec {D : Nat} {Dist : Type} (ops : DistributionOps D Dist)
    (p : Parameters) (cloud : DataPoints D) (hw : WellShaped cloud) :
    ∃ distributions nb, initSummaries ops p cloud = some (distributions, nb) ∧
      distributions.length = cloud.points.length ∧ nb.rows = 1 ∧
      nb.cols.length = cloud.points.length ∧ (∀ col ∈ nb.cols, col.length = 1) ∧
      ((!cloud.descriptorExists "covariance" || !cloud.descriptorExists "weightSum"
          || !cloud.descriptorExists "nbPoints") = true → nb = Matrix.Ones 1 cloud.getNbPoints) ∧
      ((!cloud.descriptorExists "covariance" || !cloud.descriptorExists "weightSum"
          || !cloud.descriptorExists "nbPoints") = false →
        cloud.getDescriptorViewByName "nbPoints" = some nb) := by
  cases h : (!cloud.descriptorExists "covariance" || !cloud.descriptorExists "weightSum"
      || !cloud.descriptorExists "nbPoints") with
  | true =>
    refine ⟨_, _, initSummaries_fresh ops p cloud h, by simp, rfl,
      by simp [Matrix.Ones, DataPoints.getNbPoints], ?_, fun _ => rfl, fun h' => by simp at h'⟩
    intro col hcol
    simp [Matrix.Ones] at hcol
    rw [hcol.2]; simp
  | false =>
    simp only [Bool.or_eq_false_iff, Bool.not_eq_false', DataPoints.descriptorExists] at h
    obtain ⟨⟨h1, h2⟩, h3⟩ := h
    obtain ⟨⟨sc, spc⟩, hc⟩ := Option.isSome_iff_exists.mp h1
    obtain ⟨⟨sw, spw⟩, hwl⟩ := Option.isSome_iff_exists.mp h2
    obtain ⟨⟨sn, spn⟩, hn⟩ := Option.isSome_iff_exists.mp h3
    have hspc : spc = D ^ 2 := hw.2.1 (sc, spc) hc
    have hspw : spw = D ^ 2 := hw.2.2.1 (sw, spw) hwl
    have hspn : spn = 1 := hw.2.2.2 (sn, spn) hn
    have hsq : D ^ 2 = D * D := Nat.pow_two D
    have hbn := findLabel_bounds _ _ _ _ _ hn
    obtain ⟨ds, hds, hdlen⟩ := mapM_some_of_exists (fun i => do
        let pt ← cloud.points[i]?
        let covariance ← unflatten cloud "covariance" i
        let weightSum ← unflatten cloud "weightSum" i
        pure (ops.ofParts (topRows pt.feature) covariance weightSum))
      (List.range cloud.getNbPoints) (by
        intro i hi
        have hi' : i < cloud.points.length := List.mem_range.mp hi
        obtain ⟨M1, hM1⟩ := unflatten_some cloud "covariance" i cloud.points[i] sc spc hw.1 hc
          (by omega) (List.getElem?_eq_getElem hi')
        obtain ⟨M2, hM2⟩ := unflatten_some cloud "weightSum" i cloud.points[i] sw spw hw.1 hwl
          (by omega) (List.getElem?_eq_getElem hi')
        exact ⟨_, by simp [List.getElem?_eq_getElem hi', hM1, hM2]; rfl⟩)
    refine ⟨ds, ⟨spn, cloud.points.map (fun q => (q.descriptor.drop sn).take spn)⟩, ?_,
      by simpa [DataPoints.getNbPoints] using hdlen, hspn, by simp, ?_, fun h' => by simp at h',
      fun _ => getDescriptorViewByName_eq cloud "nbPoints" sn spn hw.1 hn⟩
    · unfold initSummaries
      have hcond : (!cloud.descriptorExists "covariance" || !cloud.descriptorExists "weightSum"
          || !cloud.descriptorExists "nbPoints") = false := by
        simp [DataPoints.descriptorExists, h1, h2, h3]
      rw [hcond]
      simp only [Bool.false_eq_true, if_false]
      rw [getDescriptorViewByName_eq cloud "covariance" sc spc hw.1 hc,
        getDescriptorViewByName_eq cloud "weightSum" sw spw hw.1 hwl,
        getDescriptorViewByName_eq cloud "nbPoints" sn spn hw.1 hn]
      simp only [Option.bind_eq_bind, Option.some_bind] at hds ⊢
      rw [hds]
      rfl
    · intro col hcol
      simp only [List.mem_map] at hcol
      obtain ⟨q, hq, rfl⟩ := hcol
      have := hw.1 q hq
      simp
      omega

theorem liveIndices_length (masks : List Bool) : (liveIndices masks).length = liveCount masks := by
  have key : ∀ n, n ≤ masks.length →
      ((List.range n).filter (fun k => masks.getD k false)).length = (masks.take n).count true := by
    intro n
    induction n with
    | zero => intro _; simp
    | succ n ih =>
      intro hn
      have hlt : n < masks.length := by omega
      rw [List.range_succ, List.filter_append, List.length_append, ih (by omega), List.take_succ,
        List.count_append, List.getElem?_eq_getElem hlt]
      congr 1
      cases hb : masks[n] <;>
        simp [List.getD_eq_getElem?_getD, List.getElem?_eq_getElem hlt, hb]
  have := key masks.length (le_refl _)
  simpa [liveIndices, liveCount] using this

theorem sum_filter_map (l : List Nat) (pr : Nat → Bool) (f : Nat → ℚ) :
    ((l.filter pr).map f).sum = (l.map (fun k => if pr k = true then f k else 0)).sum := by
  induction l with
  | nil => rfl
  | cons a l ih =>
    cases h : pr a <;> simp [List.filter_cons, h, ih]

theorem sum_range_eq (n : Nat) (f : Nat → ℚ) :
    ((List.range n).map f).sum = ∑ k in Finset.range n, f k := by
  induction n with
  | zero => simp
  | succ n ih => rw [List.range_succ, List.map_append, List.sum_append, ih, Finset.sum_range_succ]; simp

theorem liveSum_eq_list (masks : List Bool) (cols : List (List ℚ)) :
    liveSum masks cols = ((liveIndices masks).map (fun k => row0 (cols.getD k []))).sum := by
  unfold liveSum liveIndices
  rw [sum_filter_map, sum_range_eq]

theorem forall₂_map_eq {α β γ : Type} (R : α → β → Prop) (f : α → γ) (g : β → γ)
    (h : ∀ a b, R a b → g b = f a) :
    ∀ (l1 : List α) (l2 : List β), List.Forall₂ R l1 l2 → l2.map g = l1.map f := by
  intro l1 l2 hr
  induction hr with
  | nil => rfl
  | cons hab _ ih => simp [h _ _ hab, ih]

theorem initState_inv {D : Nat} {Dist : Type} (cloud : DataPoints D) (distributions : List Dist)
    (nb : Matrix) (hN : cloud.points.length < 4294967296)
    (hd : distributions.length = cloud.points.length)
    (hc : nb.cols.length = cloud.points.length) (hl : ∀ col ∈ nb.cols, col.length = 1) :
    Inv cloud.points.length (initState cloud distributions nb) := by
  refine ⟨rfl, hd, hc, fun col hcol => by rw [hl col hcol]; exact Nat.one_pos, ?_, ?_, hN⟩
  · simp [initState, DataPoints.getNbPoints]
  · simp only [initState, DataPoints.getNbPoints, liveCount_replicate]
    omega

theorem runMerge_spec {D : Nat} {Dist : Type} (ops : DistributionOps D Dist) (p : Parameters)
    (ms : Matches) (cloud : DataPoints D) (distributions : List Dist) (nb : Matrix)
    (hv : ValidTable p.knn cloud.points.length ms) (hN : cloud.points.length < 4294967296)
    (hd : distributions.length = cloud.points.length)
    (hc : nb.cols.length = cloud.points.length) (hl : ∀ col ∈ nb.cols, col.length = 1) :
    ∃ st n, (∀ k, mergeLoop ops p ms (cloud.getNbPoints + 1 + k)
          (initState cloud distributions nb) 0 = some (st, n)) ∧
      Inv cloud.points.length st ∧ Evolves (initState cloud distributions nb) st ∧
      (NoSelfMatch ms → Conserves (initState cloud distributions nb) st) ∧
      n ≤ cloud.points.length + 1 ∧ (NoSelfMatch ms → n ≤ cloud.points.length) ∧
      (0 < n → ∃ s0, Inv cloud.points.length s0 ∧ Evolves (initState cloud distributions nb) s0 ∧
        pass ops p ms s0 = some st ∧ s0.currentNbPoints = st.currentNbPoints) := by
  have hinv := initState_inv cloud distributions nb hN hd hc hl
  have hcount : liveCount (initState cloud distributions nb).masks = cloud.points.length := by
    simp [initState, DataPoints.getNbPoints, liveCount_replicate]
  obtain ⟨st, n, hrun, hinv', hev, hcons, hn, hn', hz, hfix⟩ :=
    mergeLoop_spec ops p ms hv (cloud.getNbPoints + 1) (initState cloud distributions nb) 0 hinv
      (Or.inr (by rw [hcount]; simp [DataPoints.getNbPoints]))
  refine ⟨st, n, fun k => mergeLoop_fuel_mono ops p ms _ _ _ _ hrun k, hinv', hev, hcons,
    by omega, ?_, hfix⟩
  intro hself
  by_cases h0 : cloud.points.length = 0
  · have : (initState cloud distributions nb).currentNbPoints = 0 := by
      simp [initState, DataPoints.getNbPoints, h0]
    have := (hz this).1
    omega
  · have := hn' hself (by omega)
    omega

theorem inPlaceFilter_spec {D : Nat} {Dist : Type} (ops : DistributionOps D Dist)
    (matcher : Matcher D) (p : Parameters) (cloud : DataPoints D) (hw : WellShaped cloud)
    (hN : cloud.points.length < 4294967296)
    (hv : ValidTable p.knn cloud.points.length (matcher p.knn p.maxDist p.epsilon cloud)) :
    ∃ distributions nb st n out,
      initSummaries ops p cloud = some (distributions, nb) ∧
      runMerge ops p (matcher p.knn p.maxDist p.epsilon cloud) cloud distributions nb
        = some (st, n) ∧
      inPlaceFilter ops matcher p cloud = some out ∧
      Inv cloud.points.length st ∧ Evolves (initState cloud distributions nb) st ∧
      (NoSelfMatch (matcher p.knn p.maxDist p.epsilon cloud) →
        Conserves (initState cloud distributions nb) st) ∧
      n ≤ cloud.points.length + 1 ∧
      (NoSelfMatch (matcher p.knn p.maxDist p.epsilon cloud) → n ≤ cloud.points.length) ∧
      WellShaped out ∧
      (findLabel out.descriptorLabels "covariance" 0).isSome ∧
      (findLabel out.descriptorLabels "weightSum" 0).isSome ∧
      (findLabel out.descriptorLabels "nbPoints" 0).isSome ∧
      List.Forall₂ (OutputOf ops st out.descriptorLabels) (liveIndices st.masks) out.points := by
  obtain ⟨ds, nb, hinit, hdl, hrows, hcl, hlen, -, -⟩ := initSummaries_spec ops p cloud hw
  obtain ⟨st, n, hrun, hinv, hev, hcons, hn, hn', -⟩ :=
    runMerge_spec ops p (matcher p.knn p.maxDist p.epsilon cloud) cloud ds nb hv hN hdl hcl hlen
  have hstw : WellShaped st.cloud := by
    obtain ⟨w0, w1, w2, w3⟩ := hw
    have hlab : st.cloud.descriptorLabels = cloud.descriptorLabels := hev.labels
    refine ⟨?_, by unfold DataPoints.SpanIs; rw [hlab]; exact w1,
      by unfold DataPoints.SpanIs; rw [hlab]; exact w2,
      by unfold DataPoints.SpanIs; rw [hlab]; exact w3⟩
    intro q hq
    have hmem : q.descriptor ∈ st.cloud.points.map (fun q => q.descriptor) :=
      List.mem_map_of_mem _ hq
    rw [hev.descs] at hmem
    obtain ⟨q0, hq0, he⟩ := List.mem_map.mp hmem
    rw [hlab, ← he]
    exact w0 q0 hq0
  have hnbrows : st.nbPoints.rows = 1 := hev.rows.trans hrows
  have hnblen : ∀ col ∈ st.nbPoints.cols, col.length = 1 := by
    intro col hcol
    have hmem : col.length ∈ st.nbPoints.cols.map List.length := List.mem_map_of_mem _ hcol
    rw [hev.lens] at hmem
    obtain ⟨c0, hc0, he⟩ := List.mem_map.mp hmem
    rw [← he]
    exact hlen c0 hc0
  obtain ⟨c, hens, hcw, hcl', hcf, hc1, hc2, hc3, hcnb⟩ := ensureDescriptors_spec st.cloud
    st.nbPoints hstw hnbrows (by rw [hinv.cols, hinv.points]) hnblen
  obtain ⟨out, hout, holab, hrel⟩ := compact_spec ops st.masks st.distributions c
    cloud.points.length (by rw [hcl', hinv.points]) hinv.masks hinv.dists hcw hc1 hc2
  obtain ⟨⟨sc, spc⟩, hlc⟩ := Option.isSome_iff_exists.mp hc1
  obtain ⟨⟨sw, spw⟩, hlw⟩ := Option.isSome_iff_exists.mp hc2
  obtain ⟨⟨sn, spn⟩, hln⟩ := Option.isSome_iff_exists.mp hc3
  have hspc : spc = D ^ 2 := hcw.2.1 (sc, spc) hlc
  have hspw : spw = D ^ 2 := hcw.2.2.1 (sw, spw) hlw
  have hsq : D ^ 2 = D * D := Nat.pow_two D
  have hd1 := findLabel_disjoint c.descriptorLabels "nbPoints" "covariance" (by decide)
    0 sn spn sc spc hln hlc
  have hd2 := findLabel_disjoint c.descriptorLabels "nbPoints" "weightSum" (by decide)
    0 sn spn sw spw hln hlw
  have hrel' : List.Forall₂ (OutputOf ops st out.descriptorLabels) (liveIndices st.masks)
      out.points := by
    refine List.Forall₂.imp ?_ hrel
    intro k q2 ⟨q, d, hq, hd, hfl⟩
    obtain ⟨q0, hq0, hfe⟩ := hcf k q hq
    refine ⟨?_, ?_, ⟨d, sc, spc, hd, by rw [holab]; exact hlc, hfl.cov sc spc hlc⟩,
      ⟨d, sw, spw, hd, by rw [holab]; exact hlw, hfl.ws sw spw hlw⟩, ?_⟩
    · rw [hq0, hfl.feature, hfe]; rfl
    · rw [← hcnb k q hq, holab]
      unfold descriptorOf
      rw [hln]
      simp only [Option.bind_eq_bind, Option.some_bind]
      rw [hfl.other sc spc sw spw hlc hlw sn spn (by omega) (by omega)]
    · rw [holab, hfl.length]
      exact hcw.1 q (List.getElem?_mem hq)
  have howf : WellShaped out := by
    obtain ⟨-, w1, w2, w3⟩ := hcw
    refine ⟨?_, by unfold DataPoints.SpanIs; rw [holab]; exact w1,
      by unfold DataPoints.SpanIs; rw [holab]; exact w2,
      by unfold DataPoints.SpanIs; rw [holab]; exact w3⟩
    intro q2 hq2
    obtain ⟨i, hi, hiq⟩ := List.getElem_of_mem hq2
    have hlen2 := hrel'.length_eq
    have := (List.forall₂_iff_get.mp hrel').2 i (by omega) hi
    rw [List.get_eq_getElem, List.get_eq_getElem, hiq] at this
    exact this.length
  refine ⟨ds, nb, st, n, out, hinit, ?_, ?_, hinv, hev, hcons, hn, hn', howf,
    by rw [holab]; exact hc1, by rw [holab]; exact hc2, by rw [holab]; exact hc3, hrel'⟩
  · unfold runMerge
    exact hrun 0
  · unfold inPlaceFilter
    rw [hinit]
    simp only [Option.bind_eq_bind, Option.some_bind]
    have : runMerge ops p (matcher p.knn p.maxDist p.epsilon cloud) cloud ds nb = some (st, n) := by
      unfold runMerge
      exact hrun 0
    rw [this]
    simp only [Option.some_bind]
    rw [hens]
    simp only [Option.some_bind]
    exact hout

theorem output_length {D : Nat} {Dist : Type} (ops : DistributionOps D Dist)
    (st : MergeState D Dist) (out : DataPoints D)
    (h : List.Forall₂ (OutputOf ops st out.descriptorLabels) (liveIndices st.masks) out.points) :
    out.getNbPoints = liveCount st.masks := by
  have := h.length_eq
  rw [liveIndices_length] at this
  exact this.symm

theorem output_sum {D : Nat} {Dist : Type} (ops : DistributionOps D Dist)
    (st : MergeState D Dist) (out : DataPoints D) (hw : WellShaped out)
    (hnb : (findLabel out.descriptorLabels "nbPoints" 0).isSome)
    (h : List.Forall₂ (OutputOf ops st out.descriptorLabels) (liveIndices st.masks) out.points) :
    descriptorSum out "nbPoints" = some (liveSum st.masks st.nbPoints.cols) := by
  obtain ⟨⟨sn, spn⟩, hln⟩ := Option.isSome_iff_exists.mp hnb
  have hb := findLabel_bounds _ _ _ _ _ hln
  unfold descriptorSum
  rw [getDescriptorViewByName_eq out "nbPoints" sn spn hw.1 hln, liveSum_eq_list]
  simp only [Option.map_some', List.map_map]
  congr 2
  refine forall₂_map_eq (OutputOf ops st out.descriptorLabels)
    (fun k => row0 (st.nbPoints.cols.getD k []))
    (row0 ∘ fun q => List.take spn (List.drop sn q.descriptor)) ?_ _ _ h
  intro k q2 hk
  have h1 := hk.nbPoints
  have h2 := hk.length
  unfold descriptorOf at h1
  rw [hln] at h1
  simp only [Option.bind_eq_bind, Option.some_bind] at h1
  obtain ⟨v, hv, hv'⟩ := block_eq_some (show sn + spn ≤ q2.descriptor.length by omega)
  rw [hv] at h1
  simp only [Option.map_some'] at h1
  simp only [Function.comp, List.getD_eq_getElem?_getD, ← h1, ← hv', Option.getD_some]

theorem liveSum_ones (N : Nat) :
    liveSum (List.replicate N true) (Matrix.Ones 1 N).cols = (N : ℚ) := by
  unfold liveSum
  rw [List.length_replicate]
  have : ∀ k ∈ Finset.range N,
      (if (List.replicate N true).getD k false = true
        then row0 ((Matrix.Ones 1 N).cols.getD k []) else 0) = (1 : ℚ) := by
    intro k hk
    have hk' : k < N := Finset.mem_range.mp hk
    simp [List.getD_eq_getElem?_getD, List.getElem?_replicate, hk', Matrix.Ones, row0]
  rw [Finset.sum_congr rfl this]
  simp

/-! ## Conservation (C1) -/

/-- C1, as amended. For a consistent cloud of `N < 2 ^ 32` points that lacks at least one
of the descriptors `covariance`, `weightSum`, `nbPoints`, and a neighbor table whose
entries are all ids of points and which lists no point at a rank `>= 1` of its own column:
`inPlaceFilter` completes, and the `nbPoints` descriptor of the output sums to `N`, for
every combine operation, matcher and parameters. -/
theorem conservation_fresh {D : Nat} {Dist : Type} (ops : DistributionOps D Dist)
    (matcher : Matcher D) (p : Parameters) (cloud : DataPoints D)
    (hfresh : (!cloud.descriptorExists "covariance" || !cloud.descriptorExists "weightSum"
      || !cloud.descriptorExists "nbPoints") = true)
    (hw : WellShaped cloud) (hN : cloud.getNbPoints < 4294967296)
    (hv : ValidTable p.knn cloud.getNbPoints (matcher p.knn p.maxDist p.epsilon cloud))
    (hself : NoSelfMatch (matcher p.knn p.maxDist p.epsilon cloud)) :
    ∃ out, inPlaceFilter ops matcher p cloud = some out ∧
      descriptorSum out "nbPoints" = some (cloud.getNbPoints : ℚ) := by
  obtain ⟨ds, nb, st, n, out, hinit, -, hout, -, -, hcons, -, -, howf, -, -, hnb, hrel⟩ :=
    inPlaceFilter_spec ops matcher p cloud hw hN hv
  refine ⟨out, hout, ?_⟩
  rw [output_sum ops st out howf hnb hrel, (hcons hself).sum]
  rw [initSummaries_fresh ops p cloud hfresh] at hinit
  simp only [Option.some.injEq, Prod.mk.injEq] at hinit
  rw [← hinit.2]
  show some (liveSum (List.replicate cloud.getNbPoints true)
    (Matrix.Ones 1 cloud.getNbPoints).cols) = _
  rw [liveSum_ones]

/-- Witness of `conservation_fresh`: scenario B with the reference collaborators. -/
theorem conservation_fresh_witness :
    WellShaped scenarioB ∧
    ValidTable 2 3 (exhaustiveMatcher 2 2 none 0 scenarioB) ∧
    NoSelfMatch (exhaustiveMatcher 2 2 none 0 scenarioB) ∧
    ∃ out, inPlaceFilter (gaussianOps 2) (exhaustiveMatcher 2) scenarioBParameters scenarioB
        = some out ∧ descriptorSum out "nbPoints" = some ((3 : Nat) : ℚ) :=
  ⟨by decide, by decide!, by decide!,
    conservation_fresh (gaussianOps 2) (exhaustiveMatcher 2) scenarioBParameters scenarioB
      (by decide) (by decide) (by decide) (by decide!) (by decide!)⟩

/-- C1 fails as stated. The cloud `compressedB`, which the filter makes of scenario B, has
two points and carries the three descriptors with `nbPoints = 2, 1`; filtering it (here
with `knn = 1`) leaves an `nbPoints` descriptor that sums to 3, not to its point count 2. -/
theorem conservation_counterexample :
    inPlaceFilter (gaussianOps 2) (exhaustiveMatcher 2) scenarioBParameters scenarioB
        = some compressedB ∧
    compressedB.getNbPoints = 2 ∧
    (inPlaceFilter (gaussianOps 2) (exhaustiveMatcher 2) ⟨1, none, 0, 1 / 100, 1⟩
        compressedB).bind (fun out => descriptorSum out "nbPoints") = some 3 ∧
    (3 : ℚ) ≠ ((2 : Nat) : ℚ) := by
  refine ⟨by decide!, rfl, by decide!, by norm_num⟩

/-! ## Non-expansion (C2) -/

theorem filter_count_le {D : Nat} {Dist : Type} (ops : DistributionOps D Dist)
    (matcher : Matcher D) (p : Parameters) (cloud : DataPoints D)
    (hw : WellShaped cloud) (hN : cloud.getNbPoints < 4294967296)
    (hv : ValidTable p.knn cloud.getNbPoints (matcher p.knn p.maxDist p.epsilon cloud)) :
    ∃ out, inPlaceFilter ops matcher p cloud = some out ∧
      out.getNbPoints ≤ cloud.getNbPoints := by
  obtain ⟨ds, nb, st, n, out, -, -, hout, hinv, -, -, -, -, -, -, -, -, hrel⟩ :=
    inPlaceFilter_spec ops matcher p cloud hw hN hv
  refine ⟨out, hout, ?_⟩
  rw [output_length ops st out hrel]
  have := liveCount_le_length st.masks
  rw [hinv.masks] at this
  exact this

/-- C2. For every consistent cloud of `N < 2 ^ 32` points and every neighbor table whose
entries are all ids of points, `inPlaceFilter` (and `filter`) completes; the number of
points of the output is the number of mask bits that are `true` when the merge loop ends,
which is the value of `currentNbPoints`, and it is at most `N`. -/
theorem nonExpansion {D : Nat} {Dist : Type} (ops : DistributionOps D Dist)
    (matcher : Matcher D) (p : Parameters) (cloud : DataPoints D)
    (hw : WellShaped cloud) (hN : cloud.getNbPoints < 4294967296)
    (hv : ValidTable p.knn cloud.getNbPoints (matcher p.knn p.maxDist p.epsilon cloud)) :
    ∃ distributions nbPoints st passes out,
      initSummaries ops p cloud = some (distributions, nbPoints) ∧
      runMerge ops p (matcher p.knn p.maxDist p.epsilon cloud) cloud distributions nbPoints
        = some (st, passes) ∧
      inPlaceFilter ops matcher p cloud = some out ∧
      filter ops matcher p cloud = some out ∧
      out.getNbPoints = liveCount st.masks ∧
      st.currentNbPoints = liveCount st.masks ∧
      out.getNbPoints ≤ cloud.getNbPoints := by
  obtain ⟨ds, nb, st, n, out, hinit, hrun, hout, hinv, -, -, -, -, -, -, -, -, hrel⟩ :=
    inPlaceFilter_spec ops matcher p cloud hw hN hv
  have hlen := output_length ops st out hrel
  refine ⟨ds, nb, st, n, out, hinit, hrun, hout, hout, hlen, hinv.count, ?_⟩
  rw [hlen]
  have := liveCount_le_length st.masks
  rw [hinv.masks] at this
  exact this

/-- Witness of `nonExpansion`: scenario B with the reference collaborators. -/
theorem nonExpansion_witness :
    WellShaped scenarioB ∧
    ValidTable 2 3 (exhaustiveMatcher 2 2 none 0 scenarioB) ∧
    ∃ distributions nbPoints st passes out,
      initSummaries (gaussianOps 2) scenarioBParameters scenarioB
        = some (distributions, nbPoints) ∧
      runMerge (gaussianOps 2) scenarioBParameters (exhaustiveMatcher 2 2 none 0 scenarioB)
        scenarioB distributions nbPoints = some (st, passes) ∧
      inPlaceFilter (gaussianOps 2) (exhaustiveMatcher 2) scenarioBParameters scenarioB
        = some out ∧
      filter (gaussianOps 2) (exhaustiveMatcher 2) scenarioBParameters scenarioB = some out ∧
      out.getNbPoints = liveCount st.masks ∧
      st.currentNbPoints = liveCount st.masks ∧
      out.getNbPoints ≤ scenarioB.getNbPoints :=
  ⟨by decide, by decide!,
    nonExpansion (gaussianOps 2) (exhaustiveMatcher 2) scenarioBParameters scenarioB
      (by decide) (by decide) (by decide!)⟩

/-! ## Termination (C3) -/

theorem liveIndices_sorted (masks : List Bool) :
    List.Pairwise (fun a b => a < b) (liveIndices masks) :=
  List.Pairwise.filter _ (List.pairwise_lt_range _)

theorem index_le_of_increasing (l : List Nat) :
    ∀ (b k i : Nat), List.Pairwise (fun x y => x < y) l → (∀ x ∈ l, b ≤ x) →
      l[k]? = some i → b + k ≤ i := by
  induction l with
  | nil => intro b k i _ _ h; simp at h
  | cons a t ih =>
    intro b k i hp hb h
    cases k with
    | zero =>
      simp at h
      subst h
      exact hb _ (List.mem_cons_self _ _)
    | succ k =>
      simp at h
      have hp' := List.pairwise_cons.mp hp
      have ha := hb a (List.mem_cons_self _ _)
      have := ih (b + 1) k i hp'.2 (fun x hx => by have := hp'.1 x hx; omega) h
      omega

/-- C4. For every liveness mask and every consistent cloud that has the `covariance` and
`weightSum` descriptors, lines 126-144 complete; the output keeps the labels, has as many
points as the mask has `true` bits, and its slot number `k` holds the `k`-th live point in
increasing index order: the coordinates of that point, its `covariance` and `weightSum`
descriptors holding the columns of the matrices of its distribution block by block, and
every other descriptor (`nbPoints` included) as the point had it before the loop. The
destination slot never exceeds the source index, and since every slot holds the values of
its source point, the in-place forward copy never destroys a live column that is still to
be copied. -/
theorem compaction {D : Nat} {Dist : Type} (ops : DistributionOps D Dist) (masks : List Bool)
    (distributions : List Dist) (cloud : DataPoints D)
    (hm : masks.length = cloud.getNbPoints) (hd : distributions.length = cloud.getNbPoints)
    (hw : WellShaped cloud)
    (hcov : (findLabel cloud.descriptorLabels "covariance" 0).isSome = true)
    (hws : (findLabel cloud.descriptorLabels "weightSum" 0).isSome = true) :
    ∃ out, compact ops masks distributions cloud = some out ∧
      out.descriptorLabels = cloud.descriptorLabels ∧
      out.getNbPoints = liveCount masks ∧
      List.Pairwise (fun a b => a < b) (liveIndices masks) ∧
      (∀ slot i : Nat, (liveIndices masks)[slot]? = some i → slot ≤ i) ∧
      List.Forall₂ (fun (k : Nat) (q2 : Point D) => ∃ q d, cloud.points[k]? = some q ∧
          distributions[k]? = some d ∧ masks[k]? = some true ∧
          Flushed cloud.descriptorLabels (ops.getCovariance d) (ops.getWeightSum d) q q2 ∧
          ∀ name, name ≠ "covariance" → name ≠ "weightSum" →
            descriptorOf cloud.descriptorLabels name q2
              = descriptorOf cloud.descriptorLabels name q)
        (liveIndices masks) out.points := by
  obtain ⟨out, hout, hlab, hrel⟩ := compact_spec ops masks distributions cloud
    cloud.points.length rfl hm hd hw hcov hws
  obtain ⟨⟨sc, spc⟩, hc⟩ := Option.isSome_iff_exists.mp hcov
  obtain ⟨⟨sw, spw⟩, hwl⟩ := Option.isSome_iff_exists.mp hws
  have hspc : spc = D ^ 2 := hw.2.1 (sc, spc) hc
  have hspw : spw = D ^ 2 := hw.2.2.1 (sw, spw) hwl
  have hsq : D ^ 2 = D * D := Nat.pow_two D
  have hlive : ∀ k ∈ liveIndices masks, masks[k]? = some true := by
    intro k hk
    simp only [liveIndices, List.mem_filter, List.mem_range] at hk
    have h2 := hk.2
    rw [List.getD_eq_getElem?_getD, List.getElem?_eq_getElem hk.1] at h2
    rw [List.getElem?_eq_getElem hk.1]
    simpa using h2
  refine ⟨out, hout, hlab, ?_, liveIndices_sorted masks, ?_, ?_⟩
  · have := hrel.length_eq
    rw [liveIndices_length] at this
    exact this.symm
  · intro slot i h
    have := index_le_of_increasing (liveIndices masks) 0 slot i (liveIndices_sorted masks)
      (fun _ _ => Nat.zero_le _) h
    omega
  · have hrel2 : List.Forall₂ (fun (k : Nat) (q2 : Point D) => k ∈ liveIndices masks ∧
        ∃ q d, cloud.points[k]? = some q ∧ distributions[k]? = some d ∧
          Flushed cloud.descriptorLabels (ops.getCovariance d) (ops.getWeightSum d) q q2)
        (liveIndices masks) out.points := by
      rw [List.forall₂_iff_get] at hrel ⊢
      refine ⟨hrel.1, fun i h1 h2 => ⟨List.get_mem _ _ _, hrel.2 i h1 h2⟩⟩
    refine List.Forall₂.imp ?_ hrel2
    intro k q2 ⟨hk, q, d, hq, hd', hfl⟩
    refine ⟨q, d, hq, hd', hlive k hk, hfl, ?_⟩
    intro name h1 h2
    unfold descriptorOf
    cases hf : findLabel cloud.descriptorLabels name 0 with
    | none => rfl
    | some r =>
      obtain ⟨s, sp⟩ := r
      have d1 := findLabel_disjoint cloud.descriptorLabels name "covariance" h1 0 s sp sc spc hf hc
      have d2 := findLabel_disjoint cloud.descriptorLabels name "weightSum" h2 0 s sp sw spw hf hwl
      simp only [Option.bind_eq_bind, Option.some_bind]
      rw [hfl.other sc spc sw spw hc hwl s sp (by omega) (by omega)]

/-- Witness of `compaction`: the second of the two points of `compressedB` is kept. -/
theorem compaction_witness :
    WellShaped compressedB ∧
    ∃ out, compact (gaussianOps 2) [false, true]
        [(gaussianOps 2).ofPoint (topRows (point2 0 0).feature) (Mat.scaledIdentity 1 2),
         (gaussianOps 2).ofPoint (topRows (point2 10 10).feature) (Mat.scaledIdentity 1 2)]
        compressedB = some out ∧
      out.descriptorLabels = compressedB.descriptorLabels ∧ out.getNbPoints = 1 := by
  refine ⟨by decide, ?_⟩
  obtain ⟨out, h1, h2, h3, -⟩ := compaction (gaussianOps 2) [false, true]
    [(gaussianOps 2).ofPoint (topRows (point2 0 0).feature) (Mat.scaledIdentity 1 2),
     (gaussianOps 2).ofPoint (topRows (point2 10 10).feature) (Mat.scaledIdentity 1 2)]
    compressedB (by decide) (by decide) (by decide) (by decide) (by decide)
  exact ⟨out, h1, h2, h3.trans (by decide)⟩

/-! ## Partly present summary descriptors (C5) -/

/-- C5, as amended. For a consistent cloud of `N < 2 ^ 32` points that lacks at least one
of the three summary descriptors (in particular one that carries some of them but not
all) and a neighbor table whose entries are all ids of points, `inPlaceFilter` does not
fail: the summaries are initialised as for a cloud without summary descriptors (one
distribution per point built from its coordinates and `initialVariance`, `nbPoints` all
ones), the call completes, and the output carries the three descriptors. -/
theorem missing_reinitialised {D : Nat} {Dist : Type} (ops : DistributionOps D Dist)
    (matcher : Matcher D) (p : Parameters) (cloud : DataPoints D)
    (hmissing : (!cloud.descriptorExists "covariance" || !cloud.descriptorExists "weightSum"
      || !cloud.descriptorExists "nbPoints") = true)
    (hw : WellShaped cloud) (hN : cloud.getNbPoints < 4294967296)
    (hv : ValidTable p.knn cloud.getNbPoints (matcher p.knn p.maxDist p.epsilon cloud)) :
    initSummaries ops p cloud = some (cloud.points.map (fun pt =>
        ops.ofPoint (topRows pt.feature) (Mat.scaledIdentity p.initialVariance D)),
      Matrix.Ones 1 cloud.getNbPoints) ∧
    ∃ out, inPlaceFilter ops matcher p cloud = some out ∧
      out.descriptorExists "covariance" = true ∧ out.descriptorExists "weightSum" = true ∧
      out.descriptorExists "nbPoints" = true := by
  obtain ⟨ds, nb, st, n, out, -, -, hout, -, -, -, -, -, -, h1, h2, h3, -⟩ :=
    inPlaceFilter_spec ops matcher p cloud hw hN hv
  exact ⟨initSummaries_fresh ops p cloud hmissing, out, hout, h1, h2, h3⟩

/-- Witness of `missing_reinitialised`: a cloud that carries `nbPoints` only. -/
theorem missing_reinitialised_witness :
    nbPointsOnly.descriptorExists "nbPoints" = true ∧
    nbPointsOnly.descriptorExists "covariance" = false ∧
    WellShaped nbPointsOnly ∧
    ValidTable 1 1 (exhaustiveMatcher 2 1 none 0 nbPointsOnly) ∧
    (initSummaries (gaussianOps 2) ⟨1, none, 0, 1 / 100, 1⟩ nbPointsOnly
      = some (nbPointsOnly.points.map (fun pt =>
          (gaussianOps 2).ofPoint (topRows pt.feature) (Mat.scaledIdentity (1 / 100) 2)),
        Matrix.Ones 1 nbPointsOnly.getNbPoints) ∧
    ∃ out, inPlaceFilter (gaussianOps 2) (exhaustiveMatcher 2) ⟨1, none, 0, 1 / 100, 1⟩
        nbPointsOnly = some out ∧
      out.descriptorExists "covariance" = true ∧ out.descriptorExists "weightSum" = true ∧
      out.descriptorExists "nbPoints" = true) :=
  ⟨by decide, by decide, by decide, by decide!,
    missing_reinitialised (gaussianOps 2) (exhaustiveMatcher 2) ⟨1, none, 0, 1 / 100, 1⟩
      nbPointsOnly (by decide) (by decide) (by decide) (by decide!)⟩

/-- C5 fails as stated. On the cloud that carries `nbPoints = 7` but neither `covariance`
nor `weightSum` the call does not fail: it completes, adds the two missing descriptors and
overwrites the `nbPoints` value 7 with the re-initialised value 1. -/
theorem missing_counterexample :
    nbPointsOnly.descriptorExists "nbPoints" = true ∧
    nbPointsOnly.descriptorExists "covariance" = false ∧
    nbPointsOnly.descriptorExists "weightSum" = false ∧
    inPlaceFilter (gaussianOps 2) (exhaustiveMatcher 2) ⟨1, none, 0, 1 / 100, 1⟩ nbPointsOnly
      = some ⟨[("nbPoints", 1), ("covariance", 4), ("weightSum", 4)],
          [point2d 0 0 [1, 1 / 100, 0, 0, 1 / 100, 1, 0, 0, 1]]⟩ := by
  refine ⟨by decide, by decide, by decide, by decide!⟩

/-! ## Invalid neighbor ids (C6) -/

/-- C6 at its failing input. Two points further apart than `maxDist = 1` with `knn = 2`:
the neighbor search pads rank 1 of both columns with the invalid id `-1`; the accumulator
loop of point 0 reads the mask at that id, which is outside the mask, and the call does
not complete. -/
theorem sentinel_read_out_of_bounds :
    exhaustiveMatcher 2 2 (some 1) 0 farApart = ⟨[[0, -1], [1, -1]]⟩ ∧
    atId [true, true] (-1) = none ∧
    (initSummaries (gaussianOps 2) ⟨2, some 1, 0, 1, 1 / 2⟩ farApart).bind (fun s =>
      stepPoint (gaussianOps 2) ⟨2, some 1, 0, 1, 1 / 2⟩ ⟨[[0, -1], [1, -1]]⟩
        (initState farApart s.1 s.2) 0) = none ∧
    inPlaceFilter (gaussianOps 2) (exhaustiveMatcher 2) ⟨2, some 1, 0, 1, 1 / 2⟩ farApart
      = none := by
  refine ⟨by decide!, by decide, ?_, by decide!⟩
  rfl

/-! ## Re-application (C7) -/

/-- C7, as amended. When the filter is applied to its own output (a consistent input of
`N < 2 ^ 32` points, neighbor tables of the two invocations with valid ids only), the
second invocation completes and never yields more points than the first one returned. -/
theorem reapply_nonExpansion {D : Nat} {Dist : Type} (ops : DistributionOps D Dist)
    (matcher : Matcher D) (p : Parameters) (cloud out1 : DataPoints D)
    (hw : WellShaped cloud) (hN : cloud.getNbPoints < 4294967296)
    (hv : ValidTable p.knn cloud.getNbPoints (matcher p.knn p.maxDist p.epsilon cloud))
    (h1 : filter ops matcher p cloud = some out1)
    (hv2 : ValidTable p.knn out1.getNbPoints (matcher p.knn p.maxDist p.epsilon out1)) :
    ∃ out2, filter ops matcher p out1 = some out2 ∧ out2.getNbPoints ≤ out1.getNbPoints ∧
      out1.getNbPoints ≤ cloud.getNbPoints := by
  obtain ⟨ds, nb, st, n, out, -, -, hout, hinv, -, -, -, -, howf, -, -, -, hrel⟩ :=
    inPlaceFilter_spec ops matcher p cloud hw hN hv
  have he : out = out1 := by
    have : some out = some out1 := by rw [← hout]; exact h1
    exact Option.some.inj this
  subst he
  have hle : out.getNbPoints ≤ cloud.getNbPoints := by
    rw [output_length ops st out hrel]
    have := liveCount_le_length st.masks
    rw [hinv.masks] at this
    exact this
  obtain ⟨out2, h2, hle2⟩ :=
    filter_count_le ops matcher p out howf (by omega) hv2
  exact ⟨out2, h2, hle2, hle⟩

/-- Witness of `reapply_nonExpansion`: scenario B filtered twice. -/
theorem reapply_nonExpansion_witness :
    WellShaped scenarioB ∧
    ValidTable 2 3 (exhaustiveMatcher 2 2 none 0 scenarioB) ∧
    filter (gaussianOps 2) (exhaustiveMatcher 2) scenarioBParameters scenarioB
      = some compressedB ∧
    ValidTable 2 2 (exhaustiveMatcher 2 2 none 0 compressedB) ∧
    ∃ out2, filter (gaussianOps 2) (exhaustiveMatcher 2) scenarioBParameters compressedB
        = some out2 ∧ out2.getNbPoints ≤ compressedB.getNbPoints ∧
      compressedB.getNbPoints ≤ scenarioB.getNbPoints :=
  ⟨by decide, by decide!, by decide!, by decide!,
    reapply_nonExpansion (gaussianOps 2) (exhaustiveMatcher 2) scenarioBParameters scenarioB
      compressedB (by decide) (by decide) (by decide!) (by decide!) (by decide!)⟩

/-- C7 fails as stated. The filter makes the two points of `compressedB` out of scenario
B; applied to `compressedB` with the same parameters, the neighbor table recomputed on
the two remaining points makes each the neighbor of the other, the merge of point 0 is
accepted, and one point is left. -/
theorem reapply_counterexample :
    filter (gaussianOps 2) (exhaustiveMatcher 2) scenarioBParameters scenarioB
      = some compressedB ∧
    compressedB.getNbPoints = 2 ∧
    exhaustiveMatcher 2 2 none 0 compressedB = ⟨[[0, 1], [1, 0]]⟩ ∧
    (filter (gaussianOps 2) (exhaustiveMatcher 2) scenarioBParameters compressedB).map
      (fun out => out.getNbPoints) = some 1 := by
  refine ⟨by decide!, rfl, by decide!, by decide!⟩

/-! ## Threshold (C8) -/

theorem sqrtLe_neg (x d : ℚ) (hd : d < 0) : sqrtLe x d = false := by
  unfold sqrtLe
  have : ¬ (0 ≤ d) := not_le.mpr hd
  simp [this]

theorem stepPoint_rejected {D : Nat} {Dist : Type} (ops : DistributionOps D Dist)
    (p : Parameters) (ms : Matches) {N : Nat} (st : MergeState D Dist) (i : Nat)
    (hv : ValidTable p.knn N ms) (hinv : Inv N st) (hi : i < N)
    (hrej : ∀ nd feature own, accepted ops p.maxDeviation nd feature own = false) :
    stepPoint ops p ms st i = some st := by
  have hmi : i < st.masks.length := by rw [hinv.masks]; exact hi
  have hpi : i < st.cloud.points.length := by rw [hinv.points]; exact hi
  have hdi : i < st.distributions.length := by rw [hinv.dists]; exact hi
  cases hb : st.masks[i] with
  | false => simp [stepPoint, List.getElem?_eq_getElem hmi, hb]
  | true =>
    obtain ⟨col, hcol, hpos, hk, hids⟩ := validTable_col hv hi
    obtain ⟨nd, hnd⟩ := neighborhood_some ops p.knn col st.masks st.distributions
      hinv.masks hinv.dists hpos hk hids
    simp [stepPoint, List.getElem?_eq_getElem hmi, hb, hcol, hnd,
      List.getElem?_eq_getElem hpi, List.getElem?_eq_getElem hdi, hrej]

theorem runMerge_rejected {D : Nat} {Dist : Type} (ops : DistributionOps D Dist)
    (p : Parameters) (ms : Matches) (cloud : DataPoints D) (distributions : List Dist)
    (nb : Matrix) (hv : ValidTable p.knn cloud.points.length ms)
    (hinv : Inv cloud.points.length (initState cloud distributions nb))
    (hrej : ∀ nd feature own, accepted ops p.maxDeviation nd feature own = false) :
    ∃ n, runMerge ops p ms cloud distributions nb = some (initState cloud distributions nb, n) := by
  have hpass : pass ops p ms (initState cloud distributions nb)
      = some (initState cloud distributions nb) := by
    obtain ⟨s, hs, he⟩ := foldlM_inv (fun s => s = initState cloud distributions nb)
      (stepPoint ops p ms) (List.range (initState cloud distributions nb).cloud.getNbPoints)
      (initState cloud distributions nb) rfl (by
        intro s i hi hs
        subst hs
        have hi' : i < cloud.points.length := by
          simpa [initState, DataPoints.getNbPoints] using List.mem_range.mp hi
        exact ⟨_, stepPoint_rejected ops p ms _ i hv hinv hi' hrej, rfl⟩)
    subst he
    exact hs
  unfold runMerge
  by_cases h0 : (initState cloud distributions nb).currentNbPoints = 0
  · exact ⟨0, by simp [mergeLoop, h0]⟩
  · refine ⟨1, ?_⟩
    simp only [mergeLoop, h0, if_false, hpass, Option.bind_eq_bind, Option.some_bind]
    have hpos : cloud.getNbPoints = (cloud.getNbPoints - 1) + 1 := by
      have : cloud.getNbPoints ≠ 0 := by
        intro h
        apply h0
        simp [initState, h]
      omega
    rw [hpos]
    simp [mergeLoop]

/-- C8, as amended. With a negative `maxDeviation` no merge is accepted and the output
has all `N` points of the (consistent, `N < 2 ^ 32`) input; hence for `d1 < 0` and every
`d2` the output count with `maxDeviation = d2` is at most the output count with
`maxDeviation = d1`, the other parameters, the cloud and the neighbor table being the same. -/
theorem threshold_negative {D : Nat} {Dist : Type} (ops : DistributionOps D Dist)
    (matcher : Matcher D) (p : Parameters) (d1 d2 : ℚ) (cloud : DataPoints D)
    (hneg : d1 < 0) (hw : WellShaped cloud) (hN : cloud.getNbPoints < 4294967296)
    (hv : ValidTable p.knn cloud.getNbPoints (matcher p.knn p.maxDist p.epsilon cloud)) :
    ∃ out1 out2,
      filter ops matcher { p with maxDeviation := d1 } cloud = some out1 ∧
      filter ops matcher { p with maxDeviation := d2 } cloud = some out2 ∧
      out1.getNbPoints = cloud.getNbPoints ∧
      out2.getNbPoints ≤ out1.getNbPoints := by
  obtain ⟨ds, nb, st, n, out1, hinit, hrun, hout1, -, -, -, -, -, -, -, -, -, hrel⟩ :=
    inPlaceFilter_spec ops matcher { p with maxDeviation := d1 } cloud hw hN hv
  obtain ⟨out2, hout2, hle⟩ :=
    filter_count_le ops matcher { p with maxDeviation := d2 } cloud hw hN hv
  obtain ⟨ds', nb', hinit', hdl, -, hcl, hlen, -, -⟩ :=
    initSummaries_spec ops { p with maxDeviation := d1 } cloud hw
  rw [hinit] at hinit'
  simp only [Option.some.injEq, Prod.mk.injEq] at hinit'
  obtain ⟨e1, e2⟩ := hinit'
  subst e1 e2
  obtain ⟨m, hm⟩ := runMerge_rejected ops { p with maxDeviation := d1 }
    (matcher p.knn p.maxDist p.epsilon cloud) cloud ds nb hv
    (initState_inv cloud ds nb hN hdl hcl hlen)
    (fun nd feature own => by unfold accepted; exact sqrtLe_neg _ _ hneg)
  have hst : st = initState cloud ds nb := by
    have : some (st, n) = some (initState cloud ds nb, m) := by rw [← hrun]; exact hm
    simp only [Option.some.injEq, Prod.mk.injEq] at this
    exact this.1
  have hcount : out1.getNbPoints = cloud.getNbPoints := by
    rw [output_length ops st out1 hrel, hst]
    simp [initState, liveCount_replicate]
  exact ⟨out1, out2, hout1, hout2, hcount, by rw [hcount]; exact hle⟩

/-- Witness of `threshold_negative`: scenario B with the thresholds `-1` and `1`. -/
theorem threshold_negative_witness :
    (-1 : ℚ) < 0 ∧ WellShaped scenarioB ∧
    ValidTable 2 3 (exhaustiveMatcher 2 2 none 0 scenarioB) ∧
    ∃ out1 out2,
      filter (gaussianOps 2) (exhaustiveMatcher 2)
        { scenarioBParameters with maxDeviation := -1 } scenarioB = some out1 ∧
      filter (gaussianOps 2) (exhaustiveMatcher 2)
        { scenarioBParameters with maxDeviation := 1 } scenarioB = some out2 ∧
      out1.getNbPoints = scenarioB.getNbPoints ∧
      out2.getNbPoints ≤ out1.getNbPoints :=
  ⟨by norm_num, by decide, by decide!,
    threshold_negative (gaussianOps 2) (exhaustiveMatcher 2) scenarioBParameters (-1) 1
      scenarioB (by norm_num) (by decide) (by decide) (by decide!)⟩

/-- C8 fails as stated. On the four fresh points of `fourPoints` with `knn = 2` and
`initialVariance = 1`, the threshold `3/5` leaves 2 points (point 1 absorbs point 2, then
point 3 absorbs point 1), while the larger threshold `3/2` leaves 3 points (point 0 absorbs
point 1 first, and points 2 and 3 find their only neighbor dead). -/
theorem threshold_counterexample :
    exhaustiveMatcher 2 2 none 0 fourPoints = ⟨[[0, 1], [1, 2], [2, 1], [3, 1]]⟩ ∧
    (filter (gaussianOps 2) (exhaustiveMatcher 2) ⟨2, none, 0, 1, 3 / 5⟩ fourPoints).map
      (fun out => out.getNbPoints) = some 2 ∧
    (filter (gaussianOps 2) (exhaustiveMatcher 2) ⟨2, none, 0, 1, 3 / 2⟩ fourPoints).map
      (fun out => out.getNbPoints) = some 3 ∧
    (3 / 5 : ℚ) ≤ 3 / 2 := by
  refine ⟨by decide!, by decide!, by decide!, by norm_num⟩

/-! ## Isolation (C9) -/

theorem foldlM_states_preserve {σ α : Type} (f : σ → α → Option σ) (Good : α × σ → Prop)
    (Q : σ → Prop)
    (hstep : ∀ a s s1, Good (a, s) → f s a = some s1 → Q s → Q s1) :
    ∀ (l : List α) (s s' : σ), l.foldlM f s = some s' →
      (∀ e ∈ foldlStates f l s, Good e) → Q s → Q s' := by
  intro l
  induction l with
  | nil =>
    intro s s' h _ hq
    simp at h
    subst h
    exact hq
  | cons a l ih =>
    intro s s' h hgood hq
    rw [List.foldlM_cons] at h
    cases hf : f s a with
    | none => simp [hf] at h
    | some s1 =>
      simp only [hf, Option.bind_eq_bind, Option.some_bind] at h
      have hg0 : Good (a, s) := hgood (a, s) (by simp [foldlStates])
      refine ih s1 s' h ?_ (hstep a s s1 hg0 hf hq)
      intro e he
      apply hgood
      simp only [foldlStates, hf, List.mem_cons]
      exact Or.inr he

theorem mergeLoop_states_preserve {D : Nat} {Dist : Type} (ops : DistributionOps D Dist)
    (p : Parameters) (ms : Matches) (Good : Nat × MergeState D Dist → Prop)
    (Q : MergeState D Dist → Prop)
    (hstep : ∀ i s s1, Good (i, s) → stepPoint ops p ms s i = some s1 → Q s → Q s1) :
    ∀ (fuel : Nat) (st : MergeState D Dist) (lastNbPoints : Nat) (r : MergeState D Dist × Nat),
      mergeLoop ops p ms fuel st lastNbPoints = some r →
      (∀ e ∈ loopStates ops p ms fuel st lastNbPoints, Good e) → Q st → Q r.1 := by
  intro fuel
  induction fuel with
  | zero =>
    intro st last r h _ hq
    by_cases hc : st.currentNbPoints = last
    · simp [mergeLoop, hc] at h
      subst h
      exact hq
    · simp [mergeLoop, hc] at h
  | succ fuel ih =>
    intro st last r h hgood hq
    by_cases hc : st.currentNbPoints = last
    · simp [mergeLoop, hc] at h
      subst h
      exact hq
    · simp only [mergeLoop, hc, if_false] at h
      cases hp : pass ops p ms st with
      | none => simp [hp] at h
      | some s1 =>
        cases hm : mergeLoop ops p ms fuel s1 st.currentNbPoints with
        | none => simp [hp, hm] at h
        | some r1 =>
          simp [hp, hm] at h
          subst h
          have hq1 : Q s1 := by
            refine foldlM_states_preserve (stepPoint ops p ms) Good Q hstep _ st s1 hp ?_ hq
            intro e he
            apply hgood
            simp only [loopStates, hc, if_false, List.mem_append]
            exact Or.inl he
          refine ih s1 st.currentNbPoints r1 hm ?_ hq1
          intro e he
          apply hgood
          simp only [loopStates, hc, if_false, List.mem_append, hp]
          exact Or.inr he

theorem foldlM_preserve {σ α : Type} (f : σ → α → Option σ) (Q : σ → Prop)
    (hstep : ∀ a s s1, f s a = some s1 → Q s → Q s1) :
    ∀ (l : List α) (s s' : σ), l.foldlM f s = some s' → Q s → Q s' := by
  intro l s s' h hq
  exact foldlM_states_preserve f (fun _ => True) Q (fun a s s1 _ => hstep a s s1) l s s' h
    (fun _ _ => trivial) hq

theorem absorbStep_frame {D : Nat} {Dist : Type} (col : List Int) (i j : Nat)
    (st s : MergeState D Dist) (h : absorbStep col i st j = some s) :
    s.cloud = st.cloud ∧ s.distributions = st.distributions ∧
      ∀ k : Nat, k ≠ i → s.nbPoints.cols[k]? = st.nbPoints.cols[k]? := by
  unfold absorbStep at h
  cases h1 : col[j]? with
  | none => simp [h1] at h
  | some id =>
    cases h2 : atId st.masks id with
    | none => simp [h1, h2] at h
    | some m =>
      cases m with
      | false =>
        simp [h1, h2] at h
        subst h
        exact ⟨rfl, rfl, fun _ _ => rfl⟩
      | true =>
        cases h3 : st.nbPoints.cols[i]? with
        | none => simp [h1, h2, h3] at h
        | some ci =>
          cases h4 : ci[0]? with
          | none => simp [h1, h2, h3, h4] at h
          | some x =>
            cases h5 : atId st.nbPoints.cols id with
            | none => simp [h1, h2, h3, h4, h5] at h
            | some cn =>
              cases h6 : cn[0]? with
              | none => simp [h1, h2, h3, h4, h5, h6] at h
              | some y =>
                simp [h1, h2, h3, h4, h5, h6] at h
                subst h
                refine ⟨rfl, rfl, fun k hk => ?_⟩
                show (st.nbPoints.cols.set i _)[k]? = _
                rw [List.getElem?_set, if_neg (Ne.symm hk)]

theorem stepPoint_frame {D : Nat} {Dist : Type} (ops : DistributionOps D Dist) (p : Parameters)
    (ms : Matches) (i : Nat) (st s : MergeState D Dist)
    (h : stepPoint ops p ms st i = some s) :
    (∀ k : Nat, k ≠ i → s.nbPoints.cols[k]? = st.nbPoints.cols[k]? ∧
      s.distributions[k]? = st.distributions[k]? ∧ s.cloud.points[k]? = st.cloud.points[k]?) ∧
    (decision ops p ms st i ≠ some true → s = st) := by
  unfold stepPoint at h
  unfold decision
  cases h1 : st.masks[i]? with
  | none => simp [h1] at h
  | some m =>
    cases m with
    | false =>
      simp [h1] at h
      subst h
      exact ⟨fun _ _ => ⟨rfl, rfl, rfl⟩, fun _ => rfl⟩
    | true =>
      cases h2 : ms.ids[i]? with
      | none => simp [h1, h2] at h
      | some col =>
        cases h3 : neighborhood ops p.knn col st.masks st.distributions with
        | none => simp [h1, h2, h3] at h
        | some nd =>
          cases h4 : st.cloud.points[i]? with
          | none => simp [h1, h2, h3, h4] at h
          | some pt =>
            cases h5 : st.distributions[i]? with
            | none => simp [h1, h2, h3, h4, h5] at h
            | some own =>
              cases hacc : accepted ops p.maxDeviation nd pt.feature own with
              | false =>
                simp [h1, h2, h3, h4, h5, hacc] at h
                subst h
                exact ⟨fun _ _ => ⟨rfl, rfl, rfl⟩, fun _ => rfl⟩
              | true =>
                simp only [h1, h2, h3, h4, h5, hacc, Option.bind_eq_bind, Option.some_bind,
                  Bool.not_true, Bool.false_eq_true, if_false, if_true, Option.pure_def] at h ⊢
                refine ⟨fun k hk => ?_, fun hne => absurd rfl hne⟩
                have := foldlM_preserve (absorbStep col i)
                  (fun s => s.nbPoints.cols[k]? = st.nbPoints.cols[k]? ∧
                    s.distributions[k]? = st.distributions[k]? ∧
                    s.cloud.points[k]? = st.cloud.points[k]?)
                  (by
                    intro a s0 s1 hs ⟨q1, q2, q3⟩
                    obtain ⟨f1, f2, f3⟩ := absorbStep_frame col i a s0 s1 hs
                    exact ⟨(f3 k hk).trans q1, by rw [f2]; exact q2, by rw [f1]; exact q3⟩)
                  _ _ s h
                apply this
                refine ⟨rfl, ?_, ?_⟩
                · show (st.distributions.set i nd)[k]? = _
                  rw [List.getElem?_set, if_neg (Ne.symm hk)]
                · show (st.cloud.points.set i _)[k]? = _
                  rw [List.getElem?_set, if_neg (Ne.symm hk)]

theorem forall₂_exists_of_mem {α β : Type} (R : α → β → Prop) :
    ∀ (l1 : List α) (l2 : List β), List.Forall₂ R l1 l2 → ∀ a ∈ l1, ∃ b ∈ l2, R a b := by
  intro l1 l2 h
  induction h with
  | nil => intro a ha; simp at ha
  | cons hab _ ih =>
    intro a ha
    rcases List.mem_cons.mp ha with h | h
    · subst h
      exact ⟨_, List.mem_cons_self _ _, hab⟩
    · obtain ⟨b, hb, hr⟩ := ih a h
      exact ⟨b, List.mem_cons_of_mem _ hb, hr⟩

theorem mem_liveIndices (masks : List Bool) (k : Nat) (h : masks[k]? = some true) :
    k ∈ liveIndices masks := by
  have hk : k < masks.length := (List.getElem?_eq_some_iff.mp h).1
  simp only [liveIndices, List.mem_filter, List.mem_range]
  exact ⟨hk, by simp [List.getD_eq_getElem?_getD, h]⟩

/-- C9, as amended. On a consistent cloud of `N < 2 ^ 32` points with a neighbor table of
valid ids, let the test of line 92 never succeed for point `i0` in any of the states in
which its step starts. Then point `i0` never absorbs a neighbor: when the merge loop ends
its `nbPoints` column, its distribution and its coordinates are the initial ones; and if
its mask bit is still `true` (no other point has absorbed it), it is a point of the output
with its initial coordinates and `nbPoints` value. -/
theorem isolation_rejecting {D : Nat} {Dist : Type} (ops : DistributionOps D Dist)
    (matcher : Matcher D) (p : Parameters) (cloud : DataPoints D) (i0 : Nat)
    (distributions : List Dist) (nbPoints : Matrix)
    (hw : WellShaped cloud) (hN : cloud.getNbPoints < 4294967296)
    (hv : ValidTable p.knn cloud.getNbPoints (matcher p.knn p.maxDist p.epsilon cloud))
    (hinit : initSummaries ops p cloud = some (distributions, nbPoints))
    (hrej : ∀ e ∈ loopStates ops p (matcher p.knn p.maxDist p.epsilon cloud)
        (cloud.getNbPoints + 1) (initState cloud distributions nbPoints) 0,
      e.1 = i0 → decision ops p (matcher p.knn p.maxDist p.epsilon cloud) e.2 i0 ≠ some true) :
    ∃ st passes out,
      runMerge ops p (matcher p.knn p.maxDist p.epsilon cloud) cloud distributions nbPoints
        = some (st, passes) ∧
      filter ops matcher p cloud = some out ∧
      st.nbPoints.cols[i0]? = nbPoints.cols[i0]? ∧
      st.distributions[i0]? = distributions[i0]? ∧
      st.cloud.points[i0]? = cloud.points[i0]? ∧
      (st.masks[i0]? = some true → ∃ q2 ∈ out.points,
        descriptorOf out.descriptorLabels "nbPoints" q2 = nbPoints.cols[i0]? ∧
        (cloud.points[i0]?).map (fun q => q.feature) = some q2.feature) := by
  obtain ⟨ds, nb, st, n, out, hinit', hrun, hout, -, -, -, -, -, -, -, -, -, hrel⟩ :=
    inPlaceFilter_spec ops matcher p cloud hw hN hv
  rw [hinit] at hinit'
  simp only [Option.some.injEq, Prod.mk.injEq] at hinit'
  obtain ⟨e1, e2⟩ := hinit'
  subst e1 e2
  have hQ := mergeLoop_states_preserve ops p (matcher p.knn p.maxDist p.epsilon cloud)
    (fun e => e.1 = i0 →
      decision ops p (matcher p.knn p.maxDist p.epsilon cloud) e.2 i0 ≠ some true)
    (fun s => s.nbPoints.cols[i0]? = nbPoints.cols[i0]? ∧
      s.distributions[i0]? = distributions[i0]? ∧ s.cloud.points[i0]? = cloud.points[i0]?)
    (by
      intro i s s1 hgood hs ⟨q1, q2, q3⟩
      obtain ⟨f1, f2⟩ := stepPoint_frame ops p _ i s s1 hs
      by_cases hi : i = i0
      · subst hi
        rw [f2 (hgood rfl)]
        exact ⟨q1, q2, q3⟩
      · obtain ⟨g1, g2, g3⟩ := f1 i0 (Ne.symm hi)
        exact ⟨g1.trans q1, g2.trans q2, g3.trans q3⟩)
    (cloud.getNbPoints + 1) (initState cloud distributions nbPoints) 0 (st, n) hrun hrej
    ⟨rfl, rfl, rfl⟩
  obtain ⟨q1, q2, q3⟩ := hQ
  refine ⟨st, n, out, hrun, hout, q1, q2, q3, ?_⟩
  intro hlive
  obtain ⟨b, hb, hr⟩ := forall₂_exists_of_mem _ _ _ hrel i0 (mem_liveIndices _ _ hlive)
  refine ⟨b, hb, ?_, ?_⟩
  · rw [hr.nbPoints]; exact q1
  · rw [← hr.feature, q3]

/-- Witness of `isolation_rejecting`: two fresh points at distance `sqrt 200` with
`maxDeviation = 1`; point 0 is rejected in the only pass and is in the output. -/
theorem isolation_rejecting_witness :
    WellShaped farApart ∧
    ValidTable 2 2 (exhaustiveMatcher 2 2 none 0 farApart) ∧
    ∃ st passes out,
      runMerge (gaussianOps 2) ⟨2, none, 0, 1, 1⟩ (exhaustiveMatcher 2 2 none 0 farApart)
        farApart
        (farApart.points.map (fun pt =>
          (gaussianOps 2).ofPoint (topRows pt.feature) (Mat.scaledIdentity 1 2)))
        (Matrix.Ones 1 2) = some (st, passes) ∧
      filter (gaussianOps 2) (exhaustiveMatcher 2) ⟨2, none, 0, 1, 1⟩ farApart = some out ∧
      st.nbPoints.cols[0]? = (Matrix.Ones 1 2).cols[0]? ∧
      st.distributions[0]? = (farApart.points.map (fun pt =>
          (gaussianOps 2).ofPoint (topRows pt.feature) (Mat.scaledIdentity 1 2)))[0]? ∧
      st.cloud.points[0]? = farApart.points[0]? ∧
      (st.masks[0]? = some true → ∃ q2 ∈ out.points,
        descriptorOf out.descriptorLabels "nbPoints" q2 = (Matrix.Ones 1 2).cols[0]? ∧
        (farApart.points[0]?).map (fun q => q.feature) = some q2.feature) :=
  ⟨by decide, by decide!,
    isolation_rejecting (gaussianOps 2) (exhaustiveMatcher 2) ⟨2, none, 0, 1, 1⟩ farApart 0
      _ _ (by decide) (by decide) (by decide!) (by decide!) (by decide!)⟩

/-- C9 fails as stated. Three fresh points on a line with `knn = 3`, `initialVariance = 1`
and `maxDeviation = 1/2`: the step of point 0 is evaluated once, in the first pass, and its
merge is rejected (acceptance distance 5/6); the merge of point 1 is then accepted and
absorbs points 2 and 0. Point 0 is not in the output, whose only point is the merged point
1 with `nbPoints = 3`. -/
theorem isolation_counterexample :
    exhaustiveMatcher 2 3 none 0 threeOnLine = ⟨[[0, 1, 2], [1, 2, 0], [2, 1, 0]]⟩ ∧
    initSummaries (gaussianOps 2) ⟨3, none, 0, 1, 1 / 2⟩ threeOnLine
      = some (threeOnLine.points.map (fun pt =>
          (gaussianOps 2).ofPoint (topRows pt.feature) (Mat.scaledIdentity 1 2)),
        Matrix.Ones 1 3) ∧
    (loopStates (gaussianOps 2) ⟨3, none, 0, 1, 1 / 2⟩ ⟨[[0, 1, 2], [1, 2, 0], [2, 1, 0]]⟩ 4
        (initState threeOnLine (threeOnLine.points.map (fun pt =>
            (gaussianOps 2).ofPoint (topRows pt.feature) (Mat.scaledIdentity 1 2)))
          (Matrix.Ones 1 3)) 0).map
      (fun e => (e.1, decision (gaussianOps 2) ⟨3, none, 0, 1, 1 / 2⟩
        ⟨[[0, 1, 2], [1, 2, 0], [2, 1, 0]]⟩ e.2 e.1))
      = [(0, some false), (1, some true), (2, none), (0, none), (1, some true), (2, none)] ∧
    filter (gaussianOps 2) (exhaustiveMatcher 2) ⟨3, none, 0, 1, 1 / 2⟩ threeOnLine
      = some ⟨[("covariance", 4), ("weightSum", 4), ("nbPoints", 1)],
          [point2d (5 / 6) 0 [25 / 18, 0, 0, 1, 3, 0, 0, 3, 3]]⟩ := by
  refine ⟨by decide!, by decide!, by decide!, by decide!⟩

/-! ## Scenario B (C10) -/

theorem zipWith_sub_self (l : List ℚ) :
    List.zipWith (fun x y => x - y) l l = List.replicate l.length 0 := by
  induction l with
  | nil => rfl
  | cons a l ih => simp [List.replicate_succ, ih]

theorem sum_zipWith_mul_zero (l : List ℚ) :
    ∀ n, (List.zipWith (fun x y => x * y) l (List.replicate n 0)).sum = 0 := by
  induction l with
  | nil => intro n; simp
  | cons a l ih =>
    intro n
    cases n with
    | zero => simp
    | succ n => simp [List.replicate_succ, ih n]

theorem accepted_of_mean_eq {D : Nat} {Dist : Type} (ops : DistributionOps D Dist)
    (maxDeviation : ℚ) (nd own : Dist) (feature : Vec (D + 1))
    (hmean : ops.getMean nd = topRows feature) (hd : 0 ≤ maxDeviation) :
    accepted ops maxDeviation nd feature own = true := by
  unfold accepted
  simp only [hmean]
  have hz : (Vec.sub (topRows feature) (topRows feature)).1
      = List.replicate (topRows feature).1.length 0 := zipWith_sub_self _
  have hdot : Vec.dot (Mat.vecMul (Vec.sub (topRows feature) (topRows feature))
      (ops.getCovariance own)) (Vec.sub (topRows feature) (topRows feature)) = 0 := by
    unfold Vec.dot
    rw [hz]
    exact sum_zipWith_mul_zero _ _
  rw [hdot]
  unfold sqrtLe
  simp [hd, mul_self_nonneg]

theorem setTopRows_topRows {D : Nat} (feature : Vec (D + 1)) :
    setTopRows feature (topRows feature) = feature := by
  apply Subtype.ext
  simp [setTopRows, topRows]

theorem neighborhood_alone {D : Nat} {Dist : Type} (ops : DistributionOps D Dist) (knn : Nat)
    (col : List Int) (masks : List Bool) (distributions : List Dist) (id0 : Int) (d : Dist)
    (h0 : col[0]? = some id0) (hd : atId distributions id0 = some d)
    (hdead : ∀ j, 1 ≤ j → j < knn → ∃ id, col[j]? = some id ∧ atId masks id = some false) :
    neighborhood ops knn col masks distributions = some d := by
  obtain ⟨s, hs, he⟩ := foldlM_inv (fun s => s = d)
    (accumulateStep ops col masks distributions) (List.range' 1 (knn - 1)) d rfl (by
      intro s j hj hs
      subst hs
      obtain ⟨hj1, hj2⟩ := mem_range'_one hj
      obtain ⟨id, hid, hm⟩ := hdead j hj1 hj2
      exact ⟨s, by simp [accumulateStep, hid, hm], rfl⟩)
  subst he
  simp [neighborhood, h0, hd, hs]

theorem absorb_alone {D : Nat} {Dist : Type} (knn : Nat) (col : List Int) (i : Nat)
    (st : MergeState D Dist)
    (hdead : ∀ j, 1 ≤ j → j < knn → ∃ id, col[j]? = some id ∧ atId st.masks id = some false) :
    (List.range' 1 (knn - 1)).foldlM (absorbStep col i) st = some st := by
  obtain ⟨s, hs, he⟩ := foldlM_inv (fun s => s = st)
    (absorbStep col i) (List.range' 1 (knn - 1)) st rfl (by
      intro s j hj hs
      subst hs
      obtain ⟨hj1, hj2⟩ := mem_range'_one hj
      obtain ⟨id, hid, hm⟩ := hdead j hj1 hj2
      exact ⟨s, by simp [absorbStep, hid, hm], rfl⟩)
  subst he
  exact hs

theorem stepPoint_alone {D : Nat} {Dist : Type} (ops : DistributionOps D Dist) (p : Parameters)
    (ms : Matches) (st : MergeState D Dist) (i : Nat) (col : List Int) (pt : Point D) (d : Dist)
    (hlive : st.masks[i]? = some true) (hcol : ms.ids[i]? = some col)
    (h0 : col[0]? = some (i : Int))
    (hdead : ∀ j, 1 ≤ j → j < p.knn → ∃ id, col[j]? = some id ∧ atId st.masks id = some false)
    (hpt : st.cloud.points[i]? = some pt) (hd : st.distributions[i]? = some d)
    (hmean : ops.getMean d = topRows pt.feature) (hdev : 0 ≤ p.maxDeviation) :
    stepPoint ops p ms st i = some st := by
  have hnd : neighborhood ops p.knn col st.masks st.distributions = some d :=
    neighborhood_alone ops p.knn col st.masks st.distributions i d h0
      (by simp [atId, hd]) hdead
  have hacc := accepted_of_mean_eq ops p.maxDeviation d d pt.feature hmean hdev
  have hst : ({ st with
      cloud := { st.cloud with points := (st.cloud.points.set i
        (Point.mk (setTopRows pt.feature (ops.getMean d)) pt.descriptor)) },
      distributions := st.distributions.set i d } : MergeState D Dist) = st := by
    rw [hmean, setTopRows_topRows, set_self_of_get _ _ _ hd]
    have : (Point.mk pt.feature pt.descriptor) = pt := rfl
    rw [this, set_self_of_get _ _ _ hpt]
  simp only [stepPoint, hlive, hcol, hnd, hpt, hd, hacc, Option.bind_eq_bind, Option.some_bind,
    Bool.not_true, Bool.false_eq_true, if_false, if_true]
  rw [hst]
  exact absorb_alone p.knn col i st hdead

theorem scenarioB_accept {Dist : Type} (ops : DistributionOps 2 Dist) (t : ℚ)
    (ht0 : 0 ≤ t) (ht1 : t ≤ 1)
    (hcov : ∀ m C, ops.getCovariance (ops.ofPoint m C) = C)
    (hcomb : ops.getMean (ops.combine
        (freshDistribution ops scenarioBParameters (point2 0 0))
        (freshDistribution ops scenarioBParameters (point2 (1 / 100) 0)))
      = ⟨[t * (1 / 100), 0], rfl⟩) :
    accepted ops 1 (ops.combine
        (freshDistribution ops scenarioBParameters (point2 0 0))
        (freshDistribution ops scenarioBParameters (point2 (1 / 100) 0)))
      (point2 0 0).feature (freshDistribution ops scenarioBParameters (point2 0 0)) = true := by
  unfold accepted
  rw [hcomb]
  unfold freshDistribution
  rw [hcov]
  have h1 : 0 ≤ t * t := mul_self_nonneg t
  have h2 : t * t ≤ 1 := by nlinarith
  simp [Vec.sub, Vec.dot, Mat.vecMul, Mat.scaledIdentity, Mat.ofFn, Vec.ofFn, topRows, point2,
    sqrtLe, scenarioBParameters, List.range_succ]
  constructor
  · positivity
  · nlinarith

theorem scenarioB_run {Dist : Type} (ops : DistributionOps 2 Dist) (t : ℚ)
    (ht0 : 0 ≤ t) (ht1 : t ≤ 1)
    (hmean : ∀ m C, ops.getMean (ops.ofPoint m C) = m)
    (hcov : ∀ m C, ops.getCovariance (ops.ofPoint m C) = C)
    (hcomb : ops.getMean (ops.combine
        (freshDistribution ops scenarioBParameters (point2 0 0))
        (freshDistribution ops scenarioBParameters (point2 (1 / 100) 0)))
      = ⟨[t * (1 / 100), 0], rfl⟩) :
    runMerge ops scenarioBParameters ⟨[[0, 1], [1, 0], [2, 1]]⟩ scenarioB
        (scenarioB.points.map (freshDistribution ops scenarioBParameters)) (Matrix.Ones 1 3)
      = some (scenarioBFinal ops (ops.combine
          (freshDistribution ops scenarioBParameters (point2 0 0))
          (freshDistribution ops scenarioBParameters (point2 (1 / 100) 0))), 2) := by
  have hacc := scenarioB_accept ops t ht0 ht1 hcov hcomb
  have hknn : scenarioBParameters.knn = 2 := rfl
  have hdev : scenarioBParameters.maxDeviation = 1 := rfl
  -- pass 1, point 0: the merge with point 1 is accepted
  have h0 : stepPoint ops scenarioBParameters ⟨[[0, 1], [1, 0], [2, 1]]⟩
      (initState scenarioB (scenarioB.points.map (freshDistribution ops scenarioBParameters))
        (Matrix.Ones 1 3)) 0
      = some (scenarioBFinal ops (ops.combine
          (freshDistribution ops scenarioBParameters (point2 0 0))
          (freshDistribution ops scenarioBParameters (point2 (1 / 100) 0)))) := by
    have hs0 : initState scenarioB
        (scenarioB.points.map (freshDistribution ops scenarioBParameters)) (Matrix.Ones 1 3)
        = { cloud := scenarioB,
            distributions := [freshDistribution ops scenarioBParameters (point2 0 0),
              freshDistribution ops scenarioBParameters (point2 (1 / 100) 0),
              freshDistribution ops scenarioBParameters (point2 10 10)],
            nbPoints := ⟨1, [[1], [1], [1]]⟩,
            masks := [true, true, true],
            currentNbPoints := 3 } := rfl
    have hdecr : decr 3 = 2 := by decide
    have hr : List.range' 1 (2 - 1) = [1] := rfl
    rw [hs0]
    simp only [stepPoint, neighborhood, accumulateStep, absorbStep, atId, hknn, hdev, hr,
      List.foldlM_cons, List.foldlM_nil, scenarioB, List.getElem?_cons_zero,
      List.getElem?_cons_succ, Option.bind_eq_bind, Option.some_bind, Option.pure_def,
      Bool.not_true, Bool.false_eq_true, if_false, if_true, le_refl, Int.toNat_zero,
      Int.toNat_one, zero_le_one, hacc, hdecr, List.set_cons_zero, List.set_cons_succ,
      scenarioBFinal]
    norm_num
    rfl
  -- point 1 is dead
  have h1 : ∀ nd, stepPoint ops scenarioBParameters ⟨[[0, 1], [1, 0], [2, 1]]⟩
      (scenarioBFinal ops nd) 1 = some (scenarioBFinal ops nd) := by
    intro nd
    simp [stepPoint, scenarioBFinal]
  -- point 2 has no live neighbor left
  have h2 : ∀ nd, stepPoint ops scenarioBParameters ⟨[[0, 1], [1, 0], [2, 1]]⟩
      (scenarioBFinal ops nd) 2 = some (scenarioBFinal ops nd) := by
    intro nd
    refine stepPoint_alone ops scenarioBParameters _ _ 2 [2, 1] (point2 10 10)
      (freshDistribution ops scenarioBParameters (point2 10 10)) rfl rfl rfl ?_ rfl rfl
      (hmean _ _) (by rw [hdev]; norm_num)
    intro j hj1 hj2
    have : j = 1 := by rw [hknn] at hj2; omega
    subst this
    exact ⟨1, rfl, rfl⟩
  -- pass 2, point 0: no live neighbor left, the point sits at the mean of its distribution
  have h3 : ∀ nd, stepPoint ops scenarioBParameters ⟨[[0, 1], [1, 0], [2, 1]]⟩
      (scenarioBFinal ops nd) 0 = some (scenarioBFinal ops nd) := by
    intro nd
    refine stepPoint_alone ops scenarioBParameters _ _ 0 [0, 1]
      ⟨setTopRows (point2 0 0).feature (ops.getMean nd), []⟩ nd rfl rfl rfl ?_ rfl rfl
      ?_ (by rw [hdev]; norm_num)
    · intro j hj1 hj2
      have : j = 1 := by rw [hknn] at hj2; omega
      subst this
      exact ⟨1, rfl, rfl⟩
    · apply Subtype.ext
      simp [topRows, setTopRows, (ops.getMean nd).2]
  have hp1 : pass ops scenarioBParameters ⟨[[0, 1], [1, 0], [2, 1]]⟩
      (initState scenarioB (scenarioB.points.map (freshDistribution ops scenarioBParameters))
        (Matrix.Ones 1 3))
      = some (scenarioBFinal ops (ops.combine
          (freshDistribution ops scenarioBParameters (point2 0 0))
          (freshDistribution ops scenarioBParameters (point2 (1 / 100) 0)))) := by
    have hr : List.range (initState scenarioB
        (scenarioB.points.map (freshDistribution ops scenarioBParameters))
        (Matrix.Ones 1 3)).cloud.getNbPoints = [0, 1, 2] := rfl
    unfold pass
    rw [hr]
    simp only [List.foldlM_cons, List.foldlM_nil, h0, h1, h2, Option.bind_eq_bind,
      Option.some_bind, Option.pure_def]
  have hp2 : ∀ nd, pass ops scenarioBParameters ⟨[[0, 1], [1, 0], [2, 1]]⟩
      (scenarioBFinal ops nd) = some (scenarioBFinal ops nd) := by
    intro nd
    have hr : List.range (scenarioBFinal ops nd).cloud.getNbPoints = [0, 1, 2] := rfl
    unfold pass
    rw [hr]
    simp only [List.foldlM_cons, List.foldlM_nil, h3, h1, h2, Option.bind_eq_bind,
      Option.some_bind, Option.pure_def]
  have hc0 : (initState scenarioB (scenarioB.points.map (freshDistribution ops scenarioBParameters))
      (Matrix.Ones 1 3)).currentNbPoints = 3 := rfl
  have hc1 : ∀ nd, (scenarioBFinal ops nd).currentNbPoints = 2 := fun _ => rfl
  have hn : scenarioB.getNbPoints + 1 = 4 := rfl
  unfold runMerge
  rw [hn]
  simp [mergeLoop, hc0, hc1, hp1, hp2]

/-- C10. Scenario B: the three fresh 2-D points (0,0), (0.01,0), (10,10) with `knn = 2`,
unbounded `maxDist`, `maxDeviation = 1`, `initialVariance = 0.01` and the nearest-neighbor
table (rank 0 the point itself, rank 1 its nearest other point). For every implementation
of the distributions whose getters return the mean and the covariance a distribution was
built with and whose `combine` gives the first two points a mean that is a weighted
average `(1 - t) * (0,0) + t * (0.01,0)` with `0 <= t <= 1`, the filter returns exactly
two points: the first two inputs merged, at that mean with `nbPoints = 2`, and the
third input with its coordinates unchanged and `nbPoints = 1`; the `nbPoints` sum is 3. -/
theorem scenarioB_result {Dist : Type} (ops : DistributionOps 2 Dist) (matcher : Matcher 2)
    (t : ℚ) (ht0 : 0 ≤ t) (ht1 : t ≤ 1)
    (hmean : ∀ m C, ops.getMean (ops.ofPoint m C) = m)
    (hcov : ∀ m C, ops.getCovariance (ops.ofPoint m C) = C)
    (hcomb : ops.getMean (ops.combine
        (freshDistribution ops scenarioBParameters (point2 0 0))
        (freshDistribution ops scenarioBParameters (point2 (1 / 100) 0)))
      = ⟨[t * (1 / 100), 0], rfl⟩)
    (hm : matcher 2 none 0 scenarioB = ⟨[[0, 1], [1, 0], [2, 1]]⟩) :
    ∃ out, filter ops matcher scenarioBParameters scenarioB = some out ∧
      out.getNbPoints = 2 ∧
      out.points.map (fun q => descriptorOf out.descriptorLabels "nbPoints" q)
        = [some [2], some [1]] ∧
      descriptorSum out "nbPoints" = some 3 ∧
      out.points.map (fun q => q.feature.1) = [[t * (1 / 100), 0, 1], [10, 10, 1]] := by
  have hms : matcher scenarioBParameters.knn scenarioBParameters.maxDist
      scenarioBParameters.epsilon scenarioB = ⟨[[0, 1], [1, 0], [2, 1]]⟩ := hm
  obtain ⟨ds, nb, st, n, out, hinit, hrun, hout, -, -, -, -, -, howf, -, -, hnb, hrel⟩ :=
    inPlaceFilter_spec ops matcher scenarioBParameters scenarioB (by decide) (by decide)
      (by rw [hms]; decide)
  rw [initSummaries_fresh ops scenarioBParameters scenarioB (by decide)] at hinit
  simp only [Option.some.injEq, Prod.mk.injEq] at hinit
  obtain ⟨e1, e2⟩ := hinit
  subst e1 e2
  rw [hms] at hrun
  have hrun2 := scenarioB_run ops t ht0 ht1 hmean hcov hcomb
  have hst : st = scenarioBFinal ops (ops.combine
      (freshDistribution ops scenarioBParameters (point2 0 0))
      (freshDistribution ops scenarioBParameters (point2 (1 / 100) 0))) := by
    have : some (st, n) = some (scenarioBFinal ops (ops.combine
        (freshDistribution ops scenarioBParameters (point2 0 0))
        (freshDistribution ops scenarioBParameters (point2 (1 / 100) 0))), 2) := by
      rw [← hrun]; exact hrun2
    simp only [Option.some.injEq, Prod.mk.injEq] at this
    exact this.1
  have hsum := output_sum ops st out howf hnb hrel
  have hlen := output_length ops st out hrel
  have hnbs := forall₂_map_eq (OutputOf ops st out.descriptorLabels)
    (fun k => st.nbPoints.cols[k]?)
    (fun q => descriptorOf out.descriptorLabels "nbPoints" q)
    (fun k q h => h.nbPoints) _ _ hrel
  have hfeat := forall₂_map_eq (OutputOf ops st out.descriptorLabels)
    (fun k => (st.cloud.points[k]?).map (fun q => q.feature))
    (fun q => some q.feature)
    (fun k q h => h.feature.symm) _ _ hrel
  subst hst
  have hli : liveIndices [true, false, true] = [0, 2] := by decide
  refine ⟨out, hout, ?_, ?_, ?_, ?_⟩
  · rw [hlen]; rfl
  · rw [hnbs]
    show List.map _ (liveIndices [true, false, true]) = _
    rw [hli]
    rfl
  · rw [hsum]
    show some (liveSum [true, false, true] [[2], [1], [1]]) = _
    simp [liveSum, Finset.sum_range_succ, row0]
    norm_num
  · have h2 : List.map (fun q => some q.feature) out.points
        = [some (setTopRows (point2 0 0).feature (ops.getMean (ops.combine
            (freshDistribution ops scenarioBParameters (point2 0 0))
            (freshDistribution ops scenarioBParameters (point2 (1 / 100) 0))))),
          some (point2 10 10).feature] := by
      rw [hfeat]
      show List.map _ (liveIndices [true, false, true]) = _
      rw [hli]
      rfl
    rw [hcomb] at h2
    have h3 := congrArg (List.map (fun o : Option (Vec 3) => (o.map (fun v => v.1)).getD [])) h2
    simp only [List.map_map] at h3
    have h4 : ((fun o : Option (Vec 3) => (o.map (fun v => v.1)).getD []) ∘
        fun (q : Point 2) => some q.feature) = fun q => q.feature.1 := rfl
    rw [h4] at h3
    rw [h3]
    simp [setTopRows, point2]

/-- Witness of `scenarioB_result`: the reference collaborators, whose `combine` puts the
mean of the first two points at their midpoint (`t = 1/2`). -/
theorem scenarioB_result_witness :
    exhaustiveMatcher 2 2 none 0 scenarioB = ⟨[[0, 1], [1, 0], [2, 1]]⟩ ∧
    ∃ out, filter (gaussianOps 2) (exhaustiveMatcher 2) scenarioBParameters scenarioB
        = some out ∧
      out.getNbPoints = 2 ∧
      out.points.map (fun q => descriptorOf out.descriptorLabels "nbPoints" q)
        = [some [2], some [1]] ∧
      descriptorSum out "nbPoints" = some 3 ∧
      out.points.map (fun q => q.feature.1) = [[(1 / 2 : ℚ) * (1 / 100), 0, 1], [10, 10, 1]] :=
  ⟨by decide!,
    scenarioB_result (gaussianOps 2) (exhaustiveMatcher 2) (1 / 2) (by norm_num) (by norm_num)
      (fun _ _ => rfl) (fun _ _ => rfl) (by decide!) (by decide!)⟩

/-! ## Mask monotonicity (C14) -/

theorem liveCount_cleared : ∀ (a b : List Bool), a.length = b.length →
    (∀ k : Nat, b[k]? = some true → a[k]? = some true) →
    liveCount b + cleared a b = liveCount a
  | [], [], _, _ => rfl
  | [], _ :: _, hl, _ => by simp at hl
  | _ :: _, [], hl, _ => by simp at hl
  | x :: a, y :: b, hl, hm => by
    have ih := liveCount_cleared a b (by simpa using hl)
      (fun k hk => by simpa using hm (k + 1) (by simpa using hk))
    have h0 := hm 0
    simp only [liveCount, cleared] at ih ⊢
    cases x <;> cases y <;> simp at h0 ⊢ <;> omega

theorem foldlStates_forall {σ α : Type} (f : σ → α → Option σ) (Q : σ → Prop) :
    ∀ (l : List α) (s : σ), (∀ a s s1, a ∈ l → f s a = some s1 → Q s → Q s1) → Q s →
      ∀ e ∈ foldlStates f l s, e.1 ∈ l ∧ Q e.2 := by
  intro l
  induction l with
  | nil =>
    intro s _ _ e he
    simp [foldlStates] at he
  | cons a l ih =>
    intro s hstep hs e he
    simp only [foldlStates, List.mem_cons] at he
    rcases he with rfl | he
    · exact ⟨List.mem_cons_self _ _, hs⟩
    · cases hfa : f s a with
      | none =>
        rw [hfa] at he
        simp at he
      | some s1 =>
        rw [hfa] at he
        have h := ih s1 (fun a' s s1 ha' => hstep a' s s1 (List.mem_cons_of_mem _ ha'))
          (hstep a s s1 (List.mem_cons_self _ _) hfa hs) e he
        exact ⟨List.mem_cons_of_mem _ h.1, h.2⟩

/-- Every state in which a step of the merge loop starts satisfies the shape invariant,
and any property `Q` that the steps preserve. -/
theorem loopStates_forall {D : Nat} {Dist : Type} (ops : DistributionOps D Dist)
    (p : Parameters) (ms : Matches) {N : Nat} (hv : ValidTable p.knn N ms)
    (Q : MergeState D Dist → Prop)
    (hstep : ∀ i s s1, i < N → Inv N s → stepPoint ops p ms s i = some s1 → Q s → Q s1) :
    ∀ (fuel : Nat) (st : MergeState D Dist) (lastNbPoints : Nat), Inv N st → Q st →
      ∀ e ∈ loopStates ops p ms fuel st lastNbPoints, e.1 < N ∧ Inv N e.2 ∧ Q e.2 := by
  intro fuel
  induction fuel with
  | zero =>
    intro st last _ _ e he
    simp [loopStates] at he
  | succ fuel ih =>
    intro st last hinv hq e he
    by_cases hc : st.currentNbPoints = last
    · simp [loopStates, hc] at he
    · simp only [loopStates, hc, if_false, List.mem_append] at he
      have hall : ∀ e ∈ foldlStates (stepPoint ops p ms) (List.range st.cloud.getNbPoints) st,
          e.1 ∈ List.range st.cloud.getNbPoints ∧ (Inv N e.2 ∧ Q e.2) := by
        refine foldlStates_forall (stepPoint ops p ms) (fun s => Inv N s ∧ Q s) _ st ?_
          ⟨hinv, hq⟩
        intro i s s1 hi hs ⟨hi1, hq1⟩
        have hi' : i < N := by
          have := List.mem_range.mp hi
          simpa [DataPoints.getNbPoints, hinv.points] using this
        obtain ⟨s', hs', hinv', -, -⟩ := stepPoint_spec ops p ms s i hv hi1 hi'
        rw [hs] at hs'
        cases hs'
        exact ⟨hinv', hstep i s s1 hi' hi1 hs hq1⟩
      have hlt : ∀ e ∈ foldlStates (stepPoint ops p ms) (List.range st.cloud.getNbPoints) st,
          e.1 < N := by
        intro e he
        have := List.mem_range.mp (hall e he).1
        simpa [DataPoints.getNbPoints, hinv.points] using this
      rcases he with he | he
      · exact ⟨hlt e he, (hall e he).2⟩
      · cases hp : pass ops p ms st with
        | none =>
          rw [hp] at he
          simp at he
        | some st1 =>
          rw [hp] at he
          have h1 : Inv N st1 ∧ Q st1 := by
            refine foldlM_states_preserve (stepPoint ops p ms)
              (fun e => e.1 < N ∧ Inv N e.2) (fun s => Inv N s ∧ Q s) ?_ _ st st1 hp
              (fun e he => ⟨hlt e he, (hall e he).2.1⟩) ⟨hinv, hq⟩
            intro i s s1 hg hs hq1
            obtain ⟨s', hs', hinv', -, -⟩ := stepPoint_spec ops p ms s i hv hg.2 hg.1
            rw [hs] at hs'
            cases hs'
            exact ⟨hinv', hstep i s s1 hg.1 hg.2 hs hq1.2⟩
          exact ih st1 st.currentNbPoints h1.1 h1.2 e he

/-- C14 (liveness mask monotonicity). For every cloud with `N < 2 ^ 32` points and every
neighbor table with valid ids, the merge loop starts with an all-true mask and the count
`N`, and every step of every pass (every entry of the trace `loopStates`) completes, keeps
the length of the mask, turns no bit from `false` to `true`, and lowers the running count
by exactly the number of bits it turns from `true` to `false`, as a natural number: the
count is the number of `true` bits again and the decrement never wraps around. -/
theorem mask_monotone {D : Nat} {Dist : Type} (ops : DistributionOps D Dist) (p : Parameters)
    (ms : Matches) (cloud : DataPoints D) (distributions : List Dist) (nbPoints : Matrix)
    (hv : ValidTable p.knn cloud.getNbPoints ms) (hN : cloud.getNbPoints < 4294967296)
    (hd : distributions.length = cloud.getNbPoints)
    (hc : nbPoints.cols.length = cloud.getNbPoints)
    (hl : ∀ col ∈ nbPoints.cols, col.length = 1) :
    (initState cloud distributions nbPoints).masks = List.replicate cloud.getNbPoints true ∧
    (initState cloud distributions nbPoints).currentNbPoints = cloud.getNbPoints ∧
    ∀ e ∈ loopStates ops p ms (cloud.getNbPoints + 1) (initState cloud distributions nbPoints) 0,
      ∃ s, stepPoint ops p ms e.2 e.1 = some s ∧
        s.masks.length = e.2.masks.length ∧
        (∀ k : Nat, e.2.masks[k]? = some false → s.masks[k]? = some false) ∧
        s.currentNbPoints + cleared e.2.masks s.masks = e.2.currentNbPoints ∧
        e.2.currentNbPoints = liveCount e.2.masks ∧
        s.currentNbPoints = liveCount s.masks := by
  have hinv0 := initState_inv cloud distributions nbPoints hN hd hc hl
  refine ⟨rfl, ?_, ?_⟩
  · show cloud.getNbPoints % 4294967296 = cloud.getNbPoints
    exact Nat.mod_eq_of_lt hN
  · intro e he
    obtain ⟨hi, hinv, -⟩ := loopStates_forall ops p ms hv (fun _ => True)
      (fun _ _ _ _ _ _ _ => trivial) _ _ _ hinv0 trivial e he
    obtain ⟨s, hs, hinvs, hev, -⟩ := stepPoint_spec ops p ms e.2 e.1 hv hinv hi
    have hlen : s.masks.length = e.2.masks.length := by rw [hinvs.masks, hinv.masks]
    refine ⟨s, hs, hlen, ?_, ?_, hinv.count, hinvs.count⟩
    · intro k hk
      have hklt : k < s.masks.length := by
        rw [hlen]
        by_contra hcon
        rw [List.getElem?_eq_none (by omega)] at hk
        cases hk
      cases hb : s.masks[k] with
      | false => rw [List.getElem?_eq_getElem hklt, hb]
      | true =>
        have := hev.mono k (by rw [List.getElem?_eq_getElem hklt, hb])
        rw [hk] at this
        cases this
    · rw [hinvs.count, hinv.count]
      exact liveCount_cleared e.2.masks s.masks hlen.symm hev.mono

/-- Witness of C14 on scenario B with the table of the exhaustive search. -/
theorem mask_monotone_witness :
    ValidTable 2 3 (exhaustiveMatcher 2 2 none 0 scenarioB) ∧
    ((initState scenarioB (scenarioB.points.map (freshDistribution (gaussianOps 2)
        scenarioBParameters)) (Matrix.Ones 1 3)).masks = List.replicate scenarioB.getNbPoints true ∧
    (initState scenarioB (scenarioB.points.map (freshDistribution (gaussianOps 2)
        scenarioBParameters)) (Matrix.Ones 1 3)).currentNbPoints = scenarioB.getNbPoints ∧
    ∀ e ∈ loopStates (gaussianOps 2) scenarioBParameters
        (exhaustiveMatcher 2 2 none 0 scenarioB) (scenarioB.getNbPoints + 1)
        (initState scenarioB (scenarioB.points.map (freshDistribution (gaussianOps 2)
          scenarioBParameters)) (Matrix.Ones 1 3)) 0,
      ∃ s, stepPoint (gaussianOps 2) scenarioBParameters
          (exhaustiveMatcher 2 2 none 0 scenarioB) e.2 e.1 = some s ∧
        s.masks.length = e.2.masks.length ∧
        (∀ k : Nat, e.2.masks[k]? = some false → s.masks[k]? = some false) ∧
        s.currentNbPoints + cleared e.2.masks s.masks = e.2.currentNbPoints ∧
        e.2.currentNbPoints = liveCount e.2.masks ∧
        s.currentNbPoints = liveCount s.masks) :=
  ⟨by decide!, mask_monotone (gaussianOps 2) scenarioBParameters
    (exhaustiveMatcher 2 2 none 0 scenarioB) scenarioB _ (Matrix.Ones 1 3) (by decide!)
    (by decide) rfl rfl (by decide)⟩

/-! ## Self elimination (C12) -/

/-- C12 (a point never eliminates itself) fails on the code. Scenario A, two coincident
fresh points, with `knn = 2` and the neighbor table `[[1, 0], [1, 0]]` (the two queries are
the same and both hits are at distance zero, point 1 ranked first): point 0 is live, its
merge is accepted, and its own step clears its own mask bit and adds its own `nbPoints`
to itself. The loop ends with point 1 alone, which has absorbed nothing, and the filter
returns one point with `nbPoints = 1`. -/
theorem self_elimination :
    ValidTable 2 2 ⟨[[1, 0], [1, 0]]⟩ ∧
    (initState scenarioA (scenarioA.points.map (freshDistribution (gaussianOps 2)
        ⟨2, none, 0, 1 / 100, 1⟩)) (Matrix.Ones 1 2)).masks[0]? = some true ∧
    decision (gaussianOps 2) ⟨2, none, 0, 1 / 100, 1⟩ ⟨[[1, 0], [1, 0]]⟩
      (initState scenarioA (scenarioA.points.map (freshDistribution (gaussianOps 2)
        ⟨2, none, 0, 1 / 100, 1⟩)) (Matrix.Ones 1 2)) 0 = some true ∧
    (stepPoint (gaussianOps 2) ⟨2, none, 0, 1 / 100, 1⟩ ⟨[[1, 0], [1, 0]]⟩
      (initState scenarioA (scenarioA.points.map (freshDistribution (gaussianOps 2)
        ⟨2, none, 0, 1 / 100, 1⟩)) (Matrix.Ones 1 2)) 0).map
      (fun s => (s.masks, s.nbPoints.cols, s.currentNbPoints)) = some ([false, true], [[2], [1]], 1) ∧
    (runMerge (gaussianOps 2) ⟨2, none, 0, 1 / 100, 1⟩ ⟨[[1, 0], [1, 0]]⟩ scenarioA
      (scenarioA.points.map (freshDistribution (gaussianOps 2) ⟨2, none, 0, 1 / 100, 1⟩))
      (Matrix.Ones 1 2)).map (fun r => (r.1.masks, r.1.nbPoints.cols, r.1.currentNbPoints))
      = some ([false, true], [[2], [1]], 1) ∧
    inPlaceFilter (gaussianOps 2) (tableMatcher 2 ⟨[[1, 0], [1, 0]]⟩) ⟨2, none, 0, 1 / 100, 1⟩
      scenarioA = some ⟨[("covariance", 4), ("weightSum", 4), ("nbPoints", 1)],
        [point2d 0 0 [1 / 100, 0, 0, 1 / 100, 1, 0, 0, 1, 1]]⟩ ∧
    (inPlaceFilter (gaussianOps 2) (tableMatcher 2 ⟨[[1, 0], [1, 0]]⟩)
      ⟨2, none, 0, 1 / 100, 1⟩ scenarioA).bind (fun out => descriptorSum out "nbPoints")
      = some 1 := by
  refine ⟨by decide, rfl, by decide!, by decide!, by decide!, by decide!, by decide!⟩

/-! ## Steps of live points -/

theorem foldlM_congr {σ α : Type} (f g : σ → α → Option σ) :
    ∀ (l : List α) (s : σ), (∀ a ∈ l, ∀ s, f s a = g s a) → l.foldlM f s = l.foldlM g s := by
  intro l
  induction l with
  | nil => intro s _; rfl
  | cons a l ih =>
    intro s h
    rw [List.foldlM_cons, List.foldlM_cons, h a (List.mem_cons_self _ _) s]
    cases hg : g s a with
    | none => rfl
    | some s1 =>
      simp only [Option.bind_eq_bind, Option.some_bind]
      exact ih s1 (fun a' ha' => h a' (List.mem_cons_of_mem _ ha'))

/-- The neighborhood distribution reads the mask only at the ids of the ranks `1..knn-1`. -/
theorem neighborhood_congr {D : Nat} {Dist : Type} (ops : DistributionOps D Dist) (knn : Nat)
    (col : List Int) (masks masks2 : List Bool) (distributions : List Dist)
    (h : ∀ j id, 1 ≤ j → j < knn → col[j]? = some id → atId masks2 id = atId masks id) :
    neighborhood ops knn col masks2 distributions = neighborhood ops knn col masks distributions := by
  unfold neighborhood
  cases h0 : col[0]? with
  | none => rfl
  | some id0 =>
    simp only [Option.bind_eq_bind, Option.some_bind]
    cases hd : atId distributions id0 with
    | none => rfl
    | some d0 =>
      simp only [Option.some_bind]
      apply foldlM_congr
      intro j hj s
      obtain ⟨hj1, hj2⟩ := mem_range'_one hj
      unfold accumulateStep
      cases hid : col[j]? with
      | none => rfl
      | some id =>
        simp only [Option.bind_eq_bind, Option.some_bind]
        rw [h j id hj1 hj2 hid]

/-- The step of a live point, once its neighborhood distribution is known. -/
theorem stepPoint_live {D : Nat} {Dist : Type} (ops : DistributionOps D Dist) (p : Parameters)
    (ms : Matches) (st : MergeState D Dist) (i : Nat) (col : List Int) (nd : Dist)
    (pt : Point D) (own : Dist) (hlive : st.masks[i]? = some true)
    (hcol : ms.ids[i]? = some col)
    (hnd : neighborhood ops p.knn col st.masks st.distributions = some nd)
    (hpt : st.cloud.points[i]? = some pt) (hown : st.distributions[i]? = some own) :
    decision ops p ms st i = some (accepted ops p.maxDeviation nd pt.feature own) ∧
    stepPoint ops p ms st i =
      if accepted ops p.maxDeviation nd pt.feature own = true then
        (List.range' 1 (p.knn - 1)).foldlM (absorbStep col i)
          { st with
            cloud := { st.cloud with points := (st.cloud.points.set i
              (Point.mk (setTopRows pt.feature (ops.getMean nd)) pt.descriptor)) },
            distributions := st.distributions.set i nd }
      else some st := by
  constructor
  · simp [decision, hlive, hcol, hnd, hpt, hown]
  · simp only [stepPoint, hlive, hcol, hnd, hpt, hown, Option.bind_eq_bind, Option.some_bind,
      Bool.not_true, Bool.false_eq_true, if_false, Option.pure_def]

theorem stepPoint_dead {D : Nat} {Dist : Type} (ops : DistributionOps D Dist) (p : Parameters)
    (ms : Matches) (st : MergeState D Dist) (i : Nat) (hdead : st.masks[i]? = some false) :
    stepPoint ops p ms st i = some st := by
  simp [stepPoint, hdead]

theorem atId_false_iff (masks : List Bool) (id : Int) :
    atId masks id = some false ↔ 0 ≤ id ∧ masks[id.toNat]? = some false := by
  unfold atId
  by_cases h : 0 ≤ id <;> simp [h]

/-- An absorption step leaves the neighbor of its rank dead and revives no point. -/
theorem absorbStep_kills {D : Nat} {Dist : Type} (col : List Int) (i j : Nat)
    (st s : MergeState D Dist) (h : absorbStep col i st j = some s) :
    (∀ id, col[j]? = some id → atId s.masks id = some false) ∧
    (∀ k : Nat, st.masks[k]? = some false → s.masks[k]? = some false) := by
  unfold absorbStep at h
  cases hid : col[j]? with
  | none => simp [hid] at h
  | some id =>
    simp only [hid, Option.bind_eq_bind, Option.some_bind] at h
    cases hm : atId st.masks id with
    | none => simp [hm] at h
    | some m =>
      simp only [hm, Option.some_bind] at h
      obtain ⟨h0, hlt, hget⟩ := atId_some _ _ _ hm
      cases m with
      | false =>
        simp at h
        subst h
        exact ⟨fun id' hid' => by cases hid'; exact hm, fun _ hk => hk⟩
      | true =>
        simp only [if_true] at h
        cases hci : st.nbPoints.cols[i]? with
        | none => simp [hci] at h
        | some ci =>
          cases hx : ci[0]? with
          | none => simp [hci, hx] at h
          | some x =>
            cases hcn : atId st.nbPoints.cols id with
            | none => simp [hci, hx, hcn] at h
            | some cn =>
              cases hy : cn[0]? with
              | none => simp [hci, hx, hcn, hy] at h
              | some y =>
                simp [hci, hx, hcn, hy] at h
                subst h
                refine ⟨?_, ?_⟩
                · intro id' hid'
                  cases hid'
                  rw [atId_false_iff]
                  refine ⟨h0, ?_⟩
                  show (st.masks.set id.toNat false)[id.toNat]? = some false
                  simp [List.getElem?_set, hlt]
                · intro k hk
                  show (st.masks.set id.toNat false)[k]? = some false
                  by_cases hka : id.toNat = k
                  · subst hka
                    simp [List.getElem?_set, hlt]
                  · simpa [List.getElem?_set, hka] using hk

/-- After the absorption loop of an accepted step every neighbor at the ranks `1..knn-1`
is dead, and no point has been revived. -/
theorem absorb_kills {D : Nat} {Dist : Type} (col : List Int) (i : Nat) :
    ∀ (l : List Nat) (st s : MergeState D Dist), l.foldlM (absorbStep col i) st = some s →
      (∀ k : Nat, st.masks[k]? = some false → s.masks[k]? = some false) ∧
      (∀ j ∈ l, ∀ id, col[j]? = some id → atId s.masks id = some false) := by
  intro l
  induction l with
  | nil =>
    intro st s h
    simp at h
    subst h
    exact ⟨fun _ hk => hk, fun j hj => by simp at hj⟩
  | cons a l ih =>
    intro st s h
    rw [List.foldlM_cons] at h
    cases hf : absorbStep col i st a with
    | none => simp [hf] at h
    | some s1 =>
      simp only [hf, Option.bind_eq_bind, Option.some_bind] at h
      obtain ⟨hk1, hm1⟩ := absorbStep_kills col i a st s1 hf
      obtain ⟨hk2, hm2⟩ := ih s1 s h
      refine ⟨fun k hk => hk2 k (hm1 k hk), ?_⟩
      intro j hj id hid
      rcases List.mem_cons.mp hj with rfl | hj
      · have := hk1 id hid
        rw [atId_false_iff] at this ⊢
        exact ⟨this.1, hk2 _ this.2⟩
      · exact hm2 j hj id hid

theorem liveCount_lt_of_cleared : ∀ (a b : List Bool), a.length = b.length →
    (∀ k : Nat, b[k]? = some true → a[k]? = some true) →
    ∀ k : Nat, a[k]? = some true → b[k]? = some false → liveCount b < liveCount a
  | [], [], _, _, k, hk, _ => by simp at hk
  | [], _ :: _, hl, _, _, _, _ => by simp at hl
  | _ :: _, [], hl, _, _, _, _ => by simp at hl
  | x :: a, y :: b, hl, hm, k, hka, hkb => by
    have hl' : a.length = b.length := by simpa using hl
    have hm' : ∀ k : Nat, b[k]? = some true → a[k]? = some true :=
      fun k hk => by simpa using hm (k + 1) (by simpa using hk)
    have hle := liveCount_cleared a b hl' hm'
    have h0 := hm 0
    cases k with
    | zero =>
      simp at hka hkb
      subst hka
      subst hkb
      simp only [liveCount] at hle ⊢
      simp
      omega
    | succ k =>
      have ih := liveCount_lt_of_cleared a b hl' hm' k (by simpa using hka) (by simpa using hkb)
      simp only [liveCount] at ih ⊢
      cases x <;> cases y <;> simp at h0 ⊢ <;> omega

/-! ## Dead anchor (C13) -/

/-- C13 as stated (dead anchor is skipped) fails. With the table `[[1, 2], [2, 0], [1, 0]]`
(valid ids, no own id at a rank `>= 1`) the step of point 0 leads from the initial state of
`threeOnLine` to `deadAnchorState`, in which point 1 is live and its rank-0 neighbor,
point 2, is dead. The step of point 1 is evaluated all the same: the merge is accepted,
point 1 moves to the abscissa 4/3 and absorbs point 0. -/
theorem dead_anchor_counterexample :
    ValidTable 2 3 ⟨[[1, 2], [2, 0], [1, 0]]⟩ ∧ NoSelfMatch ⟨[[1, 2], [2, 0], [1, 0]]⟩ ∧
    (stepPoint (gaussianOps 2) ⟨2, none, 0, 1, 10⟩ ⟨[[1, 2], [2, 0], [1, 0]]⟩
      (initState threeOnLine (threeOnLine.points.map
        (freshDistribution (gaussianOps 2) ⟨2, none, 0, 1, 10⟩)) (Matrix.Ones 1 3)) 0).map
      (fun s => (s.cloud, s.distributions, s.nbPoints, s.masks, s.currentNbPoints))
      = some (deadAnchorState.cloud, deadAnchorState.distributions, deadAnchorState.nbPoints,
          deadAnchorState.masks, deadAnchorState.currentNbPoints) ∧
    deadAnchorState.masks[1]? = some true ∧
    (⟨[[1, 2], [2, 0], [1, 0]]⟩ : Matches).ids[1]? = some [2, 0] ∧
    atId deadAnchorState.masks 2 = some false ∧
    decision (gaussianOps 2) ⟨2, none, 0, 1, 10⟩ ⟨[[1, 2], [2, 0], [1, 0]]⟩ deadAnchorState 1
      = some true ∧
    (stepPoint (gaussianOps 2) ⟨2, none, 0, 1, 10⟩ ⟨[[1, 2], [2, 0], [1, 0]]⟩
      deadAnchorState 1).map
      (fun s => (s.masks, s.nbPoints.cols, s.cloud.points.map (fun q => q.feature.1)))
      = some ([false, true, false], [[2], [3], [1]],
          [[5 / 4, 0, 1], [4 / 3, 0, 1], [3 / 2, 0, 1]]) := by
  refine ⟨by decide, by decide, by decide!, rfl, rfl, rfl, by decide!, by decide!⟩

/-- C13, amended (the liveness of the rank-0 neighbor is never tested). For every state of
a cloud of `N` points, every neighbor table with valid ids and every live point `i`: the
accumulator starts from the summary `d0` of the rank-0 neighbor and combines the live
neighbors of the ranks `1..knn-1` into it; the result `nd` is the same for every mask
that agrees with the current one at the ids of the ranks `1..knn-1`, whatever the bit of
the rank-0 neighbor; the step completes, changes nothing when the acceptance test on `nd`
fails, and otherwise makes `nd` the summary of point `i` and its mean the coordinates. -/
theorem anchor_not_tested {D : Nat} {Dist : Type} (ops : DistributionOps D Dist)
    (p : Parameters) (ms : Matches) {N : Nat} (st : MergeState D Dist) (i : Nat)
    (hv : ValidTable p.knn N ms) (hinv : Inv N st) (hi : i < N)
    (hlive : st.masks[i]? = some true) :
    ∃ col id0 d0 nd pt own s,
      ms.ids[i]? = some col ∧ col[0]? = some id0 ∧ atId st.distributions id0 = some d0 ∧
      (List.range' 1 (p.knn - 1)).foldlM (accumulateStep ops col st.masks st.distributions) d0
        = some nd ∧
      (∀ masks2 : List Bool,
        (∀ j id, 1 ≤ j → j < p.knn → col[j]? = some id → atId masks2 id = atId st.masks id) →
        neighborhood ops p.knn col masks2 st.distributions = some nd) ∧
      st.cloud.points[i]? = some pt ∧ st.distributions[i]? = some own ∧
      decision ops p ms st i = some (accepted ops p.maxDeviation nd pt.feature own) ∧
      stepPoint ops p ms st i = some s ∧
      (accepted ops p.maxDeviation nd pt.feature own = false → s = st) ∧
      (accepted ops p.maxDeviation nd pt.feature own = true →
        s.distributions = st.distributions.set i nd ∧
        s.cloud.points = st.cloud.points.set i
          (Point.mk (setTopRows pt.feature (ops.getMean nd)) pt.descriptor)) := by
  have hpi : i < st.cloud.points.length := by rw [hinv.points]; exact hi
  have hdi : i < st.distributions.length := by rw [hinv.dists]; exact hi
  obtain ⟨col, hcol, hpos, hk, hids⟩ := validTable_col hv hi
  obtain ⟨nd, hnd⟩ := neighborhood_some ops p.knn col st.masks st.distributions
    hinv.masks hinv.dists hpos hk hids
  obtain ⟨id0, hid0, h00, h01⟩ := hids 0 (by omega)
  have hd0 : id0.toNat < st.distributions.length := by rw [hinv.dists]; omega
  have hat : atId st.distributions id0 = some (st.distributions[id0.toNat]) := by
    simp [atId, h00, List.getElem?_eq_getElem hd0]
  have hfold : (List.range' 1 (p.knn - 1)).foldlM
      (accumulateStep ops col st.masks st.distributions) (st.distributions[id0.toNat])
        = some nd := by
    simpa [neighborhood, hid0, hat] using hnd
  obtain ⟨hdec, hstep⟩ := stepPoint_live ops p ms st i col nd (st.cloud.points[i])
    (st.distributions[i]) hlive hcol hnd (List.getElem?_eq_getElem hpi)
    (List.getElem?_eq_getElem hdi)
  have hcongr : ∀ masks2 : List Bool,
      (∀ j id, 1 ≤ j → j < p.knn → col[j]? = some id → atId masks2 id = atId st.masks id) →
      neighborhood ops p.knn col masks2 st.distributions = some nd := by
    intro masks2 h
    rw [neighborhood_congr ops p.knn col st.masks masks2 st.distributions h, hnd]
  cases hacc : accepted ops p.maxDeviation nd (st.cloud.points[i]).feature
      (st.distributions[i]) with
  | false =>
    rw [hacc] at hstep
    refine ⟨col, id0, _, nd, _, _, st, hcol, hid0, hat, hfold, hcongr,
      List.getElem?_eq_getElem hpi, List.getElem?_eq_getElem hdi, hdec,
      by simpa using hstep, fun _ => rfl, ?_⟩
    intro h
    rw [hacc] at h
    cases h
  | true =>
    rw [hacc] at hstep
    simp only [if_true] at hstep
    have hinv1 : Inv N ({ st with
        cloud := { st.cloud with points := (st.cloud.points.set i
          (Point.mk (setTopRows (st.cloud.points[i]).feature (ops.getMean nd))
            (st.cloud.points[i]).descriptor)) },
        distributions := st.distributions.set i nd } : MergeState D Dist) :=
      ⟨by simp [hinv.points], by simp [hinv.dists], hinv.cols, hinv.rowsPos,
        hinv.masks, hinv.count, hinv.bound⟩
    obtain ⟨s, hs, -, -, hcl, hds, -⟩ := absorb_spec p.knn col i _ hinv1 hi hids
    refine ⟨col, id0, _, nd, _, _, s, hcol, hid0, hat, hfold, hcongr,
      List.getElem?_eq_getElem hpi, List.getElem?_eq_getElem hdi, hdec,
      hstep.trans hs, ?_, ?_⟩
    · intro h
      rw [hacc] at h
      cases h
    · intro _
      refine ⟨hds, ?_⟩
      rw [hcl]

/-- Witness of C13, amended, at the live point 1 of `deadAnchorState`, whose rank-0
neighbor is dead. -/
theorem anchor_not_tested_witness :
    ValidTable 2 3 ⟨[[1, 2], [2, 0], [1, 0]]⟩ ∧ deadAnchorState.masks[1]? = some true ∧
    atId deadAnchorState.masks 2 = some false ∧
    ∃ col id0 d0 nd pt own s,
      (⟨[[1, 2], [2, 0], [1, 0]]⟩ : Matches).ids[1]? = some col ∧ col[0]? = some id0 ∧
      atId deadAnchorState.distributions id0 = some d0 ∧
      (List.range' 1 (2 - 1)).foldlM (accumulateStep (gaussianOps 2) col deadAnchorState.masks
        deadAnchorState.distributions) d0 = some nd ∧
      (∀ masks2 : List Bool,
        (∀ j id, 1 ≤ j → j < 2 → col[j]? = some id →
          atId masks2 id = atId deadAnchorState.masks id) →
        neighborhood (gaussianOps 2) 2 col masks2 deadAnchorState.distributions = some nd) ∧
      deadAnchorState.cloud.points[1]? = some pt ∧
      deadAnchorState.distributions[1]? = some own ∧
      decision (gaussianOps 2) ⟨2, none, 0, 1, 10⟩ ⟨[[1, 2], [2, 0], [1, 0]]⟩ deadAnchorState 1
        = some (accepted (gaussianOps 2) 10 nd pt.feature own) ∧
      stepPoint (gaussianOps 2) ⟨2, none, 0, 1, 10⟩ ⟨[[1, 2], [2, 0], [1, 0]]⟩
        deadAnchorState 1 = some s ∧
      (accepted (gaussianOps 2) 10 nd pt.feature own = false → s = deadAnchorState) ∧
      (accepted (gaussianOps 2) 10 nd pt.feature own = true →
        s.distributions = deadAnchorState.distributions.set 1 nd ∧
        s.cloud.points = deadAnchorState.cloud.points.set 1
          (Point.mk (setTopRows pt.feature ((gaussianOps 2).getMean nd)) pt.descriptor)) :=
  ⟨by decide, rfl, rfl,
    anchor_not_tested (gaussianOps 2) ⟨2, none, 0, 1, 10⟩ ⟨[[1, 2], [2, 0], [1, 0]]⟩
      deadAnchorState 1 (by decide)
      ⟨rfl, rfl, rfl, by decide, rfl, rfl, by decide⟩ (by decide) rfl⟩

/-! ## Accepted merges and the live count (C17) -/

/-- C17 as stated (every accepted merge strictly decreases the live count) fails on
scenario B: the trace of the merge loop lists, for every step, the point, the mask and the
count before the step, the outcome of the acceptance test and the count after the step.
The merges of point 2 in the first pass and of the points 0 and 2 in the second pass are
accepted (the displacement is zero) and leave the count at 2. -/
theorem accepted_counterexample :
    (loopStates (gaussianOps 2) scenarioBParameters ⟨[[0, 1], [1, 0], [2, 1]]⟩ 4
        (initState scenarioB (scenarioB.points.map
          (freshDistribution (gaussianOps 2) scenarioBParameters)) (Matrix.Ones 1 3)) 0).map
      (fun e => (e.1, e.2.masks, e.2.currentNbPoints,
        decision (gaussianOps 2) scenarioBParameters ⟨[[0, 1], [1, 0], [2, 1]]⟩ e.2 e.1,
        (stepPoint (gaussianOps 2) scenarioBParameters ⟨[[0, 1], [1, 0], [2, 1]]⟩ e.2 e.1).map
          (fun s => s.currentNbPoints)))
      = [(0, [true, true, true], 3, some true, some 2),
         (1, [true, false, true], 2, none, some 2),
         (2, [true, false, true], 2, some true, some 2),
         (0, [true, false, true], 2, some true, some 2),
         (1, [true, false, true], 2, none, some 2),
         (2, [true, false, true], 2, some true, some 2)] := by
  decide!

/-- C17, amended. For every state of a cloud of `N < 2 ^ 32` points, every neighbor
table with valid ids and every point `i` whose merge is accepted, the step completes and
does not increase the running live count; the count is strictly smaller after the step
if and only if some neighbor at a rank `1..knn-1` of point `i` is live before it. -/
theorem accepted_count {D : Nat} {Dist : Type} (ops : DistributionOps D Dist)
    (p : Parameters) (ms : Matches) {N : Nat} (st : MergeState D Dist) (i : Nat)
    (hv : ValidTable p.knn N ms) (hinv : Inv N st) (hi : i < N)
    (hacc : decision ops p ms st i = some true) :
    ∃ col s, ms.ids[i]? = some col ∧ stepPoint ops p ms st i = some s ∧
      s.currentNbPoints ≤ st.currentNbPoints ∧
      ((∃ j id, 1 ≤ j ∧ j < p.knn ∧ col[j]? = some id ∧ atId st.masks id = some true) ↔
        s.currentNbPoints < st.currentNbPoints) := by
  have hmi : i < st.masks.length := by rw [hinv.masks]; exact hi
  have hpi : i < st.cloud.points.length := by rw [hinv.points]; exact hi
  have hdi : i < st.distributions.length := by rw [hinv.dists]; exact hi
  have hlive : st.masks[i]? = some true := by
    cases hb : st.masks[i] with
    | false => simp [decision, List.getElem?_eq_getElem hmi, hb] at hacc
    | true => rw [List.getElem?_eq_getElem hmi, hb]
  obtain ⟨col, hcol, hpos, hk, hids⟩ := validTable_col hv hi
  obtain ⟨nd, hnd⟩ := neighborhood_some ops p.knn col st.masks st.distributions
    hinv.masks hinv.dists hpos hk hids
  obtain ⟨hdec, hstep⟩ := stepPoint_live ops p ms st i col nd (st.cloud.points[i])
    (st.distributions[i]) hlive hcol hnd (List.getElem?_eq_getElem hpi)
    (List.getElem?_eq_getElem hdi)
  rw [hacc] at hdec
  have hacc' := (Option.some.inj hdec).symm
  rw [hacc'] at hstep
  simp only [if_true] at hstep
  have hinv1 : Inv N ({ st with
      cloud := { st.cloud with points := (st.cloud.points.set i
        (Point.mk (setTopRows (st.cloud.points[i]).feature (ops.getMean nd))
          (st.cloud.points[i]).descriptor)) },
      distributions := st.distributions.set i nd } : MergeState D Dist) :=
    ⟨by simp [hinv.points], by simp [hinv.dists], hinv.cols, hinv.rowsPos,
      hinv.masks, hinv.count, hinv.bound⟩
  obtain ⟨s, hs, hinvs, hev, -, -, -⟩ := absorb_spec p.knn col i _ hinv1 hi hids
  have hle : s.currentNbPoints ≤ st.currentNbPoints := by
    rw [hinvs.count, hinv.count]
    exact hev.le
  refine ⟨col, s, hcol, hstep.trans hs, hle, ?_, ?_⟩
  · rintro ⟨j, id, hj1, hj2, hid, hlv⟩
    obtain ⟨-, hkill⟩ := absorb_kills col i _ _ s hs
    have hdead := hkill j (List.mem_range'_1.mpr ⟨hj1, by omega⟩) id hid
    rw [atId_false_iff] at hdead
    obtain ⟨-, -, hget⟩ := atId_some _ _ _ hlv
    rw [hinvs.count, hinv.count]
    exact liveCount_lt_of_cleared st.masks s.masks (by rw [hinv.masks, hinvs.masks]) hev.mono
      id.toNat hget hdead.2
  · intro hlt
    by_contra hno
    have hdead : ∀ j, 1 ≤ j → j < p.knn →
        ∃ id, col[j]? = some id ∧ atId st.masks id = some false := by
      intro j hj1 hj2
      obtain ⟨id, hid, h0, h1⟩ := hids j hj2
      refine ⟨id, hid, ?_⟩
      have hma : id.toNat < st.masks.length := by rw [hinv.masks]; omega
      have hat : atId st.masks id = some (st.masks[id.toNat]) := by
        simp [atId, h0, List.getElem?_eq_getElem hma]
      cases hb : st.masks[id.toNat] with
      | false => rw [hat, hb]
      | true => exact absurd ⟨j, id, hj1, hj2, hid, by rw [hat, hb]⟩ hno
    have hal := absorb_alone p.knn col i ({ st with
      cloud := { st.cloud with points := (st.cloud.points.set i
        (Point.mk (setTopRows (st.cloud.points[i]).feature (ops.getMean nd))
          (st.cloud.points[i]).descriptor)) },
      distributions := st.distributions.set i nd } : MergeState D Dist) hdead
    rw [hal] at hs
    cases hs
    exact absurd hlt (lt_irrefl _)

/-- Witness of C17, amended, at the first step of scenario B, in which point 0 absorbs
point 1. -/
theorem accepted_count_witness :
    ValidTable 2 3 ⟨[[0, 1], [1, 0], [2, 1]]⟩ ∧
    decision (gaussianOps 2) scenarioBParameters ⟨[[0, 1], [1, 0], [2, 1]]⟩
      (initState scenarioB (scenarioB.points.map
        (freshDistribution (gaussianOps 2) scenarioBParameters)) (Matrix.Ones 1 3)) 0
      = some true ∧
    ∃ col s, (⟨[[0, 1], [1, 0], [2, 1]]⟩ : Matches).ids[0]? = some col ∧
      stepPoint (gaussianOps 2) scenarioBParameters ⟨[[0, 1], [1, 0], [2, 1]]⟩
        (initState scenarioB (scenarioB.points.map
          (freshDistribution (gaussianOps 2) scenarioBParameters)) (Matrix.Ones 1 3)) 0
        = some s ∧
      s.currentNbPoints ≤ (initState scenarioB (scenarioB.points.map
          (freshDistribution (gaussianOps 2) scenarioBParameters))
          (Matrix.Ones 1 3)).currentNbPoints ∧
      ((∃ j id, 1 ≤ j ∧ j < scenarioBParameters.knn ∧ col[j]? = some id ∧
          atId (initState scenarioB (scenarioB.points.map
            (freshDistribution (gaussianOps 2) scenarioBParameters))
            (Matrix.Ones 1 3)).masks id = some true) ↔
        s.currentNbPoints < (initState scenarioB (scenarioB.points.map
          (freshDistribution (gaussianOps 2) scenarioBParameters))
          (Matrix.Ones 1 3)).currentNbPoints) :=
  ⟨by decide, by decide!,
    accepted_count (gaussianOps 2) scenarioBParameters ⟨[[0, 1], [1, 0], [2, 1]]⟩
      (initState scenarioB (scenarioB.points.map
        (freshDistribution (gaussianOps 2) scenarioBParameters)) (Matrix.Ones 1 3)) 0
      (by decide) (initState_inv scenarioB _ (Matrix.Ones 1 3) (by decide) rfl rfl (by decide))
      (by decide) (by decide!)⟩

/-! ## Layout of the flattened matrices -/

theorem mapM_some_get {α β : Type} (f : α → Option β) :
    ∀ (l : List α) (ys : List β), l.mapM f = some ys →
      ∀ (k : Nat) (x : α), l[k]? = some x → ∃ y, f x = some y ∧ ys[k]? = some y := by
  intro l
  induction l with
  | nil => intro ys _ k x hx; simp at hx
  | cons a l ih =>
    intro ys h k x hx
    rw [List.mapM_cons] at h
    cases hfa : f a with
    | none =>
      rw [hfa] at h
      cases h
    | some b =>
      cases hl : l.mapM f with
      | none =>
        rw [hfa, hl] at h
        cases h
      | some bs =>
        rw [hfa, hl] at h
        simp only [Option.bind_eq_bind, Option.some_bind, Option.pure_def,
          Option.some.injEq] at h
        subst h
        cases k with
        | zero =>
          simp at hx
          subst hx
          exact ⟨b, hfa, by simp⟩
        | succ k =>
          obtain ⟨y, hy, hk⟩ := ih bs hl k x (by simpa using hx)
          exact ⟨y, hy, by simpa using hk⟩

/-- Column-major layout: when the block of `D` rows at row `s + k * D` of a column holds
column `k` of `M`, row `s + k * D + r` holds the entry `M(r, k)`. -/
theorem entry_of_block {D : Nat} (desc : List ℚ) (M : Mat D) (s k r : Nat)
    (h : block desc (s + k * D) D = M.1[k]?) (hk : k < D) (hr : r < D) :
    desc[s + k * D + r]? = some (M.entry r k) := by
  have hkl : k < M.1.length := by rw [M.2]; exact hk
  rw [List.getElem?_eq_getElem hkl] at h
  obtain ⟨hle, hv⟩ := block_some_le h
  have hrl : r < (M.1[k]).1.length := by rw [(M.1[k]).2]; exact hr
  have h1 : (M.1[k]).1[r]? = desc[s + k * D + r]? := by
    rw [hv, List.getElem?_take, if_pos hr, List.getElem?_drop]
  unfold Mat.entry
  rw [List.getElem?_eq_getElem hkl]
  simp only [Option.some_bind]
  rw [← h1, List.getElem?_eq_getElem hrl]
  rfl

/-- Lines 47-53 read a matrix whose columns are the blocks of the view. -/
theorem unflatten_blocks {D : Nat} (cloud : DataPoints D) (name : String) (i : Nat)
    (M : Mat D) (q : Point D) (start span : Nat)
    (hl : findLabel cloud.descriptorLabels name 0 = some (start, span))
    (hq : cloud.points[i]? = some q) (h : unflatten cloud name i = some M) :
    ∀ k, k < D → block q.descriptor (start + k * D) D = M.1[k]? := by
  intro k hk
  unfold unflatten at h
  cases hm : (List.range D).mapM (fun j => cloud.viewBlock name (j * D) i D) with
  | none =>
    rw [hm] at h
    cases h
  | some cols =>
    rw [hm] at h
    simp only [Option.bind_eq_bind, Option.some_bind] at h
    by_cases hlen : cols.length = D
    · rw [dif_pos hlen] at h
      cases h
      obtain ⟨v, hv, hget⟩ := mapM_some_get _ _ _ hm k k (by simp [hk])
      unfold DataPoints.viewBlock at hv
      rw [hl] at hv
      simp only [Option.bind_eq_bind, Option.some_bind, hq] at hv
      by_cases hfit : k * D + D ≤ span
      · rw [if_pos hfit] at hv
        rw [hv]
        exact hget.symm
      · rw [if_neg hfit] at hv
        cases hv
    · rw [dif_neg hlen] at h
      cases h

/-- Lines 47-53 return the matrix `M` when the blocks of the view hold its columns. -/
theorem unflatten_of_blocks {D : Nat} (cloud : DataPoints D) (name : String) (i : Nat)
    (M : Mat D) (q : Point D) (start span : Nat)
    (hl : findLabel cloud.descriptorLabels name 0 = some (start, span))
    (hspan : D * D ≤ span) (hq : cloud.points[i]? = some q)
    (h : ∀ k, k < D → block q.descriptor (start + k * D) D = M.1[k]?) :
    unflatten cloud name i = some M := by
  have hm : (List.range D).mapM (fun j => cloud.viewBlock name (j * D) i D) = some M.1 := by
    have h1 := mapM_some_of_forall (fun j => cloud.viewBlock name (j * D) i D)
      (fun j => (M.1[j]?).getD ⟨List.replicate D 0, by simp⟩) (List.range D) (by
        intro j hj
        have hj' : j < D := List.mem_range.mp hj
        have hjD : j * D + D ≤ D * D := by
          have := Nat.mul_le_mul_right D (show j + 1 ≤ D by omega)
          rw [Nat.add_mul, Nat.one_mul] at this
          exact this
        have hjl : j < M.1.length := by rw [M.2]; exact hj'
        unfold DataPoints.viewBlock
        rw [hl]
        simp only [Option.bind_eq_bind, Option.some_bind, hq]
        rw [if_pos (by omega), h j hj', List.getElem?_eq_getElem hjl]
        rfl)
    rw [h1]
    congr 1
    apply List.ext_getElem?
    intro k
    by_cases hk : k < D
    · have hkl : k < M.1.length := by rw [M.2]; exact hk
      simp [List.getElem?_map, List.getElem?_range hk, List.getElem?_eq_getElem hkl]
    · have hkl : M.1.length ≤ k := by rw [M.2]; omega
      simp [List.getElem?_eq_none hkl, hk]
      omega
  unfold unflatten
  rw [hm]
  simp only [Option.bind_eq_bind, Option.some_bind]
  rw [dif_pos M.2]

theorem flat_index_lt {D r c : Nat} (hr : r < D) (hc : c < D) : c * D + r < D * D := by
  have := Nat.mul_le_mul_right D (show c + 1 ≤ D by omega)
  rw [Nat.add_mul, Nat.one_mul] at this
  omega

/-- When the blocks of the view hold the columns of `M`, row `c * D + r` of the view
holds the entry `M(r, c)`. -/
theorem viewEntry_of_blocks {D : Nat} (cloud : DataPoints D) (name : String) (i : Nat)
    (M : Mat D) (q : Point D) (start span : Nat)
    (hl : findLabel cloud.descriptorLabels name 0 = some (start, span))
    (hspan : D * D ≤ span) (hq : cloud.points[i]? = some q)
    (h : ∀ k, k < D → block q.descriptor (start + k * D) D = M.1[k]?) :
    ∀ r c, r < D → c < D → cloud.viewEntry name (c * D + r) i = some (M.entry r c) := by
  intro r c hr hc
  have hlt := flat_index_lt hr hc
  unfold DataPoints.viewEntry
  rw [hl]
  simp only [Option.bind_eq_bind, Option.some_bind, hq]
  rw [if_pos (by omega), ← Nat.add_assoc]
  exact entry_of_block q.descriptor M start c r (h c hc) hc hr

/-! ## Matrix encoding (C15) -/

/-- C15 as stated (row-major encoding) fails. The covariance rows of `oneCarried` hold
1, 2, 3, 4: the matrix read by lines 47-53 has `M(0, 1) = 3`, the value of flat row
`1 * 2 + 0`, while flat row `0 * 2 + 1` holds 2. Writing the matrix with the rows `(1, 2)`
and `(3, 4)` puts `M(1, 0) = 3` at flat row `0 * 2 + 1`, and the covariance rows become
1, 3, 2, 4. -/
theorem row_major_counterexample :
    (unflatten oneCarried "covariance" 0).map (fun M => (M.entry 0 1, M.entry 1 0))
      = some (3, 2) ∧
    oneCarried.viewEntry "covariance" (0 * 2 + 1) 0 = some 2 ∧
    oneCarried.viewEntry "covariance" (1 * 2 + 0) 0 = some 3 ∧
    (mat2 1 2 3 4).entry 0 1 = 2 ∧ (mat2 1 2 3 4).entry 1 0 = 3 ∧
    ((List.range 2).foldlM (flattenStep (mat2 1 2 3 4) (mat2 5 6 7 8) 0) oneCarried).bind
      (fun out => out.viewEntry "covariance" (0 * 2 + 1) 0) = some 3 ∧
    (List.range 2).foldlM (flattenStep (mat2 1 2 3 4) (mat2 5 6 7 8) 0) oneCarried
      = some ⟨[("covariance", 4), ("weightSum", 4), ("nbPoints", 1)],
          [point2d 0 0 [1, 3, 2, 4, 5, 7, 6, 8, 1]]⟩ := by
  refine ⟨by decide!, by decide!, by decide!, by decide!, by decide!, by decide!, by decide!⟩

/-- C15, amended (column-major encoding). For every consistent cloud that has the
`covariance` and `weightSum` descriptors (with `D * D` rows) and every point `i`: lines
47-53 return matrices `C` and `W` such that flat row `c * D + r` of the point's column of
either view holds the entry `(r, c)`; and lines 135-139, for any two `D x D` matrices,
symmetric or not, leave the entry `(r, c)` of either matrix at flat row `c * D + r`. -/
theorem column_major {D : Nat} (cloud : DataPoints D) (covariance weightSum : Mat D) (i : Nat)
    (q : Point D) (hw : WellShaped cloud)
    (hcov : (findLabel cloud.descriptorLabels "covariance" 0).isSome = true)
    (hws : (findLabel cloud.descriptorLabels "weightSum" 0).isSome = true)
    (hq : cloud.points[i]? = some q) :
    (∃ C W, unflatten cloud "covariance" i = some C ∧ unflatten cloud "weightSum" i = some W ∧
      ∀ r c, r < D → c < D →
        cloud.viewEntry "covariance" (c * D + r) i = some (C.entry r c) ∧
        cloud.viewEntry "weightSum" (c * D + r) i = some (W.entry r c)) ∧
    (∃ out, (List.range D).foldlM (flattenStep covariance weightSum i) cloud = some out ∧
      ∀ r c, r < D → c < D →
        out.viewEntry "covariance" (c * D + r) i = some (covariance.entry r c) ∧
        out.viewEntry "weightSum" (c * D + r) i = some (weightSum.entry r c)) := by
  obtain ⟨⟨sc, spc⟩, hc⟩ := Option.isSome_iff_exists.mp hcov
  obtain ⟨⟨sw, spw⟩, hwl⟩ := Option.isSome_iff_exists.mp hws
  have hspc : spc = D ^ 2 := hw.2.1 (sc, spc) hc
  have hspw : spw = D ^ 2 := hw.2.2.1 (sw, spw) hwl
  have hsq : D ^ 2 = D * D := Nat.pow_two D
  have hlen := hw.1 q (List.getElem?_mem hq)
  constructor
  · obtain ⟨C, hC⟩ := unflatten_some cloud "covariance" i q sc spc hw.1 hc (by omega) hq
    obtain ⟨W, hW⟩ := unflatten_some cloud "weightSum" i q sw spw hw.1 hwl (by omega) hq
    refine ⟨C, W, hC, hW, fun r c hr hcD => ⟨?_, ?_⟩⟩
    · exact viewEntry_of_blocks cloud "covariance" i C q sc spc hc (by omega) hq
        (unflatten_blocks cloud "covariance" i C q sc spc hc hq hC) r c hr hcD
    · exact viewEntry_of_blocks cloud "weightSum" i W q sw spw hwl (by omega) hq
        (unflatten_blocks cloud "weightSum" i W q sw spw hwl hq hW) r c hr hcD
  · obtain ⟨out, q2, hfold, hlab, hpts, hfl⟩ := flatten_spec cloud covariance weightSum i q
      sc spc sw spw hq hc hwl (by omega) (by omega) hlen
    have hil : i < cloud.points.length := by
      by_contra hcon
      rw [List.getElem?_eq_none (by omega)] at hq
      cases hq
    have hq2 : out.points[i]? = some q2 := by
      rw [hpts]
      simp [List.getElem?_set, hil]
    refine ⟨out, hfold, fun r c hr hcD => ⟨?_, ?_⟩⟩
    · exact viewEntry_of_blocks out "covariance" i covariance q2 sc spc (by rw [hlab]; exact hc)
        (by omega) hq2 (fun k hk => hfl.cov sc spc hc k hk) r c hr hcD
    · exact viewEntry_of_blocks out "weightSum" i weightSum q2 sw spw (by rw [hlab]; exact hwl)
        (by omega) hq2 (fun k hk => hfl.ws sw spw hwl k hk) r c hr hcD

/-- Witness of C15, amended, on `oneCarried` and two non-symmetric matrices. -/
theorem column_major_witness :
    WellShaped oneCarried ∧
    (∃ C W, unflatten oneCarried "covariance" 0 = some C ∧
      unflatten oneCarried "weightSum" 0 = some W ∧
      ∀ r c, r < 2 → c < 2 →
        oneCarried.viewEntry "covariance" (c * 2 + r) 0 = some (C.entry r c) ∧
        oneCarried.viewEntry "weightSum" (c * 2 + r) 0 = some (W.entry r c)) ∧
    (∃ out, (List.range 2).foldlM (flattenStep (mat2 1 2 3 4) (mat2 5 6 7 8) 0) oneCarried
        = some out ∧
      ∀ r c, r < 2 → c < 2 →
        out.viewEntry "covariance" (c * 2 + r) 0 = some ((mat2 1 2 3 4).entry r c) ∧
        out.viewEntry "weightSum" (c * 2 + r) 0 = some ((mat2 5 6 7 8).entry r c)) :=
  ⟨by decide, column_major oneCarried (mat2 1 2 3 4) (mat2 5 6 7 8) 0
    (point2d 0 0 [1, 2, 3, 4, 5, 6, 7, 8, 1]) (by decide) rfl rfl rfl⟩

/-! ## Write-back and read-back (C16) -/

/-- Lines 41-57 on a cloud that carries the three descriptors: the working `nbPoints` is
the `nbPoints` view and the distribution of every point is built from its coordinates and
the two matrices read from its column. -/
theorem initSummaries_carried {D : Nat} {Dist : Type} (ops : DistributionOps D Dist)
    (p : Parameters) (cloud : DataPoints D) (hw : WellShaped cloud)
    (h1 : (findLabel cloud.descriptorLabels "covariance" 0).isSome = true)
    (h2 : (findLabel cloud.descriptorLabels "weightSum" 0).isSome = true)
    (h3 : (findLabel cloud.descriptorLabels "nbPoints" 0).isSome = true) :
    ∃ ds nb, initSummaries ops p cloud = some (ds, nb) ∧
      cloud.getDescriptorViewByName "nbPoints" = some nb ∧
      ds.length = cloud.points.length ∧
      ∀ (i : Nat) (q : Point D), cloud.points[i]? = some q →
        ∃ C W, unflatten cloud "covariance" i = some C ∧
          unflatten cloud "weightSum" i = some W ∧
          ds[i]? = some (ops.ofParts (topRows q.feature) C W) := by
  have hcond : (!cloud.descriptorExists "covariance" || !cloud.descriptorExists "weightSum"
      || !cloud.descriptorExists "nbPoints") = false := by
    simp [DataPoints.descriptorExists, h1, h2, h3]
  obtain ⟨ds, nb, hinit, hlen, -, -, -, -, hnb⟩ := initSummaries_spec ops p cloud hw
  refine ⟨ds, nb, hinit, hnb hcond, hlen, ?_⟩
  obtain ⟨⟨sc, spc⟩, hc⟩ := Option.isSome_iff_exists.mp h1
  obtain ⟨⟨sw, spw⟩, hwl⟩ := Option.isSome_iff_exists.mp h2
  have hspc : spc = D ^ 2 := hw.2.1 (sc, spc) hc
  have hspw : spw = D ^ 2 := hw.2.2.1 (sw, spw) hwl
  have hsq : D ^ 2 = D * D := Nat.pow_two D
  unfold initSummaries at hinit
  rw [hcond] at hinit
  simp only [Bool.false_eq_true, if_false] at hinit
  cases hv1 : cloud.getDescriptorViewByName "covariance" with
  | none =>
    rw [hv1] at hinit
    cases hinit
  | some v1 =>
    cases hv2 : cloud.getDescriptorViewByName "weightSum" with
    | none =>
      rw [hv1, hv2] at hinit
      cases hinit
    | some v2 =>
      cases hm : (List.range cloud.getNbPoints).mapM (fun i => do
          let pt ← cloud.points[i]?
          let covariance ← unflatten cloud "covariance" i
          let weightSum ← unflatten cloud "weightSum" i
          pure (ops.ofParts (topRows pt.feature) covariance weightSum)) with
      | none =>
        rw [hv1, hv2] at hinit
        simp only [Option.bind_eq_bind, Option.some_bind] at hinit hm
        rw [hm] at hinit
        cases hinit
      | some ds1 =>
        rw [hv1, hv2] at hinit
        simp only [Option.bind_eq_bind, Option.some_bind] at hinit hm
        rw [hm, hnb hcond] at hinit
        simp only [Option.some_bind, Option.pure_def, Option.some.injEq, Prod.mk.injEq] at hinit
        obtain ⟨hds, -⟩ := hinit
        subst hds
        intro i q hq
        have hil : i < cloud.points.length := by
          by_contra hcon
          rw [List.getElem?_eq_none (by omega)] at hq
          cases hq
        obtain ⟨C, hC⟩ := unflatten_some cloud "covariance" i q sc spc hw.1 hc (by omega) hq
        obtain ⟨W, hW⟩ := unflatten_some cloud "weightSum" i q sw spw hw.1 hwl (by omega) hq
        obtain ⟨y, hy, hget⟩ := mapM_some_get _ _ _ hm i i
          (List.getElem?_range (by simpa [DataPoints.getNbPoints] using hil))
        simp only [hq, hC, hW, Option.some_bind, Option.pure_def, Option.some.injEq] at hy
        subst hy
        exact ⟨C, W, hC, hW, hget⟩

/-- C16 (write-back / read-back round trip). For every dimension `D`, every consistent
cloud with the `covariance` and `weightSum` descriptors, every point `i` and every two
`D x D` matrices: lines 135-139 followed by lines 47-53 return the two matrices. Hence,
for every consistent input (`N < 2 ^ 32` points, neighbor table with valid ids), the
filter completes and lines 41-57 of an invocation on its output rebuild, for the k-th
surviving point, the summary `ofParts` of its final coordinates and of the covariance
and the weight sum of its final distribution. -/
theorem round_trip {D : Nat} {Dist : Type} (ops : DistributionOps D Dist)
    (matcher : Matcher D) (p : Parameters) (cloud : DataPoints D) (hw : WellShaped cloud)
    (hN : cloud.getNbPoints < 4294967296)
    (hv : ValidTable p.knn cloud.getNbPoints (matcher p.knn p.maxDist p.epsilon cloud)) :
    (∀ (c : DataPoints D) (covariance weightSum : Mat D) (i : Nat), WellShaped c →
      (findLabel c.descriptorLabels "covariance" 0).isSome = true →
      (findLabel c.descriptorLabels "weightSum" 0).isSome = true → i < c.getNbPoints →
      ∃ c2, (List.range D).foldlM (flattenStep covariance weightSum i) c = some c2 ∧
        unflatten c2 "covariance" i = some covariance ∧
        unflatten c2 "weightSum" i = some weightSum) ∧
    ∃ distributions nbPoints st passes out distributions2 nbPoints2,
      initSummaries ops p cloud = some (distributions, nbPoints) ∧
      runMerge ops p (matcher p.knn p.maxDist p.epsilon cloud) cloud distributions nbPoints
        = some (st, passes) ∧
      inPlaceFilter ops matcher p cloud = some out ∧
      initSummaries ops p out = some (distributions2, nbPoints2) ∧
      out.getDescriptorViewByName "nbPoints" = some nbPoints2 ∧
      List.Forall₂ (fun (k : Nat) (d2 : Dist) => ∃ d q, st.distributions[k]? = some d ∧
          st.cloud.points[k]? = some q ∧
          d2 = ops.ofParts (topRows q.feature) (ops.getCovariance d) (ops.getWeightSum d))
        (liveIndices st.masks) distributions2 := by
  have hsq : D ^ 2 = D * D := Nat.pow_two D
  constructor
  · intro c C W i hwc hcov hws hi
    obtain ⟨⟨sc, spc⟩, hc⟩ := Option.isSome_iff_exists.mp hcov
    obtain ⟨⟨sw, spw⟩, hwl⟩ := Option.isSome_iff_exists.mp hws
    have hspc : spc = D ^ 2 := hwc.2.1 (sc, spc) hc
    have hspw : spw = D ^ 2 := hwc.2.2.1 (sw, spw) hwl
    have hq : c.points[i]? = some (c.points[i]) := List.getElem?_eq_getElem hi
    obtain ⟨c2, q2, hfold, hlab, hpts, hfl⟩ := flatten_spec c C W i _ sc spc sw spw hq hc hwl
      (by omega) (by omega) (hwc.1 _ (List.getElem?_mem hq))
    have hq2 : c2.points[i]? = some q2 := by
      rw [hpts]
      have : i < c.points.length := hi
      simp [List.getElem?_set, this]
    exact ⟨c2, hfold,
      unflatten_of_blocks c2 "covariance" i C q2 sc spc (by rw [hlab]; exact hc) (by omega) hq2
        (fun k hk => hfl.cov sc spc hc k hk),
      unflatten_of_blocks c2 "weightSum" i W q2 sw spw (by rw [hlab]; exact hwl) (by omega) hq2
        (fun k hk => hfl.ws sw spw hwl k hk)⟩
  · obtain ⟨distributions, nb, st, n, out, hinit, hrun, hout, hinv, -, -, -, -, hwout, h1, h2,
      h3, hrel⟩ := inPlaceFilter_spec ops matcher p cloud hw hN hv
    obtain ⟨ds2, nb2, hinit2, hview2, hlen2, hchar⟩ :=
      initSummaries_carried ops p out hwout h1 h2 h3
    refine ⟨distributions, nb, st, n, out, ds2, nb2, hinit, hrun, hout, hinit2, hview2, ?_⟩
    obtain ⟨hlen, hget⟩ := List.forall₂_iff_get.mp hrel
    refine List.forall₂_iff_get.mpr ⟨by rw [hlen, hlen2], ?_⟩
    intro i hi1 hi2
    have hi3 : i < out.points.length := by rw [← hlen]; exact hi1
    have ho := hget i hi1 hi3
    obtain ⟨C, W, hC, hW, hd2⟩ := hchar i (out.points.get ⟨i, hi3⟩)
      (by simp [List.getElem?_eq_getElem hi3])
    obtain ⟨d, sc, spc, hd, hc, hbc⟩ := ho.covariance
    obtain ⟨d', sw, spw, hd', hwl, hbw⟩ := ho.weightSum
    rw [hd] at hd'
    cases hd'
    have hspc : spc = D ^ 2 := hwout.2.1 (sc, spc) hc
    have hspw : spw = D ^ 2 := hwout.2.2.1 (sw, spw) hwl
    have hq3 : out.points[i]? = some (out.points.get ⟨i, hi3⟩) := by
      simp [List.getElem?_eq_getElem hi3]
    have hC' := unflatten_of_blocks out "covariance" i (ops.getCovariance d) _ sc spc hc
      (by omega) hq3 hbc
    have hW' := unflatten_of_blocks out "weightSum" i (ops.getWeightSum d) _ sw spw hwl
      (by omega) hq3 hbw
    rw [hC] at hC'
    rw [hW] at hW'
    cases hC'
    cases hW'
    obtain ⟨q, hq, hqf⟩ := Option.map_eq_some'.mp ho.feature
    refine ⟨d, q, hd, hq, ?_⟩
    have h5 : ds2[i]? = some (ds2.get ⟨i, hi2⟩) := by simp [List.getElem?_eq_getElem hi2]
    rw [h5] at hd2
    rw [Option.some.inj hd2, hqf]

/-- Witness of C16 on scenario B. -/
theorem round_trip_witness :
    WellShaped scenarioB ∧
    ValidTable 2 3 (exhaustiveMatcher 2 2 none 0 scenarioB) ∧
    ((∀ (c : DataPoints 2) (covariance weightSum : Mat 2) (i : Nat), WellShaped c →
      (findLabel c.descriptorLabels "covariance" 0).isSome = true →
      (findLabel c.descriptorLabels "weightSum" 0).isSome = true → i < c.getNbPoints →
      ∃ c2, (List.range 2).foldlM (flattenStep covariance weightSum i) c = some c2 ∧
        unflatten c2 "covariance" i = some covariance ∧
        unflatten c2 "weightSum" i = some weightSum) ∧
    ∃ distributions nbPoints st passes out distributions2 nbPoints2,
      initSummaries (gaussianOps 2) scenarioBParameters scenarioB
        = some (distributions, nbPoints) ∧
      runMerge (gaussianOps 2) scenarioBParameters (exhaustiveMatcher 2 2 none 0 scenarioB)
        scenarioB distributions nbPoints = some (st, passes) ∧
      inPlaceFilter (gaussianOps 2) (exhaustiveMatcher 2) scenarioBParameters scenarioB
        = some out ∧
      initSummaries (gaussianOps 2) scenarioBParameters out
        = some (distributions2, nbPoints2) ∧
      out.getDescriptorViewByName "nbPoints" = some nbPoints2 ∧
      List.Forall₂ (fun (k : Nat) (d2 : Gaussian 2) => ∃ d q, st.distributions[k]? = some d ∧
          st.cloud.points[k]? = some q ∧
          d2 = (gaussianOps 2).ofParts (topRows q.feature) ((gaussianOps 2).getCovariance d)
            ((gaussianOps 2).getWeightSum d))
        (liveIndices st.masks) distributions2) :=
  ⟨by decide, by decide!,
    round_trip (gaussianOps 2) (exhaustiveMatcher 2) scenarioBParameters scenarioB
      (by decide) (by decide) (by decide!)⟩

/-! ## Order dependence (C18) -/

/-- C18 (order dependence). There are a cloud, parameters and an order `σ` of the points
for which the surviving original points differ: on `threeOnLine` (abscissas 0, 1, 3/2)
with `knn = 2`, `initialVariance = 1`, `maxDeviation = 10` and the exhaustive search, whose
table on the permuted cloud is the relabelled table, the merge loop leaves the points
`A = [0, 2]` in the original order (point 0 absorbs point 1, so that point 2 finds its
neighbor dead) and the point `B = [0]` in the order 1, 0, 2 (point 1 absorbs point 2,
then point 0 absorbs point 1); the filter returns 2 points and 1 point. -/
theorem order_dependence :
    ∃ (cloud : DataPoints 2) (p : Parameters) (σ A B : List Nat),
      σ.Perm (List.range cloud.getNbPoints) ∧
      ValidTable p.knn cloud.getNbPoints (exhaustiveMatcher 2 p.knn p.maxDist p.epsilon cloud) ∧
      NoSelfMatch (exhaustiveMatcher 2 p.knn p.maxDist p.epsilon cloud) ∧
      exhaustiveMatcher 2 p.knn p.maxDist p.epsilon (permute σ cloud)
        = relabel σ (exhaustiveMatcher 2 p.knn p.maxDist p.epsilon cloud) ∧
      ((initSummaries (gaussianOps 2) p cloud).bind (fun s =>
        runMerge (gaussianOps 2) p (exhaustiveMatcher 2 p.knn p.maxDist p.epsilon cloud)
          cloud s.1 s.2)).map (fun r => liveIndices r.1.masks) = some A ∧
      ((initSummaries (gaussianOps 2) p (permute σ cloud)).bind (fun s =>
        runMerge (gaussianOps 2) p
          (relabel σ (exhaustiveMatcher 2 p.knn p.maxDist p.epsilon cloud))
          (permute σ cloud) s.1 s.2)).map
        (fun r => (liveIndices r.1.masks).map (fun n => σ.getD n 0)) = some B ∧
      (∃ k, k ∈ A ∧ k ∉ B) ∧
      (inPlaceFilter (gaussianOps 2) (exhaustiveMatcher 2) p cloud).map
        (fun out => out.getNbPoints) = some 2 ∧
      (inPlaceFilter (gaussianOps 2) (exhaustiveMatcher 2) p (permute σ cloud)).map
        (fun out => out.getNbPoints) = some 1 :=
  ⟨threeOnLine, ⟨2, none, 0, 1, 10⟩, [1, 0, 2], [0, 2], [0], by decide, by decide!, by decide!,
    by decide!, by decide!, by decide!, ⟨2, by decide, by decide⟩, by decide!, by decide!⟩

/-! ## Coordinates and means (C19) -/

theorem topRows_setTopRows {D : Nat} (feature : Vec (D + 1)) (v : Vec D) :
    topRows (setTopRows feature v) = v := by
  apply Subtype.ext
  show (v.1 ++ feature.1.drop D).take D = v.1
  have h := v.2
  rw [List.take_append_of_le_length (by omega), List.take_of_length_le (by omega)]

/-- The shape of the state after an accepted step. -/
theorem stepPoint_accepted {D : Nat} {Dist : Type} (ops : DistributionOps D Dist)
    (p : Parameters) (ms : Matches) (i : Nat) (st s : MergeState D Dist)
    (h : stepPoint ops p ms st i = some s) (hacc : decision ops p ms st i = some true) :
    ∃ col nd pt own, st.masks[i]? = some true ∧ ms.ids[i]? = some col ∧
      neighborhood ops p.knn col st.masks st.distributions = some nd ∧
      st.cloud.points[i]? = some pt ∧ st.distributions[i]? = some own ∧
      accepted ops p.maxDeviation nd pt.feature own = true ∧
      (List.range' 1 (p.knn - 1)).foldlM (absorbStep col i)
        ({ st with
          cloud := { st.cloud with points := (st.cloud.points.set i
            (Point.mk (setTopRows pt.feature (ops.getMean nd)) pt.descriptor)) },
          distributions := st.distributions.set i nd } : MergeState D Dist) = some s ∧
      s.cloud.descriptorLabels = st.cloud.descriptorLabels ∧
      s.cloud.points = st.cloud.points.set i
        (Point.mk (setTopRows pt.feature (ops.getMean nd)) pt.descriptor) ∧
      s.distributions = st.distributions.set i nd := by
  unfold decision at hacc
  cases h1 : st.masks[i]? with
  | none => simp [h1] at hacc
  | some m =>
    cases m with
    | false => simp [h1] at hacc
    | true =>
      cases h2 : ms.ids[i]? with
      | none => simp [h1, h2] at hacc
      | some col =>
        cases h3 : neighborhood ops p.knn col st.masks st.distributions with
        | none => simp [h1, h2, h3] at hacc
        | some nd =>
          cases h4 : st.cloud.points[i]? with
          | none => simp [h1, h2, h3, h4] at hacc
          | some pt =>
            cases h5 : st.distributions[i]? with
            | none => simp [h1, h2, h3, h4, h5] at hacc
            | some own =>
              simp [h1, h2, h3, h4, h5] at hacc
              obtain ⟨-, hstep⟩ := stepPoint_live ops p ms st i col nd pt own h1 h2 h3 h4 h5
              rw [hacc, if_pos rfl, h] at hstep
              have hfr := foldlM_preserve (absorbStep col i)
                (fun s' => s'.cloud = ({ st.cloud with points := (st.cloud.points.set i
                    (Point.mk (setTopRows pt.feature (ops.getMean nd)) pt.descriptor)) } :
                    DataPoints D) ∧ s'.distributions = st.distributions.set i nd)
                (by
                  intro a s0 s1 hs ⟨q1, q2⟩
                  obtain ⟨f1, f2, -⟩ := absorbStep_frame col i a s0 s1 hs
                  exact ⟨f1.trans q1, f2.trans q2⟩)
                _ _ s hstep.symm ⟨rfl, rfl⟩
              refine ⟨col, nd, pt, own, rfl, rfl, h3, rfl, rfl, hacc, hstep.symm, ?_, ?_,
                hfr.2⟩
              · rw [hfr.1]
              · rw [hfr.1]

/-- A step of the merge loop keeps the coordinates on the means. -/
theorem stepPoint_tracks {D : Nat} {Dist : Type} (ops : DistributionOps D Dist)
    (p : Parameters) (ms : Matches) (i : Nat) (st s : MergeState D Dist)
    (h : stepPoint ops p ms st i = some s) (ht : MeanTracked ops st) : MeanTracked ops s := by
  by_cases hacc : decision ops p ms st i = some true
  · obtain ⟨col, nd, pt, own, -, -, -, hpt, -, -, -, -, hpts, hds⟩ :=
      stepPoint_accepted ops p ms i st s h hacc
    intro k q d hq hd
    rw [hpts] at hq
    rw [hds] at hd
    by_cases hk : i = k
    · subst hk
      rw [List.getElem?_set] at hq hd
      simp only [if_true] at hq hd
      split at hq
      · split at hd
        · cases hq
          cases hd
          exact topRows_setTopRows _ _
        · cases hd
      · cases hq
    · rw [List.getElem?_set, if_neg hk] at hq hd
      exact ht k q d hq hd
  · rw [(stepPoint_frame ops p ms i st s h).2 hacc]
    exact ht

/-- Lines 33-57 put the coordinates of every point into the mean of its distribution. -/
theorem initSummaries_tracks {D : Nat} {Dist : Type} (ops : DistributionOps D Dist)
    (p : Parameters) (cloud : DataPoints D) (hw : WellShaped cloud)
    (hmean1 : ∀ m C, ops.getMean (ops.ofPoint m C) = m)
    (hmean2 : ∀ m C W, ops.getMean (ops.ofParts m C W) = m)
    (distributions : List Dist) (nb : Matrix)
    (hinit : initSummaries ops p cloud = some (distributions, nb)) :
    MeanTracked ops (initState cloud distributions nb) := by
  intro i q d hq hd
  change cloud.points[i]? = some q at hq
  change distributions[i]? = some d at hd
  cases hcond : (!cloud.descriptorExists "covariance" || !cloud.descriptorExists "weightSum"
      || !cloud.descriptorExists "nbPoints") with
  | true =>
    rw [initSummaries_fresh ops p cloud hcond] at hinit
    simp only [Option.some.injEq, Prod.mk.injEq] at hinit
    rw [← hinit.1, List.getElem?_map, hq] at hd
    simp only [Option.map_some', Option.some.injEq] at hd
    rw [← hd, hmean1]
  | false =>
    simp only [Bool.or_eq_false_iff, Bool.not_eq_false', DataPoints.descriptorExists] at hcond
    obtain ⟨⟨h1, h2⟩, h3⟩ := hcond
    obtain ⟨ds, nb2, hinit2, -, -, hchar⟩ := initSummaries_carried ops p cloud hw h1 h2 h3
    rw [hinit] at hinit2
    simp only [Option.some.injEq, Prod.mk.injEq] at hinit2
    obtain ⟨C, W, -, -, hds⟩ := hchar i q hq
    rw [← hinit2.1, hd] at hds
    rw [Option.some.inj hds, hmean2]

/-- The step of a live point that is its own rank-0 neighbor, has only dead neighbors at
the ranks `1..knn-1` and sits on the mean of its distribution: the neighborhood
distribution is its own, the displacement is zero, the merge is accepted exactly when
`maxDeviation >= 0`, and the step changes nothing. -/
theorem alone_step {D : Nat} {Dist : Type} (ops : DistributionOps D Dist) (p : Parameters)
    (ms : Matches) (s : MergeState D Dist) (i : Nat) (col : List Int) (pt : Point D) (d : Dist)
    (hlive : s.masks[i]? = some true) (hcol : ms.ids[i]? = some col)
    (h0 : col[0]? = some (i : Int))
    (hdead : ∀ j, 1 ≤ j → j < p.knn → ∃ id, col[j]? = some id ∧ atId s.masks id = some false)
    (hpt : s.cloud.points[i]? = some pt) (hd : s.distributions[i]? = some d)
    (hmean : ops.getMean d = topRows pt.feature) :
    neighborhood ops p.knn col s.masks s.distributions = some d ∧
    (Vec.sub (ops.getMean d) (topRows pt.feature)).1 = List.replicate D 0 ∧
    decision ops p ms s i = some (decide (0 ≤ p.maxDeviation)) ∧
    stepPoint ops p ms s i = some s := by
  have hnd : neighborhood ops p.knn col s.masks s.distributions = some d :=
    neighborhood_alone ops p.knn col s.masks s.distributions i d h0
      (by simp [atId, hd]) hdead
  have hzero : (Vec.sub (ops.getMean d) (topRows pt.feature)).1 = List.replicate D 0 := by
    rw [hmean]
    have := zipWith_sub_self (topRows pt.feature).1
    rw [(topRows pt.feature).2] at this
    exact this
  have hacc : accepted ops p.maxDeviation d pt.feature d = decide (0 ≤ p.maxDeviation) := by
    unfold accepted
    simp only
    have hdot : Vec.dot (Mat.vecMul (Vec.sub (ops.getMean d) (topRows pt.feature))
        (ops.getCovariance d)) (Vec.sub (ops.getMean d) (topRows pt.feature)) = 0 := by
      unfold Vec.dot
      rw [hzero]
      exact sum_zipWith_mul_zero _ _
    rw [hdot]
    unfold sqrtLe
    simp [mul_self_nonneg]
  obtain ⟨hdec, hstep⟩ := stepPoint_live ops p _ s i col d pt d hlive hcol hnd hpt hd
  refine ⟨hnd, hzero, by rw [hdec, hacc], ?_⟩
  rw [hstep]
  have hst : ({ s with
      cloud := { s.cloud with points := (s.cloud.points.set i
        (Point.mk (setTopRows pt.feature (ops.getMean d)) pt.descriptor)) },
      distributions := s.distributions.set i d } : MergeState D Dist) = s := by
    rw [hmean, setTopRows_topRows, set_self_of_get _ _ _ hd]
    have : (Point.mk pt.feature pt.descriptor) = pt := rfl
    rw [this, set_self_of_get _ _ _ hpt]
  rw [hst, absorb_alone p.knn col i s hdead]
  simp

/-- C19 (coordinates track the summary mean). Assume that `getMean` returns the mean a
distribution was constructed with. For every consistent input (`N < 2 ^ 32` points,
neighbor table with valid ids) the initial state, every state in which a step of the
merge loop starts, the state after that step and the final state have the first `D`
coordinate rows of every point equal to the mean of its distribution. Consequently, in
every such state, a live point whose rank-0 neighbor is itself and whose neighbors at the
ranks `1..knn-1` are all dead has its own distribution as neighborhood distribution and
the displacement zero; its merge is accepted exactly when `maxDeviation >= 0`, and its
step leaves the state unchanged. -/
theorem mean_tracking {D : Nat} {Dist : Type} (ops : DistributionOps D Dist)
    (matcher : Matcher D) (p : Parameters) (cloud : DataPoints D) (hw : WellShaped cloud)
    (hN : cloud.getNbPoints < 4294967296)
    (hv : ValidTable p.knn cloud.getNbPoints (matcher p.knn p.maxDist p.epsilon cloud))
    (hmean1 : ∀ m C, ops.getMean (ops.ofPoint m C) = m)
    (hmean2 : ∀ m C W, ops.getMean (ops.ofParts m C W) = m) :
    ∃ distributions nbPoints st passes,
      initSummaries ops p cloud = some (distributions, nbPoints) ∧
      runMerge ops p (matcher p.knn p.maxDist p.epsilon cloud) cloud distributions nbPoints
        = some (st, passes) ∧
      MeanTracked ops (initState cloud distributions nbPoints) ∧
      (∀ e ∈ loopStates ops p (matcher p.knn p.maxDist p.epsilon cloud) (cloud.getNbPoints + 1)
          (initState cloud distributions nbPoints) 0,
        MeanTracked ops e.2 ∧
        ∃ s, stepPoint ops p (matcher p.knn p.maxDist p.epsilon cloud) e.2 e.1 = some s ∧
          MeanTracked ops s) ∧
      MeanTracked ops st ∧
      ∀ (s : MergeState D Dist) (i : Nat) (col : List Int) (pt : Point D) (d : Dist),
        MeanTracked ops s → s.masks[i]? = some true →
        (matcher p.knn p.maxDist p.epsilon cloud).ids[i]? = some col →
        col[0]? = some (i : Int) →
        (∀ j, 1 ≤ j → j < p.knn → ∃ id, col[j]? = some id ∧ atId s.masks id = some false) →
        s.cloud.points[i]? = some pt → s.distributions[i]? = some d →
        neighborhood ops p.knn col s.masks s.distributions = some d ∧
        (Vec.sub (ops.getMean d) (topRows pt.feature)).1 = List.replicate D 0 ∧
        decision ops p (matcher p.knn p.maxDist p.epsilon cloud) s i
          = some (decide (0 ≤ p.maxDeviation)) ∧
        stepPoint ops p (matcher p.knn p.maxDist p.epsilon cloud) s i = some s := by
  obtain ⟨distributions, nb, hinit, hdl, -, hcl, hll, -, -⟩ := initSummaries_spec ops p cloud hw
  obtain ⟨st, n, hrun, -, -, -, -, -, -⟩ := runMerge_spec ops p
    (matcher p.knn p.maxDist p.epsilon cloud) cloud distributions nb hv hN hdl hcl hll
  have hrun0 := hrun 0
  have hinv0 := initState_inv cloud distributions nb hN hdl hcl hll
  have ht0 := initSummaries_tracks ops p cloud hw hmean1 hmean2 distributions nb hinit
  have hall := loopStates_forall ops p (matcher p.knn p.maxDist p.epsilon cloud) hv
    (MeanTracked ops) (fun i s s1 _ _ hs hq => stepPoint_tracks ops p _ i s s1 hs hq)
    (cloud.getNbPoints + 1) (initState cloud distributions nb) 0 hinv0 ht0
  have hfin := mergeLoop_states_preserve ops p (matcher p.knn p.maxDist p.epsilon cloud)
    (fun _ => True) (MeanTracked ops)
    (fun i s s1 _ hs hq => stepPoint_tracks ops p _ i s s1 hs hq)
    (cloud.getNbPoints + 1) (initState cloud distributions nb) 0 (st, n) hrun0
    (fun _ _ => trivial) ht0
  refine ⟨distributions, nb, st, n, hinit, hrun0, ht0, ?_, hfin, ?_⟩
  · intro e he
    obtain ⟨hi, hinv, ht⟩ := hall e he
    obtain ⟨s, hs, -, -, -⟩ := stepPoint_spec ops p _ e.2 e.1 hv hinv hi
    exact ⟨ht, s, hs, stepPoint_tracks ops p _ e.1 e.2 s hs ht⟩
  · intro s i col pt d ht hlive hcol h0 hdead hpt hd
    exact alone_step ops p _ s i col pt d hlive hcol h0 hdead hpt hd (ht i pt d hpt hd).symm

/-- Witness of C19 on scenario B with the reference collaborators. -/
theorem mean_tracking_witness :
    WellShaped scenarioB ∧
    ValidTable 2 3 (exhaustiveMatcher 2 2 none 0 scenarioB) ∧
    ∃ distributions nbPoints st passes,
      initSummaries (gaussianOps 2) scenarioBParameters scenarioB
        = some (distributions, nbPoints) ∧
      runMerge (gaussianOps 2) scenarioBParameters (exhaustiveMatcher 2 2 none 0 scenarioB)
        scenarioB distributions nbPoints = some (st, passes) ∧
      MeanTracked (gaussianOps 2) (initState scenarioB distributions nbPoints) ∧
      (∀ e ∈ loopStates (gaussianOps 2) scenarioBParameters
          (exhaustiveMatcher 2 2 none 0 scenarioB) (scenarioB.getNbPoints + 1)
          (initState scenarioB distributions nbPoints) 0,
        MeanTracked (gaussianOps 2) e.2 ∧
        ∃ s, stepPoint (gaussianOps 2) scenarioBParameters
            (exhaustiveMatcher 2 2 none 0 scenarioB) e.2 e.1 = some s ∧
          MeanTracked (gaussianOps 2) s) ∧
      MeanTracked (gaussianOps 2) st ∧
      ∀ (s : MergeState 2 (Gaussian 2)) (i : Nat) (col : List Int) (pt : Point 2)
        (d : Gaussian 2),
        MeanTracked (gaussianOps 2) s → s.masks[i]? = some true →
        (exhaustiveMatcher 2 2 none 0 scenarioB).ids[i]? = some col →
        col[0]? = some (i : Int) →
        (∀ j, 1 ≤ j → j < scenarioBParameters.knn →
          ∃ id, col[j]? = some id ∧ atId s.masks id = some false) →
        s.cloud.points[i]? = some pt → s.distributions[i]? = some d →
        neighborhood (gaussianOps 2) scenarioBParameters.knn col s.masks s.distributions
          = some d ∧
        (Vec.sub ((gaussianOps 2).getMean d) (topRows pt.feature)).1 = List.replicate 2 0 ∧
        decision (gaussianOps 2) scenarioBParameters (exhaustiveMatcher 2 2 none 0 scenarioB) s i
          = some (decide (0 ≤ scenarioBParameters.maxDeviation)) ∧
        stepPoint (gaussianOps 2) scenarioBParameters
          (exhaustiveMatcher 2 2 none 0 scenarioB) s i = some s :=
  ⟨by decide, by decide!,
    mean_tracking (gaussianOps 2) (exhaustiveMatcher 2) scenarioBParameters scenarioB
      (by decide) (by decide) (by decide!) (fun _ _ => rfl) (fun _ _ _ => rfl)⟩

/-! ## Fixed point (C20) -/

theorem decision_congr {D : Nat} {Dist : Type} (ops : DistributionOps D Dist) (p : Parameters)
    (ms : Matches) (s s2 : MergeState D Dist) (i : Nat) (hm : s2.masks = s.masks)
    (hd : s2.distributions = s.distributions) (hp : s2.cloud.points[i]? = s.cloud.points[i]?) :
    decision ops p ms s2 i = decision ops p ms s i := by
  unfold decision
  rw [hm, hd, hp]

theorem quiet_congr {D : Nat} {Dist : Type} (ops : DistributionOps D Dist) (p : Parameters)
    (ms : Matches) (s s2 : MergeState D Dist) (i : Nat) (hm : s2.masks = s.masks)
    (hd : s2.distributions = s.distributions) (hp : s2.cloud.points[i]? = s.cloud.points[i]?)
    (h : Quiet ops p ms s i) : Quiet ops p ms s2 i := by
  unfold Quiet at h ⊢
  rw [hm, hd, hp, decision_congr ops p ms s s2 i hm hd hp]
  exact h

theorem mergeLoop_zero {D : Nat} {Dist : Type} (ops : DistributionOps D Dist) (p : Parameters)
    (ms : Matches) (fuel : Nat) (st s : MergeState D Dist) (lastNbPoints : Nat)
    (h : mergeLoop ops p ms fuel st lastNbPoints = some (s, 0)) :
    s = st ∧ st.currentNbPoints = lastNbPoints := by
  cases fuel with
  | zero =>
    by_cases hc : st.currentNbPoints = lastNbPoints
    · simp [mergeLoop, hc] at h
      exact ⟨h.symm, hc⟩
    · simp [mergeLoop, hc] at h
  | succ fuel =>
    by_cases hc : st.currentNbPoints = lastNbPoints
    · simp [mergeLoop, hc] at h
      exact ⟨h.symm, hc⟩
    · simp only [mergeLoop, hc, if_false] at h
      cases hp : pass ops p ms st with
      | none => simp [hp] at h
      | some s1 =>
        cases hm : mergeLoop ops p ms fuel s1 st.currentNbPoints with
        | none => simp [hp, hm] at h
        | some r1 => simp [hp, hm] at h

/-- A step whose merge is rejected changes nothing. -/
theorem decision_false_step {D : Nat} {Dist : Type} (ops : DistributionOps D Dist)
    (p : Parameters) (ms : Matches) (st : MergeState D Dist) (i : Nat)
    (h : decision ops p ms st i = some false) : stepPoint ops p ms st i = some st := by
  unfold decision at h
  cases h1 : st.masks[i]? with
  | none => simp [h1] at h
  | some m =>
    cases m with
    | false => simp [h1] at h
    | true =>
      cases h2 : ms.ids[i]? with
      | none => simp [h1, h2] at h
      | some col =>
        cases h3 : neighborhood ops p.knn col st.masks st.distributions with
        | none => simp [h1, h2, h3] at h
        | some nd =>
          cases h4 : st.cloud.points[i]? with
          | none => simp [h1, h2, h3, h4] at h
          | some pt =>
            cases h5 : st.distributions[i]? with
            | none => simp [h1, h2, h3, h4, h5] at h
            | some own =>
              simp [h1, h2, h3, h4, h5] at h
              obtain ⟨-, hstep⟩ := stepPoint_live ops p ms st i col nd pt own h1 h2 h3 h4 h5
              rw [hstep, h]
              simp

/-- The step of a quiet point changes nothing. -/
theorem quiet_step {D : Nat} {Dist : Type} (ops : DistributionOps D Dist) (p : Parameters)
    (ms : Matches) (s : MergeState D Dist) (i : Nat) (h : Quiet ops p ms s i) :
    stepPoint ops p ms s i = some s := by
  rcases h with h | h | ⟨col, pt, d, hlive, hcol, h0, hdead, hpt, hd, hmean⟩
  · exact stepPoint_dead ops p ms s i h
  · exact decision_false_step ops p ms s i h
  · exact (alone_step ops p ms s i col pt d hlive hcol h0 hdead hpt hd hmean).2.2.2

/-- An absorption loop that leaves the running count unchanged found every neighbor at
the ranks `1..knn-1` dead. -/
theorem absorb_no_kill {D : Nat} {Dist : Type} {N : Nat} (knn : Nat) (col : List Int) (i : Nat)
    (st s : MergeState D Dist) (hinv : Inv N st) (hi : i < N)
    (hcol : ∀ j, j < knn → ∃ id, col[j]? = some id ∧ 0 ≤ id ∧ id < (N : Int))
    (hs : (List.range' 1 (knn - 1)).foldlM (absorbStep col i) st = some s)
    (hcount : s.currentNbPoints = st.currentNbPoints) :
    ∀ j, 1 ≤ j → j < knn → ∃ id, col[j]? = some id ∧ atId st.masks id = some false := by
  intro j hj1 hj2
  obtain ⟨id, hid, h0, h1⟩ := hcol j hj2
  refine ⟨id, hid, ?_⟩
  have hma : id.toNat < st.masks.length := by rw [hinv.masks]; omega
  have hat : atId st.masks id = some (st.masks[id.toNat]) := by
    simp [atId, h0, List.getElem?_eq_getElem hma]
  cases hb : st.masks[id.toNat] with
  | false => rw [hat, hb]
  | true =>
    exfalso
    obtain ⟨s', hs', hinvs, hev, -, -, -⟩ := absorb_spec knn col i st hinv hi hcol
    rw [hs] at hs'
    cases hs'
    obtain ⟨-, hkill⟩ := absorb_kills col i _ _ s hs
    have hdead := hkill j (List.mem_range'_1.mpr ⟨hj1, by omega⟩) id hid
    rw [atId_false_iff] at hdead
    have hlt := liveCount_lt_of_cleared st.masks s.masks (by rw [hinv.masks, hinvs.masks])
      hev.mono id.toNat (by rw [List.getElem?_eq_getElem hma, hb]) hdead.2
    rw [← hinvs.count, ← hinv.count, hcount] at hlt
    exact absurd hlt (lt_irrefl _)

/-- A step that leaves the running count unchanged changes at most the coordinates of its
point, and leaves the point quiet. -/
theorem step_no_kill {D : Nat} {Dist : Type} (ops : DistributionOps D Dist) (p : Parameters)
    (ms : Matches) {N : Nat} (s s2 : MergeState D Dist) (i : Nat)
    (hv : ValidTable p.knn N ms) (hself : SelfFirst ms) (hinv : Inv N s) (hi : i < N)
    (hs : stepPoint ops p ms s i = some s2)
    (hcount : s2.currentNbPoints = s.currentNbPoints) :
    s2.masks = s.masks ∧ s2.distributions = s.distributions ∧
      (∀ j : Nat, j ≠ i → s2.cloud.points[j]? = s.cloud.points[j]?) ∧
      Quiet ops p ms s2 i := by
  have hmi : i < s.masks.length := by rw [hinv.masks]; exact hi
  have hpi : i < s.cloud.points.length := by rw [hinv.points]; exact hi
  have hdi : i < s.distributions.length := by rw [hinv.dists]; exact hi
  cases hb : s.masks[i] with
  | false =>
    have hdead : s.masks[i]? = some false := by rw [List.getElem?_eq_getElem hmi, hb]
    rw [stepPoint_dead ops p ms s i hdead] at hs
    cases hs
    exact ⟨rfl, rfl, fun _ _ => rfl, Or.inl hdead⟩
  | true =>
    have hlive : s.masks[i]? = some true := by rw [List.getElem?_eq_getElem hmi, hb]
    obtain ⟨col, hcol, hpos, hk, hids⟩ := validTable_col hv hi
    obtain ⟨nd, hnd⟩ := neighborhood_some ops p.knn col s.masks s.distributions
      hinv.masks hinv.dists hpos hk hids
    obtain ⟨hdec, hstep⟩ := stepPoint_live ops p ms s i col nd (s.cloud.points[i])
      (s.distributions[i]) hlive hcol hnd (List.getElem?_eq_getElem hpi)
      (List.getElem?_eq_getElem hdi)
    cases hacc : accepted ops p.maxDeviation nd (s.cloud.points[i]).feature
        (s.distributions[i]) with
    | false =>
      rw [hacc] at hdec hstep
      rw [hs] at hstep
      simp at hstep
      subst hstep
      exact ⟨rfl, rfl, fun _ _ => rfl, Or.inr (Or.inl hdec)⟩
    | true =>
      rw [hacc] at hstep
      simp only [if_true] at hstep
      rw [hs] at hstep
      have hinv1 : Inv N ({ s with
          cloud := { s.cloud with points := (s.cloud.points.set i
            (Point.mk (setTopRows (s.cloud.points[i]).feature (ops.getMean nd))
              (s.cloud.points[i]).descriptor)) },
          distributions := s.distributions.set i nd } : MergeState D Dist) :=
        ⟨by simp [hinv.points], by simp [hinv.dists], hinv.cols, hinv.rowsPos,
          hinv.masks, hinv.count, hinv.bound⟩
      have hdead := absorb_no_kill p.knn col i _ s2 hinv1 hi hids hstep.symm hcount
      have hal := absorb_alone p.knn col i _ hdead
      rw [hal] at hstep
      have h0 : col[0]? = some (i : Int) := by
        have hil : i < ms.ids.length := by rw [hv.1]; exact hi
        have := hself i hil
        rwa [List.getD_eq_getElem?_getD, hcol] at this
      have hown : neighborhood ops p.knn col s.masks s.distributions
          = some (s.distributions[i]) :=
        neighborhood_alone ops p.knn col s.masks s.distributions i _ h0
          (by simp [atId, List.getElem?_eq_getElem hdi]) hdead
      rw [hnd] at hown
      have hndo : nd = s.distributions[i] := Option.some.inj hown
      have hs2 := Option.some.inj hstep
      subst hs2
      refine ⟨rfl, ?_, ?_, ?_⟩
      · show s.distributions.set i nd = s.distributions
        rw [hndo]
        exact set_self_of_get _ _ _ (List.getElem?_eq_getElem hdi)
      · intro j hj
        show (s.cloud.points.set i _)[j]? = _
        rw [List.getElem?_set, if_neg (Ne.symm hj)]
      · unfold Quiet
        right
        right
        refine ⟨col, Point.mk (setTopRows (s.cloud.points[i]).feature (ops.getMean nd))
          (s.cloud.points[i]).descriptor, nd, hlive, hcol, h0, hdead, ?_, ?_, ?_⟩
        · show (s.cloud.points.set i _)[i]? = some _
          rw [List.getElem?_set]
          simp only [if_true, if_pos hpi]
        · show (s.distributions.set i nd)[i]? = some nd
          rw [List.getElem?_set]
          simp only [if_true, if_pos hdi]
        · exact (topRows_setTopRows _ _).symm

/-- A pass that leaves the running count unchanged leaves every point quiet. -/
theorem pass_no_kill {D : Nat} {Dist : Type} (ops : DistributionOps D Dist) (p : Parameters)
    (ms : Matches) {N : Nat} (s0 st : MergeState D Dist)
    (hv : ValidTable p.knn N ms) (hself : SelfFirst ms) (hinv : Inv N s0)
    (hp : pass ops p ms s0 = some st) (hcount : st.currentNbPoints = s0.currentNbPoints) :
    ∀ j, j < N → Quiet ops p ms st j := by
  obtain ⟨s', hs', -, -, hq⟩ := foldlM_range_inv
    (fun (k : Nat) (s : MergeState D Dist) => Inv N s ∧
      s.currentNbPoints ≤ s0.currentNbPoints ∧
      (s.currentNbPoints = s0.currentNbPoints → ∀ j, j < k → Quiet ops p ms s j))
    (stepPoint ops p ms) s0 N
    ⟨hinv, le_refl _, fun _ j hj => absurd hj (Nat.not_lt_zero _)⟩
    (by
      intro i s hi ⟨hinvs, hle, hq⟩
      obtain ⟨s2, hs2, hinv2, hev, -⟩ := stepPoint_spec ops p ms s i hv hinvs hi
      have hle2 : s2.currentNbPoints ≤ s.currentNbPoints := by
        rw [hinv2.count, hinvs.count]
        exact hev.le
      refine ⟨s2, hs2, hinv2, le_trans hle2 hle, ?_⟩
      intro heq j hj
      have hseq : s.currentNbPoints = s0.currentNbPoints := by omega
      have hc2 : s2.currentNbPoints = s.currentNbPoints := by omega
      obtain ⟨hm, hd, hpts, hquiet⟩ := step_no_kill ops p ms s s2 i hv hself hinvs hi hs2 hc2
      by_cases hji : j = i
      · subst hji
        exact hquiet
      · exact quiet_congr ops p ms s s2 j hm hd (hpts j hji) (hq hseq j (by omega)))
  have hp' : (List.range N).foldlM (stepPoint ops p ms) s0 = some st := by
    have := hp
    unfold pass at this
    rwa [show s0.cloud.getNbPoints = N from hinv.points] at this
  rw [hp'] at hs'
  cases hs'
  exact hq hcount

/-- C20 (the result is a fixed point of the pass). For every start of the merge loop on
`N < 2 ^ 32` points and every neighbor table with valid ids that lists every point's own
id at rank 0 (an own id at a rank `>= 1` is not excluded), the loop stops in a state `st`
on which one further pass changes nothing, and in `st` every live point has only dead
neighbors at the ranks `1..knn-1` or fails the acceptance test. -/
theorem fixed_point {D : Nat} {Dist : Type} (ops : DistributionOps D Dist) (p : Parameters)
    (ms : Matches) (cloud : DataPoints D) (distributions : List Dist) (nbPoints : Matrix)
    (hv : ValidTable p.knn cloud.getNbPoints ms) (hself : SelfFirst ms)
    (hN : cloud.getNbPoints < 4294967296)
    (hd : distributions.length = cloud.getNbPoints)
    (hc : nbPoints.cols.length = cloud.getNbPoints)
    (hl : ∀ col ∈ nbPoints.cols, col.length = 1) :
    ∃ st passes, runMerge ops p ms cloud distributions nbPoints = some (st, passes) ∧
      pass ops p ms st = some st ∧
      ∀ (i : Nat) (col : List Int), st.masks[i]? = some true → ms.ids[i]? = some col →
        (∀ j, 1 ≤ j → j < p.knn → ∃ id, col[j]? = some id ∧ atId st.masks id = some false) ∨
        decision ops p ms st i = some false := by
  obtain ⟨st, n, hrun, hinvst, -, -, -, -, hlast⟩ := runMerge_spec ops p ms cloud
    distributions nbPoints hv hN hd hc hl
  have hrun0 := hrun 0
  have hquiet : ∀ j, j < cloud.points.length → Quiet ops p ms st j := by
    cases n with
    | zero =>
      obtain ⟨-, hzero⟩ := mergeLoop_zero ops p ms _ _ _ _ hrun0
      have hN0 : cloud.points.length = 0 := by
        have h1 : cloud.getNbPoints % 4294967296 = 0 := hzero
        rw [Nat.mod_eq_of_lt hN] at h1
        exact h1
      intro j hj
      omega
    | succ n =>
      obtain ⟨s0, hinv0, -, hp, hcount⟩ := hlast (Nat.succ_pos n)
      exact pass_no_kill ops p ms s0 st hv hself hinv0 hp hcount.symm
  refine ⟨st, n, hrun0, ?_, ?_⟩
  · unfold pass
    obtain ⟨s', hs', hst⟩ := foldlM_inv (fun s => s = st) (stepPoint ops p ms)
      (List.range st.cloud.getNbPoints) st rfl (by
        intro s a ha hs
        subst hs
        have ha' : a < cloud.points.length := by
          have := List.mem_range.mp ha
          simpa [DataPoints.getNbPoints, hinvst.points] using this
        exact ⟨s, quiet_step ops p ms s a (hquiet a ha'), rfl⟩)
    rw [hs', hst]
  · intro i col hlive hcol
    have hi : i < cloud.points.length := by
      by_contra hcon
      rw [List.getElem?_eq_none (by rw [hinvst.masks]; omega)] at hlive
      cases hlive
    rcases hquiet i hi with h | h | ⟨col2, pt, d, -, hcol2, -, hdead, -, -, -⟩
    · rw [hlive] at h
      cases h
    · exact Or.inr h
    · rw [hcol] at hcol2
      cases hcol2
      exact Or.inl hdead

/-- Witness of C20 on scenario B. -/
theorem fixed_point_witness :
    ValidTable 2 3 ⟨[[0, 1], [1, 0], [2, 1]]⟩ ∧ SelfFirst ⟨[[0, 1], [1, 0], [2, 1]]⟩ ∧
    ∃ st passes,
      runMerge (gaussianOps 2) scenarioBParameters ⟨[[0, 1], [1, 0], [2, 1]]⟩ scenarioB
        (scenarioB.points.map (freshDistribution (gaussianOps 2) scenarioBParameters))
        (Matrix.Ones 1 3) = some (st, passes) ∧
      pass (gaussianOps 2) scenarioBParameters ⟨[[0, 1], [1, 0], [2, 1]]⟩ st = some st ∧
      ∀ (i : Nat) (col : List Int), st.masks[i]? = some true →
        (⟨[[0, 1], [1, 0], [2, 1]]⟩ : Matches).ids[i]? = some col →
        (∀ j, 1 ≤ j → j < scenarioBParameters.knn →
          ∃ id, col[j]? = some id ∧ atId st.masks id = some false) ∨
        decision (gaussianOps 2) scenarioBParameters ⟨[[0, 1], [1, 0], [2, 1]]⟩ st i
          = some false :=
  ⟨by decide, by decide,
    fixed_point (gaussianOps 2) scenarioBParameters ⟨[[0, 1], [1, 0], [2, 1]]⟩ scenarioB
      (scenarioB.points.map (freshDistribution (gaussianOps 2) scenarioBParameters))
      (Matrix.Ones 1 3) (by decide) (by decide) (by decide) rfl rfl (by decide)⟩

/-! ## Conservation across re-application (C11) -/

theorem liveSum_all (cols : List (List ℚ)) :
    liveSum (List.replicate cols.length true) cols = (cols.map row0).sum := by
  unfold liveSum
  rw [List.length_replicate, ← sum_range_eq]
  congr 1
  apply List.ext_getElem?
  intro k
  by_cases hk : k < cols.length
  · simp [List.getElem?_map, List.getElem?_range hk, List.getD_eq_getElem?_getD,
      List.getElem?_replicate, hk, List.getElem?_eq_getElem hk]
  · have hk' : cols.length ≤ k := by omega
    simp [List.getElem?_eq_none hk', hk]
    omega

/-- Conservation on a cloud that carries the three descriptors: when every id of the
neighbor table is valid and no point has its own id at a rank `>= 1`, the working
`nbPoints` is the existing column and the `nbPoints` sum of the output is the `nbPoints`
sum of the input. -/
theorem conservation_carried {D : Nat} {Dist : Type} (ops : DistributionOps D Dist)
    (matcher : Matcher D) (p : Parameters) (cloud : DataPoints D)
    (h1 : (findLabel cloud.descriptorLabels "covariance" 0).isSome = true)
    (h2 : (findLabel cloud.descriptorLabels "weightSum" 0).isSome = true)
    (h3 : (findLabel cloud.descriptorLabels "nbPoints" 0).isSome = true)
    (hw : WellShaped cloud) (hN : cloud.getNbPoints < 4294967296)
    (hv : ValidTable p.knn cloud.getNbPoints (matcher p.knn p.maxDist p.epsilon cloud))
    (hself : NoSelfMatch (matcher p.knn p.maxDist p.epsilon cloud)) :
    ∃ distributions nb out, initSummaries ops p cloud = some (distributions, nb) ∧
      cloud.getDescriptorViewByName "nbPoints" = some nb ∧
      inPlaceFilter ops matcher p cloud = some out ∧
      descriptorSum out "nbPoints" = descriptorSum cloud "nbPoints" := by
  obtain ⟨ds, nb, st, n, out, hinit, -, hout, -, -, hcons, -, -, howf, -, -, hnb, hrel⟩ :=
    inPlaceFilter_spec ops matcher p cloud hw hN hv
  obtain ⟨ds2, nb2, hinit2, hview, -, -⟩ := initSummaries_carried ops p cloud hw h1 h2 h3
  rw [hinit] at hinit2
  simp only [Option.some.injEq, Prod.mk.injEq] at hinit2
  rw [← hinit2.2] at hview
  refine ⟨ds, nb, out, hinit, hview, hout, ?_⟩
  rw [output_sum ops st out howf hnb hrel, (hcons hself).sum]
  unfold descriptorSum
  rw [hview]
  simp only [Option.map_some', Option.some.injEq]
  have hlen : nb.cols.length = cloud.getNbPoints := by
    obtain ⟨ds3, nb3, hinit3, -, -, hcl3, -, -, -⟩ := initSummaries_spec ops p cloud hw
    rw [hinit] at hinit3
    simp only [Option.some.injEq, Prod.mk.injEq] at hinit3
    rw [hinit3.2]
    exact hcl3
  show liveSum (List.replicate cloud.getNbPoints true) nb.cols = _
  rw [← hlen]
  exact liveSum_all nb.cols

/-- C11 (conservation across re-application) fails on the code. The cloud `threeCarried`
carries the three descriptors, the working `nbPoints` is read from its column (2, 3, 4,
sum 9), and the exhaustive search ranks point 1 behind the coincident point 0 in its own
column. With `knn = 3` and `maxDeviation = 1` point 0 is rejected, point 1 is accepted
and absorbs itself and point 2; the output is point 0 alone and its `nbPoints` sum is 2. -/
theorem reapply_sum_lost :
    threeCarried.descriptorExists "covariance" = true ∧
    threeCarried.descriptorExists "weightSum" = true ∧
    threeCarried.descriptorExists "nbPoints" = true ∧
    WellShaped threeCarried ∧
    exhaustiveMatcher 2 3 none 0 threeCarried = ⟨[[0, 1, 2], [0, 1, 2], [2, 0, 1]]⟩ ∧
    (initSummaries (gaussianOps 2) ⟨3, none, 0, 1 / 100, 1⟩ threeCarried).map (fun s => s.2)
      = some ⟨1, [[2], [3], [4]]⟩ ∧
    descriptorSum threeCarried "nbPoints" = some 9 ∧
    ((initSummaries (gaussianOps 2) ⟨3, none, 0, 1 / 100, 1⟩ threeCarried).bind (fun s =>
      runMerge (gaussianOps 2) ⟨3, none, 0, 1 / 100, 1⟩ ⟨[[0, 1, 2], [0, 1, 2], [2, 0, 1]]⟩
        threeCarried s.1 s.2)).map (fun r => (r.1.masks, r.1.nbPoints.cols))
      = some ([true, false, false], [[2], [10], [4]]) ∧
    inPlaceFilter (gaussianOps 2) (exhaustiveMatcher 2) ⟨3, none, 0, 1 / 100, 1⟩ threeCarried
      = some ⟨[("covariance", 4), ("weightSum", 4), ("nbPoints", 1)],
          [point2d 0 0 [100, 0, 0, 100, 1, 0, 0, 1, 2]]⟩ ∧
    (inPlaceFilter (gaussianOps 2) (exhaustiveMatcher 2) ⟨3, none, 0, 1 / 100, 1⟩
      threeCarried).bind (fun out => descriptorSum out "nbPoints") = some 2 := by
  decide!

end Compression
